import Mathlib

/-!
Verification development for the incremental knowledge-graph construction and
argument-clustering pipeline of the PROJETO-TESE repository
(`src/backend/kg_creator.py`, with the stance-classification interface of
`src/backend/stance_classification.py`).

The embedding models:
  * Python string primitives (`strip`, `split`, `splitlines`, `startswith`,
    `lstrip`, `replace`, `upper`, substring containment) as executable
    functions over `List Char`;
  * the Neo4j property graph touched by `kg_creator.py` as a `GraphState`
    record of node and edge lists, with Cypher `MERGE` modelled as
    create-if-absent-else-update keyed exactly by the natural keys used in
    the source queries;
  * the language-model chains as oracle parameters (`Except`-valued for the
    calls made inside the ingestion loop, mirroring that a raised exception
    in Python propagates out of `create_knowledge_graph`).
-/

namespace KG

/-! ## Python string primitives (over `List Char`) -/

/-- Whitespace recognised by Python `str.strip()` (the ASCII cases). -/
def isWS (c : Char) : Bool := c == ' ' || c == '\t' || c == '\n' || c == '\r'

/-- Characters of a string with leading and trailing whitespace removed,
modelling Python `str.strip()`. -/
def stripChars (l : List Char) : List Char :=
  ((l.dropWhile isWS).reverse.dropWhile isWS).reverse

/-- Python `s.strip()`. -/
def pyStrip (s : String) : String := ⟨stripChars s.data⟩

/-- Python `s.lstrip("-")`: drop all leading dash characters. -/
def pyLStripDash (s : String) : String := ⟨s.data.dropWhile (fun c => c == '-')⟩

/-- Python `s.startswith(p)`. -/
def pyStartsWith (s p : String) : Bool := p.data.isPrefixOf s.data

/-- Python `s.upper()` (ASCII behaviour). -/
def pyUpper (s : String) : String := ⟨s.data.map Char.toUpper⟩

/-- Split a character list at every occurrence of `c`, keeping empty pieces,
modelling Python `s.split(c)` for a single-character separator. -/
def splitOnChar (c : Char) : List Char → List (List Char)
  | [] => [[]]
  | x :: xs =>
    match splitOnChar c xs with
    | [] => [[]]
    | g :: gs => if x == c then [] :: g :: gs else (x :: g) :: gs

/-- Python `s.split("\n")`, as used by `kg_creator.py` on model responses. -/
def pySplitNL (s : String) : List String :=
  (splitOnChar '\n' s.data).map (fun l => ⟨l⟩)

/-- Characters after the first space of the list; empty if the first space
ends the list. -/
def afterFirstSpaceChars : List Char → List Char
  | [] => []
  | c :: cs => if c == ' ' then cs else afterFirstSpaceChars cs

/-- Python `line.split(" ", 1)[-1]`: everything after the first space, or the
whole string when it contains no space. -/
def afterFirstSpace (s : String) : String :=
  if s.data.any (fun c => c == ' ') then ⟨afterFirstSpaceChars s.data⟩ else s

/-- Containment of a pattern as a contiguous sublist. -/
def containsList (pat : List Char) : List Char → Bool
  | [] => pat.isEmpty
  | x :: xs => pat.isPrefixOf (x :: xs) || containsList pat xs

/-- Python `pat in s` (substring containment). -/
def pyContains (s pat : String) : Bool := containsList pat.data s.data

/-- Scanner for `replaceChars`: while the skip counter is positive the current
character belongs to an already-matched occurrence and is dropped; at skip
zero, a fresh occurrence of the pattern emits the replacement and schedules the
remaining matched characters to be skipped. -/
def replaceSkip (pat repl : List Char) : List Char → Nat → List Char
  | [], _ => []
  | _ :: xs, k + 1 => replaceSkip pat repl xs k
  | x :: xs, 0 =>
    if pat.isPrefixOf (x :: xs) then
      repl ++ replaceSkip pat repl xs (pat.length - 1)
    else
      x :: replaceSkip pat repl xs 0

/-- Replace every occurrence of a nonempty pattern left-to-right without
overlap, modelling Python `s.replace(pat, repl)`; an empty pattern leaves the
string unchanged. -/
def replaceChars (pat repl : List Char) (s : List Char) : List Char :=
  if pat.isEmpty then s else replaceSkip pat repl s 0

/-- Python `s.replace(pat, repl)`. -/
def pyReplace (s pat repl : String) : String := ⟨replaceChars pat.data repl.data s.data⟩

/-! ## Graph data model

Nodes and edges carry exactly the properties written by the Cypher queries of
`kg_creator.py`; each node kind is keyed by the natural key used in the
corresponding `MERGE`/`MATCH` clauses. -/

/-- Topic node (`MERGE (t:Topic {url: $url})`). -/
structure TopicNode where
  url : String
  title : String
  discussion_id : String
deriving Repr, DecidableEq

/-- Comment node, keyed by `(id, discussion_id)`. -/
structure CommentNode where
  id : String
  discussion_id : String
  body : String
  author : String
  score : Int
deriving Repr, DecidableEq

/-- Reply node, keyed by `(id, discussion_id)`. -/
structure ReplyNode where
  id : String
  discussion_id : String
  parent_comment_id : String
  body : String
  author : String
  score : Int
deriving Repr, DecidableEq

/-- Argument node, keyed by `(text, discussion_id)`. -/
structure ArgNode where
  text : String
  discussion_id : String
  stance : String
deriving Repr, DecidableEq

/-- ArgumentGroup node, keyed by `(summary, stance, discussion_id)`. -/
structure GroupNode where
  summary : String
  stance : String
  discussion_id : String
deriving Repr, DecidableEq

/-- Stance-typed edge `(c:Comment)-[:SUPPORTS|OPPOSES|NEUTRAL]->(t:Topic)`. -/
structure StanceEdge where
  comment_id : String
  topic_title : String
  rel : String
  discussion_id : String
deriving Repr, DecidableEq

/-- Edge `(r:Reply)-[:REPLY_TO]->(c:Comment)`. -/
structure ReplyEdge where
  reply_id : String
  comment_id : String
  discussion_id : String
deriving Repr, DecidableEq

/-- Edge `(a:Argument)-[:EXTRACTED_FROM]->(c:Comment | r:Reply)`; `fromReply`
records which label the target node carries. -/
structure ExtractedEdge where
  text : String
  unit_id : String
  discussion_id : String
  fromReply : Bool
deriving Repr, DecidableEq

/-- Edge `(a:Argument)-[:HAS_GROUP]->(g:ArgumentGroup)`; the source argument is
identified by `(text, discussion_id)` and the target group by
`(summary, stance, discussion_id)` (both `MATCH`ed with the same
`$discussion_id`). -/
structure HasGroupEdge where
  text : String
  summary : String
  stance : String
  discussion_id : String
deriving Repr, DecidableEq

/-- The property graph state: one list per node label and edge type. -/
structure GraphState where
  topics : List TopicNode
  comments : List CommentNode
  replies : List ReplyNode
  arguments : List ArgNode
  groups : List GroupNode
  stanceEdges : List StanceEdge
  replyEdges : List ReplyEdge
  extractedEdges : List ExtractedEdge
  hasGroupEdges : List HasGroupEdge
deriving Repr, DecidableEq

/-- The empty graph. -/
def emptyGraph : GraphState := ⟨[], [], [], [], [], [], [], [], []⟩

/-! ## Cypher helpers of `kg_creator.py` -/

/-- The module-level `STANCE_MAP` dict; only ever applied to the three keys. -/
def STANCE_MAP (stance : String) : String :=
  if stance == "FOR" then "SUPPORTS"
  else if stance == "AGAINST" then "OPPOSES"
  else "NEUTRAL"

/-- Cypher helper `check_existing_discussion_by_url`. -/
def check_existing_discussion_by_url (st : GraphState) (url : String) : Option String :=
  (st.topics.find? (fun t => t.url == url)).map (fun t => t.discussion_id)

/-- Cypher helper `check_comment_exists`. -/
def check_comment_exists (st : GraphState) (comment_id discussion_id : String) : Bool :=
  st.comments.any (fun c => c.id == comment_id && c.discussion_id == discussion_id)

/-- Cypher helper `check_reply_exists`. -/
def check_reply_exists (st : GraphState) (reply_id discussion_id : String) : Bool :=
  st.replies.any (fun r => r.id == reply_id && r.discussion_id == discussion_id)

/-- Cypher helper `merge_topic`: `MERGE` on `url`, then `SET` title and
discussion_id. -/
def merge_topic (st : GraphState) (title discussion_id url : String) : GraphState :=
  if st.topics.any (fun t => t.url == url) then
    { st with topics := st.topics.map (fun t =>
        if t.url == url then { t with title := title, discussion_id := discussion_id } else t) }
  else
    { st with topics := st.topics ++ [⟨url, title, discussion_id⟩] }

/-- Cypher helper `merge_comment`: `MERGE` on `(id, discussion_id)`, then `SET`
the mutable fields body/author/score. -/
def merge_comment (st : GraphState) (c : CommentNode) : GraphState :=
  if st.comments.any (fun x => x.id == c.id && x.discussion_id == c.discussion_id) then
    { st with comments := st.comments.map (fun x =>
        if x.id == c.id && x.discussion_id == c.discussion_id then
          { x with body := c.body, author := c.author, score := c.score } else x) }
  else
    { st with comments := st.comments ++ [c] }

/-- Cypher helper `merge_reply`: `MERGE` on `(id, discussion_id)`, then `SET`
body/author/score/parent_comment_id. -/
def merge_reply (st : GraphState) (r : ReplyNode) : GraphState :=
  if st.replies.any (fun x => x.id == r.id && x.discussion_id == r.discussion_id) then
    { st with replies := st.replies.map (fun x =>
        if x.id == r.id && x.discussion_id == r.discussion_id then
          { x with body := r.body, author := r.author, score := r.score,
                   parent_comment_id := r.parent_comment_id } else x) }
  else
    { st with replies := st.replies ++ [r] }

/-- The `MATCH (a:Argument {text: $text, discussion_id: $discussion_id})`
existence test. -/
def argEx (st : GraphState) (text discussion_id : String) : Bool :=
  st.arguments.any (fun a => a.text == text && a.discussion_id == discussion_id)

/-- The `MATCH (g:ArgumentGroup {summary, stance, discussion_id})` existence
test. -/
def groupEx (st : GraphState) (summary stance discussion_id : String) : Bool :=
  st.groups.any (fun g =>
    g.summary == summary && g.stance == stance && g.discussion_id == discussion_id)

/-- Cypher helper `merge_argument`: `MERGE` on `(text, discussion_id)`, then
`SET` the stance. -/
def merge_argument (st : GraphState) (text stance discussion_id : String) : GraphState :=
  if argEx st text discussion_id then
    { st with arguments := st.arguments.map (fun a =>
        if a.text == text && a.discussion_id == discussion_id then
          { a with stance := stance } else a) }
  else
    { st with arguments := st.arguments ++ [⟨text, discussion_id, stance⟩] }

/-- Group upsert inside `group_arguments_by_stance`: `MERGE` on
`(summary, stance, discussion_id)`. -/
def merge_group (st : GraphState) (g : GroupNode) : GraphState :=
  if groupEx st g.summary g.stance g.discussion_id then
    st
  else
    { st with groups := st.groups ++ [g] }

/-- Cypher helper `connect_comment_to_topic`: two `MATCH`es then `MERGE` of a
stance-typed relationship; no edge is created when a `MATCH` finds nothing. -/
def connect_comment_to_topic (st : GraphState) (comment_id topic_title stance discussion_id : String) :
    GraphState :=
  let e : StanceEdge := ⟨comment_id, topic_title, STANCE_MAP stance, discussion_id⟩
  if st.topics.any (fun t => t.title == topic_title && t.discussion_id == discussion_id)
      && check_comment_exists st comment_id discussion_id then
    if e ∈ st.stanceEdges then st else { st with stanceEdges := st.stanceEdges ++ [e] }
  else st

/-- Cypher helper `connect_reply_to_comment`. -/
def connect_reply_to_comment (st : GraphState) (reply_id comment_id discussion_id : String) :
    GraphState :=
  let e : ReplyEdge := ⟨reply_id, comment_id, discussion_id⟩
  if check_reply_exists st reply_id discussion_id
      && check_comment_exists st comment_id discussion_id then
    if e ∈ st.replyEdges then st else { st with replyEdges := st.replyEdges ++ [e] }
  else st

/-- Cypher helper `connect_argument_to_comment`. -/
def connect_argument_to_comment (st : GraphState) (text comment_id discussion_id : String) :
    GraphState :=
  let e : ExtractedEdge := ⟨text, comment_id, discussion_id, false⟩
  if argEx st text discussion_id && check_comment_exists st comment_id discussion_id then
    if e ∈ st.extractedEdges then st else { st with extractedEdges := st.extractedEdges ++ [e] }
  else st

/-- Cypher helper `connect_argument_to_reply`. -/
def connect_argument_to_reply (st : GraphState) (text reply_id discussion_id : String) :
    GraphState :=
  let e : ExtractedEdge := ⟨text, reply_id, discussion_id, true⟩
  if argEx st text discussion_id && check_reply_exists st reply_id discussion_id then
    if e ∈ st.extractedEdges then st else { st with extractedEdges := st.extractedEdges ++ [e] }
  else st

/-- The `MERGE (a)-[:HAS_GROUP]->(g)` step inside `group_arguments_by_stance`:
both endpoints are `MATCH`ed (the argument by text and discussion only, with no
stance filter), and the edge is created once. -/
def mergeHasGroupEdge (st : GraphState) (text summary stance discussion_id : String) : GraphState :=
  let e : HasGroupEdge := ⟨text, summary, stance, discussion_id⟩
  if argEx st text discussion_id && groupEx st summary stance discussion_id then
    if e ∈ st.hasGroupEdges then st else { st with hasGroupEdges := st.hasGroupEdges ++ [e] }
  else st

/-! ## Language-model oracles

A chain invocation is an external call; inside the ingestion loop it can raise
(network failure, API error), which in `create_knowledge_graph` is not caught,
so oracles used there are `Except`-valued.  The grouping chain runs after the
loop and is modelled as a plain function of its two prompt variables. -/

/-- Oracle type for the extraction and stance-classification chains:
arguments are the two prompt variables, result the `response.content`. -/
abbrev LLM := String → String → Except String String

/-- A total oracle that always responds. -/
def pureLLM (f : String → String → String) : LLM := fun a b => .ok (f a b)

/-- Decidable equality of `Except` results (used to evaluate the embedded
functions on concrete inputs). -/
instance {ε α : Type} [DecidableEq ε] [DecidableEq α] : DecidableEq (Except ε α) := fun a b =>
  match a, b with
  | .ok x, .ok y =>
    if h : x = y then isTrue (by rw [h]) else isFalse (fun hc => h (Except.ok.inj hc))
  | .error e, .error f =>
    if h : e = f then isTrue (by rw [h]) else isFalse (fun hc => h (Except.error.inj hc))
  | .ok _, .error _ => isFalse (fun hc => Except.noConfusion hc)
  | .error _, .ok _ => isFalse (fun hc => Except.noConfusion hc)

/-! ## Argument extraction and stance classification (`extract_and_classify_arguments`) -/

/-- Tolerant line parsing of an extraction response: keep the non-blank lines,
take everything after the first space of each (Python
`line.split(" ", 1)[-1]`), and strip the result. -/
def extractLines (content : String) : List String :=
  ((pySplitNL content).filter (fun l => pyStrip l != "")).map
    (fun l => pyStrip (afterFirstSpace l))

/-- The membership test `stance in ["FOR", "AGAINST", "NEUTRAL"]`. -/
def validStance (s : String) : Bool := s == "FOR" || s == "AGAINST" || s == "NEUTRAL"

/-- The per-argument classification loop of `extract_and_classify_arguments`:
each stance response is stripped and upper-cased, then validated against the
three-label set; arguments with an invalid label are logged and skipped. -/
def classifyLoop (stanceO : LLM) (topic : String) : List String → Except String (List (String × String))
  | [] => .ok []
  | arg :: rest => do
    let resp ← stanceO arg topic
    let stance := pyUpper (pyStrip resp)
    let tail ← classifyLoop stanceO topic rest
    if validStance stance then
      .ok ((arg, stance) :: tail)
    else
      .ok tail

/-- `extract_and_classify_arguments(text, topic)` of `kg_creator.py`. -/
def extract_and_classify_arguments (extractO stanceO : LLM) (text topic : String) :
    Except String (List (String × String)) := do
  let response ← extractO text topic
  let content := pyStrip response
  if pyContains content "No clear arguments found" then
    .ok []
  else
    classifyLoop stanceO topic (extractLines content)

/-! ## Argument grouping engine (`group_arguments_by_stance`) -/

/-- Association-list update modelling `group_map[current_group] = []` on a
Python dict: an existing key keeps its position and its value is reset; a new
key is appended. -/
def amSet (m : List (String × List String)) (k : String) : List (String × List String) :=
  if m.any (fun p => p.1 == k) then
    m.map (fun p => if p.1 == k then (p.1, ([] : List String)) else p)
  else m ++ [(k, [])]

/-- Association-list update modelling `group_map[current_group].append(arg)`. -/
def amApp (m : List (String × List String)) (k : String) (v : String) :
    List (String × List String) :=
  m.map (fun p => if p.1 == k then (p.1, p.2 ++ [v]) else p)

/-- One step of the response parser of `group_arguments_by_stance`: a line
whose stripped form starts with `Group:` opens (and resets) a group; a stripped
line starting with `-` appends a member to the current group, but only when
`current_group` is truthy (non-`None` and non-empty); other lines are ignored. -/
def parseStep (acc : Option String × List (String × List String)) (line : String) :
    Option String × List (String × List String) :=
  if pyStartsWith (pyStrip line) "Group:" then
    let g := pyStrip (pyReplace line "Group:" "")
    (some g, amSet acc.2 g)
  else if pyStartsWith (pyStrip line) "-" && (acc.1.getD "") != "" then
    (acc.1, amApp acc.2 (acc.1.getD "") (pyStrip (pyLStripDash (pyStrip line))))
  else acc

/-- The full line-by-line parse of a grouping response into `group_map`. -/
def parseGroupLines (lines : List String) : List (String × List String) :=
  (lines.foldl parseStep (none, [])).2

/-- The first deletion query of `group_arguments_by_stance`: delete every
`HAS_GROUP` edge whose source is an `Argument` of this discussion, then delete
each group touched by that match that is left with no incoming `HAS_GROUP`
edge. -/
def clear_groups (st : GraphState) (discussion_id : String) : GraphState :=
  let isDel := fun (e : HasGroupEdge) =>
    e.discussion_id == discussion_id && argEx st e.text e.discussion_id
  let kept := st.hasGroupEdges.filter (fun e => !(isDel e))
  let touched := (st.hasGroupEdges.filter isDel).map (fun e => (e.summary, e.stance, e.discussion_id))
  { st with
    hasGroupEdges := kept,
    groups := st.groups.filter (fun g =>
      !((g.summary, g.stance, g.discussion_id) ∈ touched
        && !(kept.any (fun e =>
              e.summary == g.summary && e.stance == g.stance
                && e.discussion_id == g.discussion_id)))) }

/-- The argument texts fetched for one stance of one discussion, with blank
texts filtered out (`if record["text"].strip()`). -/
def fetchStanceTexts (st : GraphState) (stance discussion_id : String) : List String :=
  ((st.arguments.filter (fun a => a.stance == stance && a.discussion_id == discussion_id)).map
      (fun a => a.text)).filter (fun t => pyStrip t != "")

/-- Writing one parsed group: upsert the `ArgumentGroup` node, then merge a
`HAS_GROUP` edge for each member text. -/
def writeGroup (discussion_id stance : String) (st : GraphState) (p : String × List String) :
    GraphState :=
  let st := merge_group st ⟨p.1, stance, discussion_id⟩
  p.2.foldl (fun s t => mergeHasGroupEdge s t p.1 stance discussion_id) st

/-- One stance pass of `group_arguments_by_stance`: fetch the stance's argument
texts, skip the stance when none remain, otherwise build the bullet block,
invoke the grouping chain, parse its stripped content, and write the parsed
groups. -/
def processStanceGroup (groupO : String → String → String) (discussion_id : String)
    (st : GraphState) (stance : String) : GraphState :=
  let args := fetchStanceTexts st stance discussion_id
  if args.isEmpty then st
  else
    let block := String.intercalate "\n" (args.map (fun a => "- " ++ a))
    let content := pyStrip (groupO stance block)
    let gm := parseGroupLines (pySplitNL content)
    gm.foldl (writeGroup discussion_id stance) st

/-- `group_arguments_by_stance(discussion_id)` of `kg_creator.py`: the guard
`if not argument_grouping_chain or not driver: return` runs before anything
else; then the destructive clear, then one pass per stance. -/
def group_arguments_by_stance (groupO : String → String → String) (chainOk driverOk : Bool)
    (discussion_id : String) (st : GraphState) : GraphState :=
  if !chainOk || !driverOk then st
  else
    let st := clear_groups st discussion_id
    ["FOR", "AGAINST", "NEUTRAL"].foldl (processStanceGroup groupO discussion_id) st

/-! ## Incremental graph writer (`create_knowledge_graph`) -/

/-- Input reply record of the classified thread tree. -/
structure RawReply where
  id : String
  body : String
  author : String
  score : Int
deriving Repr, DecidableEq

/-- Input comment record of the classified thread tree. -/
structure RawComment where
  id : String
  body : String
  author : String
  score : Int
  replies : List RawReply
deriving Repr, DecidableEq

/-- The `thread_data` payload as consumed by `create_knowledge_graph`: post
title and url plus the three stance buckets of `classified_comments`. -/
structure ThreadData where
  title : String
  url : String
  commentsFor : List RawComment
  commentsAgainst : List RawComment
  commentsNeutral : List RawComment
deriving Repr, DecidableEq

/-- The running counters and the `new_content_added` flag of the ingestion. -/
structure Counts where
  comments : Nat
  replies : Nat
  args : Nat
  newContent : Bool
deriving Repr, DecidableEq

/-- The result dict of `create_knowledge_graph`. -/
structure KGResult where
  status : String
  discussion_id : String
  topicsCreated : Nat
  commentsCreated : Nat
  repliesCreated : Nat
  argumentsCreated : Nat
  new_content_added : Bool
deriving Repr, DecidableEq

/-- Durable comment id: the source-native id when truthy, otherwise the
positional fallback `comment_<stance>_<i>`. -/
def commentIdOf (stance : String) (i : Nat) (orig : String) : String :=
  if orig == "" then "comment_" ++ stance ++ "_" ++ toString i else orig

/-- Durable reply id: `reply_<original id>` when the source-native id is
truthy, otherwise the positional fallback `reply_<comment id>_<j>`. -/
def replyIdOf (comment_id : String) (j : Nat) (orig : String) : String :=
  if orig == "" then "reply_" ++ comment_id ++ "_" ++ toString j else "reply_" ++ orig

/-- Error-propagating fold with a position index, modelling
`for i, x in enumerate(xs)` around a body that can raise. -/
def foldIdxM {α β : Type} (f : Nat → α → β → Except String β) :
    Nat → List α → β → Except String β
  | _, [], b => .ok b
  | n, a :: as, b => do foldIdxM f (n + 1) as (← f n a b)

/-- Merging one extracted argument of a comment and its `EXTRACTED_FROM` edge. -/
def addArgumentFromComment (discussion_id comment_id : String) (st : GraphState)
    (p : String × String) : GraphState :=
  connect_argument_to_comment (merge_argument st p.1 p.2 discussion_id) p.1 comment_id discussion_id

/-- Merging one extracted argument of a reply and its `EXTRACTED_FROM` edge. -/
def addArgumentFromReply (discussion_id reply_id : String) (st : GraphState)
    (p : String × String) : GraphState :=
  connect_argument_to_reply (merge_argument st p.1 p.2 discussion_id) p.1 reply_id discussion_id

/-- Processing of one reply inside the ingestion loop: derive the durable id,
check existence, always merge the node, and only for a previously unseen reply
create the `REPLY_TO` edge, run extraction, and bump the counters. -/
def processReply (extractO stanceO : LLM) (topic discussion_id comment_id : String)
    (j : Nat) (r : RawReply) (acc : GraphState × Counts) : Except String (GraphState × Counts) := do
  let rid := replyIdOf comment_id j r.id
  let rexists := check_reply_exists acc.1 rid discussion_id
  let st := merge_reply acc.1 ⟨rid, discussion_id, comment_id, r.body, r.author, r.score⟩
  if rexists then
    .ok (st, acc.2)
  else
    let st := connect_reply_to_comment st rid comment_id discussion_id
    let args ← extract_and_classify_arguments extractO stanceO r.body topic
    let st := args.foldl (addArgumentFromReply discussion_id rid) st
    .ok (st, { acc.2 with replies := acc.2.replies + 1, args := acc.2.args + args.length,
                          newContent := true })

/-- Processing of one comment of a stance bucket: derive the durable id, check
existence, always merge the node; only for a previously unseen comment create
the stance edge and run extraction; then process the comment's replies. -/
def processComment (extractO stanceO : LLM) (topic discussion_id stance : String)
    (i : Nat) (c : RawComment) (acc : GraphState × Counts) :
    Except String (GraphState × Counts) := do
  let cid := commentIdOf stance i c.id
  let cexists := check_comment_exists acc.1 cid discussion_id
  let st := merge_comment acc.1 ⟨cid, discussion_id, c.body, c.author, c.score⟩
  let acc1 ←
    if cexists then
      pure (st, acc.2)
    else do
      let st := connect_comment_to_topic st cid topic stance discussion_id
      let args ← extract_and_classify_arguments extractO stanceO c.body topic
      let st := args.foldl (addArgumentFromComment discussion_id cid) st
      pure (st, { acc.2 with comments := acc.2.comments + 1, args := acc.2.args + args.length,
                             newContent := true })
  foldIdxM (processReply extractO stanceO topic discussion_id cid) 0 c.replies acc1

/-- The nested `for stance in ["FOR", "AGAINST", "NEUTRAL"]` loop of
`create_knowledge_graph`, starting from zero counters. -/
def runIngestLoop (extractO stanceO : LLM) (topic discussion_id : String) (td : ThreadData)
    (st : GraphState) : Except String (GraphState × Counts) := do
  let acc := (st, (⟨0, 0, 0, false⟩ : Counts))
  let acc ← foldIdxM (processComment extractO stanceO topic discussion_id "FOR") 0 td.commentsFor acc
  let acc ← foldIdxM (processComment extractO stanceO topic discussion_id "AGAINST") 0 td.commentsAgainst acc
  foldIdxM (processComment extractO stanceO topic discussion_id "NEUTRAL") 0 td.commentsNeutral acc

/-- The discussion identity resolution of `create_knowledge_graph`:
`discussion_id = existing if existing else str(uuid.uuid4())`, with the fresh
uuid supplied as `freshId`. -/
def resolveDiscussionId (st : GraphState) (freshId url : String) : String :=
  match check_existing_discussion_by_url st url with
  | some s => if s != "" then s else freshId
  | none => freshId

/-- `create_knowledge_graph(thread_data)` of `kg_creator.py`: resolve the
discussion id, merge the topic node, run the ingestion loop, regroup arguments
only when new content was added, and return the success payload.  An exception
raised while processing a comment or reply propagates (there is no handler in
the loop). -/
def create_knowledge_graph (extractO stanceO : LLM) (groupO : String → String → String)
    (chainOk driverOk : Bool) (freshId : String) (td : ThreadData) (st : GraphState) :
    Except String (GraphState × KGResult) := do
  let d := resolveDiscussionId st freshId td.url
  let st := merge_topic st td.title d td.url
  let (st, cnt) ← runIngestLoop extractO stanceO td.title d td st
  let st := if cnt.newContent then group_arguments_by_stance groupO chainOk driverOk d st else st
  .ok (st, ⟨"success", d, 1, cnt.comments, cnt.replies, cnt.args, cnt.newContent⟩)

/-! ## Derived observations used in the statements -/

/-- Modelled from the spec: the claimed reply-id derivation "by prefixing the
comment's resolved id and the reply's own source-native id". -/
def replyIdSpecClaimed (parent_comment_id srcId : String) : String :=
  "reply_" ++ parent_comment_id ++ "_" ++ srcId

/-- Number of outgoing `HAS_GROUP` edges of the argument `(t, d)`. -/
def outDeg (st : GraphState) (t d : String) : Nat :=
  (st.hasGroupEdges.filter (fun e => e.text == t && e.discussion_id == d)).length

/-- Member count of an `ArgumentGroup`: its incoming `HAS_GROUP` edges. -/
def groupInDeg (st : GraphState) (g : GroupNode) : Nat :=
  (st.hasGroupEdges.filter (fun e =>
    e.summary == g.summary && e.stance == g.stance && e.discussion_id == g.discussion_id)).length

/-- Sum of group member counts across all `ArgumentGroup`s of one stance of one
discussion. -/
def sumMemberCounts (st : GraphState) (d s : String) : Nat :=
  ((st.groups.filter (fun g => g.discussion_id == d && g.stance == s)).map (groupInDeg st)).sum

/-- Number of Argument nodes with the given stance in the given discussion. -/
def stanceArgCount (st : GraphState) (s d : String) : Nat :=
  (st.arguments.filter (fun a => a.stance == s && a.discussion_id == d)).length

/-- The group map that one stance pass of `group_arguments_by_stance` parses
out of the grouping chain's response for the stance's fetched argument texts. -/
def stanceParse (groupO : String → String → String) (st : GraphState) (stance d : String) :
    List (String × List String) :=
  parseGroupLines (pySplitNL (pyStrip (groupO stance
    (String.intercalate "\n" ((fetchStanceTexts st stance d).map (fun a => "- " ++ a))))))

/-- Natural key of an argument node. -/
def argKey (a : ArgNode) : String × String := (a.text, a.discussion_id)

/-- Natural key of an `ArgumentGroup` node. -/
def groupKey (g : GroupNode) : String × String × String := (g.summary, g.stance, g.discussion_id)

/-- Natural key of a Comment node. -/
def commentKey (c : CommentNode) : String × String := (c.id, c.discussion_id)

/-- Natural key of a Reply node. -/
def replyKey (r : ReplyNode) : String × String := (r.id, r.discussion_id)

/-- Lookup of a comment node by natural key. -/
def getComment (st : GraphState) (cid dd : String) : Option CommentNode :=
  st.comments.find? (fun c => c.id == cid && c.discussion_id == dd)

/-- Key monotonicity between graph states: every comment/reply key present in
the first is present in the second. -/
def keyLe (st st' : GraphState) : Prop :=
  (∀ cid dd, check_comment_exists st cid dd = true → check_comment_exists st' cid dd = true) ∧
  (∀ rid dd, check_reply_exists st rid dd = true → check_reply_exists st' rid dd = true)

/-- Shape equality after a merge-only re-ingestion pass: all components equal
except that the comment and reply lists are only required to agree on their
key sequences (their mutable fields may have been re-merged). -/
def sameShape (st st' : GraphState) : Prop :=
  st'.topics = st.topics ∧
  st'.comments.map commentKey = st.comments.map commentKey ∧
  st'.replies.map replyKey = st.replies.map replyKey ∧
  st'.arguments = st.arguments ∧
  st'.groups = st.groups ∧
  st'.stanceEdges = st.stanceEdges ∧
  st'.replyEdges = st.replyEdges ∧
  st'.extractedEdges = st.extractedEdges ∧
  st'.hasGroupEdges = st.hasGroupEdges

/-- Shape equality after re-merging only replies: like `sameShape` but with
the comment list exactly equal. -/
def replyShape (st st' : GraphState) : Prop :=
  st'.topics = st.topics ∧
  st'.comments = st.comments ∧
  st'.replies.map replyKey = st.replies.map replyKey ∧
  st'.arguments = st.arguments ∧
  st'.groups = st.groups ∧
  st'.stanceEdges = st.stanceEdges ∧
  st'.replyEdges = st.replyEdges ∧
  st'.extractedEdges = st.extractedEdges ∧
  st'.hasGroupEdges = st.hasGroupEdges

/-- The oracle-free effect of re-ingesting the replies of an already existing
comment: each reply node is merely re-merged. -/
def remergeReplies (d cid : String) : Nat → List RawReply → GraphState → GraphState
  | _, [], st => st
  | j, r :: rs, st =>
    remergeReplies d cid (j + 1) rs
      (merge_reply st ⟨replyIdOf cid j r.id, d, cid, r.body, r.author, r.score⟩)

/-- The oracle-free effect of re-ingesting an already existing comment whose
replies also all exist: the comment node and each reply node are re-merged and
nothing else changes. -/
def remergeComment (d stance : String) (i : Nat) (c : RawComment) (st : GraphState) :
    GraphState :=
  remergeReplies d (commentIdOf stance i c.id) 0 c.replies
    (merge_comment st ⟨commentIdOf stance i c.id, d, c.body, c.author, c.score⟩)

/-- Decidable presence of all of a comment's replies: each derived durable
reply id already passes `check_reply_exists` for the discussion. -/
def repliesPresent (st : GraphState) (d cid : String) : Nat → List RawReply → Bool
  | _, [] => true
  | j, r :: rs =>
    check_reply_exists st (replyIdOf cid j r.id) d && repliesPresent st d cid (j + 1) rs

/-- Decidable presence of one raw comment and all of its replies. -/
def commentPresent (st : GraphState) (d stance : String) (i : Nat) (c : RawComment) : Bool :=
  check_comment_exists st (commentIdOf stance i c.id) d &&
    repliesPresent st d (commentIdOf stance i c.id) 0 c.replies

/-- Decidable presence of a whole stance bucket of raw comments. -/
def commentsPresent (st : GraphState) (d stance : String) : Nat → List RawComment → Bool
  | _, [] => true
  | i, c :: cs => commentPresent st d stance i c && commentsPresent st d stance (i + 1) cs

/-- Decidable presence of every unit of a thread tree in the graph. -/
def threadPresent (st : GraphState) (d : String) (td : ThreadData) : Bool :=
  commentsPresent st d "FOR" 0 td.commentsFor &&
    commentsPresent st d "AGAINST" 0 td.commentsAgainst &&
    commentsPresent st d "NEUTRAL" 0 td.commentsNeutral

/-! ## Support lemmas about the Python string primitives -/

theorem dropWhile_cons_neg {α : Type} (p : α → Bool) (a : α) (l : List α) (h : p a = false) :
    (a :: l).dropWhile p = a :: l := by
  simp [List.dropWhile_cons, h]

theorem dropWhile_eq_self_of_length {α : Type} (p : α → Bool) :
    ∀ l : List α, (l.dropWhile p).length = l.length → l.dropWhile p = l
  | [], _ => rfl
  | a :: as, h => by
    by_cases hp : p a
    · exfalso
      rw [List.dropWhile_cons, if_pos hp] at h
      have hle : (as.dropWhile p).length ≤ as.length := (List.dropWhile_sublist _).length_le
      simp only [List.length_cons] at h
      omega
    · exact dropWhile_cons_neg p a as (by simp [hp])

theorem dropWhile_head_false {α : Type} (p : α → Bool) (a : α) (l : List α)
    (h : (a :: l).dropWhile p = a :: l) : p a = false := by
  by_cases hp : p a
  · exfalso
    rw [List.dropWhile_cons, if_pos hp] at h
    have hle : (l.dropWhile p).length ≤ l.length := (List.dropWhile_sublist _).length_le
    have := congrArg List.length h
    simp only [List.length_cons] at this
    omega
  · simp [hp]

theorem strip_eq_self_parts (l : List Char) (h : stripChars l = l) :
    l.dropWhile isWS = l ∧ l.reverse.dropWhile isWS = l.reverse := by
  have hlen := congrArg List.length h
  have h1 : ((l.dropWhile isWS).reverse.dropWhile isWS).length ≤ (l.dropWhile isWS).length := by
    have := ((List.dropWhile_sublist (l := (l.dropWhile isWS).reverse) isWS)).length_le
    simpa using this
  have h2 : (l.dropWhile isWS).length ≤ l.length := (List.dropWhile_sublist _).length_le
  rw [stripChars, List.length_reverse] at hlen
  have hu : l.dropWhile isWS = l := dropWhile_eq_self_of_length _ _ (by omega)
  refine ⟨hu, ?_⟩
  have hv : ((l.reverse.dropWhile isWS)).reverse = l := by
    have := h
    rw [stripChars, hu] at this
    exact this
  have := congrArg List.reverse hv
  rwa [List.reverse_reverse] at this

theorem stripChars_cons_ws (c : Char) (l : List Char) (h : isWS c = true) :
    stripChars (c :: l) = stripChars l := by
  simp [stripChars, List.dropWhile_cons, h]

theorem stripChars_eq_self (l : List Char) (h1 : l.dropWhile isWS = l)
    (h2 : l.reverse.dropWhile isWS = l.reverse) : stripChars l = l := by
  rw [stripChars, h1, h2, List.reverse_reverse]

theorem pyStrip_eq_iff (s : String) : pyStrip s = s ↔ stripChars s.data = s.data := by
  constructor
  · intro h
    have := congrArg String.data h
    simpa [pyStrip] using this
  · intro h
    simp [pyStrip, h]

theorem trimmed_rev_head (l : List Char) (h : stripChars l = l) (hne : l ≠ []) :
    ∃ c cs, l.reverse = c :: cs ∧ isWS c = false := by
  obtain ⟨-, h2⟩ := strip_eq_self_parts l h
  cases hr : l.reverse with
  | nil => exact absurd (by simpa using congrArg List.reverse hr) hne
  | cons c cs =>
    rw [hr] at h2
    exact ⟨c, cs, rfl, dropWhile_head_false _ _ _ h2⟩

theorem trimmed_head (l : List Char) (h : stripChars l = l) (hne : l ≠ []) :
    ∃ c cs, l = c :: cs ∧ isWS c = false := by
  obtain ⟨h1, -⟩ := strip_eq_self_parts l h
  cases l with
  | nil => exact absurd rfl hne
  | cons c cs => exact ⟨c, cs, rfl, dropWhile_head_false _ _ _ h1⟩

theorem afterFirstSpaceChars_append (m b : List Char)
    (hm : ∀ c ∈ m, (c == ' ') = false) :
    afterFirstSpaceChars (m ++ ' ' :: b) = b := by
  induction m with
  | nil => simp [afterFirstSpaceChars]
  | cons c cs ih =>
    have hc := hm c (by simp)
    simp only [List.cons_append, afterFirstSpaceChars, hc, if_false]
    exact ih (fun x hx => hm x (by simp [hx]))

theorem afterFirstSpace_concat (m b : String) (hm : m.data.any (fun c => c == ' ') = false) :
    afterFirstSpace (m ++ " " ++ b) = b := by
  have hdata : (m ++ " " ++ b).data = m.data ++ ' ' :: b.data := by
    rw [String.data_append, String.data_append]
    have : (" " : String).data = [' '] := by decide
    simp [this]
  have hmc : ∀ c ∈ m.data, (c == ' ') = false := by
    intro c hc
    by_contra hcontra
    have hc' : (c == ' ') = true := by
      cases hcc : (c == ' ') with
      | false => exact absurd hcc hcontra
      | true => rfl
    have : m.data.any (fun c => c == ' ') = true := List.any_eq_true.mpr ⟨c, hc, hc'⟩
    rw [this] at hm
    exact Bool.noConfusion hm
  rw [afterFirstSpace, if_pos, hdata]
  · rw [afterFirstSpaceChars_append m.data b.data hmc]
  · rw [hdata]
    simp [List.any_append]

theorem afterFirstSpace_no_space (l : String) (h : l.data.any (fun c => c == ' ') = false) :
    afterFirstSpace l = l := by
  rw [afterFirstSpace, if_neg]
  simp [h]

theorem replaceSkip_not_contains (pat repl : List Char) :
    ∀ l : List Char, containsList pat l = false → replaceSkip pat repl l 0 = l := by
  intro l
  induction l with
  | nil => intro _; rfl
  | cons x xs ih =>
    intro h
    rw [containsList] at h
    have h1 : pat.isPrefixOf (x :: xs) = false := by
      cases hp : pat.isPrefixOf (x :: xs) <;> simp [hp] at h ⊢
    have h2 : containsList pat xs = false := by
      cases hc : containsList pat xs <;> simp [hc] at h ⊢
    rw [replaceSkip, if_neg (by simp [h1]), ih h2]

theorem replaceChars_not_contains (pat repl : List Char) (l : List Char)
    (h : containsList pat l = false) : replaceChars pat repl l = l := by
  rw [replaceChars]
  split
  · rfl
  · exact replaceSkip_not_contains pat repl l h

theorem replaceSkip_skip (pat repl : List Char) :
    ∀ (l rest : List Char), replaceSkip pat repl (l ++ rest) l.length
      = replaceSkip pat repl rest 0
  | [], _ => rfl
  | x :: l, rest => by
    simp only [List.cons_append, List.length_cons]
    rw [replaceSkip]
    exact replaceSkip_skip pat repl l rest

theorem replaceChars_strip_lead (pat rest : List Char) (hne : pat ≠ [])
    (hrest : containsList pat rest = false) :
    replaceChars pat [] (pat ++ rest) = rest := by
  rw [replaceChars, if_neg (by simp [hne])]
  cases hp : pat with
  | nil => exact absurd hp hne
  | cons p ps =>
    rw [hp] at hrest
    have hstep : replaceSkip (p :: ps) [] (p :: (ps ++ rest)) 0
        = if (p :: ps).isPrefixOf (p :: (ps ++ rest)) then
            [] ++ replaceSkip (p :: ps) [] (ps ++ rest) ((p :: ps).length - 1)
          else p :: replaceSkip (p :: ps) [] (ps ++ rest) 0 := rfl
    simp only [List.cons_append]
    rw [hstep, if_pos]
    · have hlen : (p :: ps).length - 1 = ps.length := rfl
      rw [hlen, replaceSkip_skip (p :: ps) [] ps rest,
        replaceSkip_not_contains (p :: ps) [] rest hrest]
      rfl
    · rw [List.isPrefixOf_iff_prefix]
      exact List.prefix_append (p :: ps) rest

/-! ## Support lemmas: Except bind reduction and the classification loop -/

theorem except_bind_ok {ε α β : Type} (a : α) (f : α → Except ε β) :
    ((Except.ok a : Except ε α) >>= f) = f a := rfl

theorem except_bind_err {ε α β : Type} (e : ε) (f : α → Except ε β) :
    ((Except.error e : Except ε α) >>= f) = .error e := rfl

theorem classifyLoop_pure (f : String → String → String) (topic : String) :
    ∀ args : List String,
      classifyLoop (pureLLM f) topic args = .ok (args.filterMap (fun a =>
        let s := pyUpper (pyStrip (f a topic))
        if validStance s then some (a, s) else none))
  | [] => rfl
  | arg :: rest => by
    have ih := classifyLoop_pure f topic rest
    simp only [classifyLoop, pureLLM, except_bind_ok, ih, List.filterMap_cons]
    cases hv : validStance (pyUpper (pyStrip (f arg topic))) <;> simp [hv]

/-! ## Claim theorems (first batch) -/

/-- C7: the regrouping operation checks availability of the grouping chain and
the store driver before anything else; when either is unavailable it returns
without modifying the graph, so the destructive deletion of `HAS_GROUP` edges
and orphaned `ArgumentGroup` nodes is never performed in that case. -/
theorem C7_regroup_guarded_by_availability (groupO : String → String → String)
    (chainOk driverOk : Bool) (d : String) (st : GraphState)
    (h : chainOk = false ∨ driverOk = false) :
    group_arguments_by_stance groupO chainOk driverOk d st = st := by
  rcases h with h | h <;> simp [group_arguments_by_stance, h]

/-- Witness for C7 at a concrete unavailable configuration and a graph that
does carry a group and an edge. -/
theorem C7_witness :
    group_arguments_by_stance (fun _ _ => "Group: X\n- A") false true "d"
      ⟨[], [], [], [⟨"A", "d", "FOR"⟩], [⟨"G", "FOR", "d"⟩], [], [], [],
        [⟨"A", "G", "FOR", "d"⟩]⟩
      = ⟨[], [], [], [⟨"A", "d", "FOR"⟩], [⟨"G", "FOR", "d"⟩], [], [], [],
        [⟨"A", "G", "FOR", "d"⟩]⟩ :=
  C7_regroup_guarded_by_availability _ _ _ _ _ (Or.inl rfl)

/-- C3 counterexample: for a reply with source-native id `abc` under comment
`c1`, the id assigned by the source is `reply_abc`; it differs from the
spec-claimed parent-prefixed derivation and does not contain the parent
comment id at all. -/
theorem C3_counterexample :
    replyIdOf "c1" 0 "abc" = "reply_abc" ∧
    replyIdOf "c1" 0 "abc" ≠ replyIdSpecClaimed "c1" "abc" ∧
    pyContains (replyIdOf "c1" 0 "abc") "c1" = false := by
  refine ⟨rfl, by decide, by decide⟩

/-- C3 amended: when the source-native reply id is non-empty, the durable
Reply id is `reply_` followed by the source-native id only — independent of
the parent comment id and of the position; the parent-comment-id-and-index
form is used only as the positional fallback for an empty source id. -/
theorem C3_reply_id_derivation (cid cid' : String) (j j' : Nat) (orig : String) :
    (orig ≠ "" →
      replyIdOf cid j orig = "reply_" ++ orig ∧
      replyIdOf cid j orig = replyIdOf cid' j' orig) ∧
    (orig = "" → replyIdOf cid j orig = "reply_" ++ cid ++ "_" ++ toString j) := by
  constructor
  · intro h
    have hb : (orig == "") = false := by
      cases hc : (orig == "") with
      | false => rfl
      | true => exact absurd (by simpa using hc) h
    constructor <;> simp [replyIdOf, hb]
  · intro h
    simp [replyIdOf, h]

/-- Witness for C3's amended theorem. -/
theorem C3_witness :
    replyIdOf "p" 2 "xyz" = "reply_xyz" ∧ replyIdOf "p" 2 "xyz" = replyIdOf "q" 5 "xyz" :=
  (C3_reply_id_derivation "p" "q" 2 5 "xyz").1 (by decide)

/-- C5 counterexample: with an extraction response `1. Foo` and a stance
response `MAYBE`, the pipeline drops the argument entirely (result `[]`)
instead of keeping it with a defaulted NEUTRAL stance. -/
theorem C5_counterexample :
    extract_and_classify_arguments (pureLLM (fun _ _ => "1. Foo"))
      (pureLLM (fun _ _ => "MAYBE")) "body" "topic" = .ok [] ∧
    ([] : List (String × String)) ≠ [("Foo", "NEUTRAL")] :=
  ⟨rfl, by decide⟩

/-- C5 amended: every stance response is stripped, upper-cased, and validated
against the three-label set; a unit whose label is invalid after normalization
is dropped from the result (logged and skipped), not defaulted to NEUTRAL,
while validly labelled units are kept with their normalized label. -/
theorem C5_stance_validation (f : String → String → String) (topic : String)
    (args : List String) :
    classifyLoop (pureLLM f) topic args = .ok (args.filterMap (fun a =>
      let s := pyUpper (pyStrip (f a topic))
      if validStance s then some (a, s) else none)) ∧
    ∀ a, validStance (pyUpper (pyStrip (f a topic))) = false →
      classifyLoop (pureLLM f) topic [a] = .ok [] := by
  refine ⟨classifyLoop_pure f topic args, ?_⟩
  intro a ha
  rw [classifyLoop_pure f topic [a]]
  simp [ha]

/-- Witness for C5's amended theorem: a lower-case `for` is normalized and
kept; an invalid label is dropped. -/
theorem C5_witness :
    classifyLoop (pureLLM (fun _ _ => " for ")) "t" ["a"] = .ok [("a", "FOR")] ∧
    classifyLoop (pureLLM (fun _ _ => "??")) "t" ["a"] = .ok [] := by
  constructor
  · rw [(C5_stance_validation (fun _ _ => " for ") "t" ["a"]).1]
    rfl
  · exact (C5_stance_validation (fun _ _ => "??") "t" ["a"]).2 "a" (by decide)

/-- C8 counterexample: a marker-less extraction line containing a space loses
everything up to its first space — the response line
`Smartphones distract students` yields the argument `distract students`, not
the trimmed full line. -/
theorem C8_counterexample :
    extract_and_classify_arguments (pureLLM (fun _ _ => "Smartphones distract students"))
      (pureLLM (fun _ _ => "FOR")) "b" "t" = .ok [("distract students", "FOR")] ∧
    ("distract students" : String) ≠ "Smartphones distract students" :=
  ⟨rfl, by decide⟩

/-- C8 amended: a response containing the sentinel yields the empty list (and
classification is never consulted); otherwise extraction never raises and
returns, for every non-blank line, the trimmed text after the line's first
space — this strips a `1.` or `-` marker followed by a space, but it equally
drops the first word of a marker-less line, and a line with no space at all is
kept whole. -/
theorem C8_extraction_parsing :
    (∀ (so : LLM) (text topic content : String),
      pyContains (pyStrip content) "No clear arguments found" = true →
        extract_and_classify_arguments (pureLLM (fun _ _ => content)) so text topic = .ok []) ∧
    (∀ (f : String → String → String) (text topic content : String),
      pyContains (pyStrip content) "No clear arguments found" = false →
        extract_and_classify_arguments (pureLLM (fun _ _ => content)) (pureLLM f) text topic
          = .ok ((extractLines (pyStrip content)).filterMap (fun a =>
              let s := pyUpper (pyStrip (f a topic))
              if validStance s then some (a, s) else none))) ∧
    (∀ m b : String, m.data.any (fun c => c == ' ') = false →
      afterFirstSpace (m ++ " " ++ b) = b) ∧
    (∀ l : String, l.data.any (fun c => c == ' ') = false → afterFirstSpace l = l) := by
  refine ⟨?_, ?_, afterFirstSpace_concat, afterFirstSpace_no_space⟩
  · intro so text topic content h
    simp only [extract_and_classify_arguments, pureLLM, except_bind_ok]
    rw [if_pos h]
  · intro f text topic content h
    simp only [extract_and_classify_arguments, pureLLM, except_bind_ok]
    rw [if_neg (by simp [h]), classifyLoop_pure]

/-- Witness for C8's amended theorem: sentinel response, a numbered line, and
a marker-less line. -/
theorem C8_witness :
    extract_and_classify_arguments (pureLLM (fun _ _ => "No clear arguments found."))
      (pureLLM (fun _ _ => "junk")) "x" "t" = .ok [] ∧
    afterFirstSpace ("1." ++ " " ++ "Good point") = "Good point" ∧
    afterFirstSpace "word" = "word" := by
  refine ⟨C8_extraction_parsing.1 _ "x" "t" _ (by decide), ?_, ?_⟩
  · exact C8_extraction_parsing.2.2.1 "1." "Good point" (by decide)
  · exact C8_extraction_parsing.2.2.2 "word" (by decide)

/-- C6 counterexample: with two comments to ingest and an extraction oracle
that raises on the first, `create_knowledge_graph` aborts with the error — no
success result with partial counts is returned and the loop does not continue
to the second comment. -/
theorem C6_counterexample :
    create_knowledge_graph (fun _ _ => .error "LLM timeout") (pureLLM (fun _ _ => "FOR"))
      (fun _ _ => "") true true "D"
      ⟨"T", "u", [⟨"c1", "B", "a", 1, []⟩, ⟨"c2", "B2", "a2", 1, []⟩], [], []⟩
      emptyGraph = .error "LLM timeout" ∧
    ∀ p : GraphState × KGResult,
      (Except.error "LLM timeout" : Except String (GraphState × KGResult)) ≠ .ok p :=
  ⟨rfl, fun _ h => Except.noConfusion h⟩

/-- C6 amended: an exception raised while processing a comment is not caught
by the ingestion loop — it propagates out of `create_knowledge_graph`, the
remaining items are not processed, and no success result is returned. -/
theorem C6_exception_aborts_ingest (eo so : LLM) (groupO : String → String → String)
    (chainOk driverOk : Bool) (freshId : String) (td : ThreadData) (st : GraphState)
    (c : RawComment) (rest : List RawComment) (msg : String)
    (hbucket : td.commentsFor = c :: rest)
    (hnew : check_comment_exists
      (merge_topic st td.title (resolveDiscussionId st freshId td.url) td.url)
      (commentIdOf "FOR" 0 c.id) (resolveDiscussionId st freshId td.url) = false)
    (herr : eo c.body td.title = .error msg) :
    create_knowledge_graph eo so groupO chainOk driverOk freshId td st = .error msg := by
  have hloop : runIngestLoop eo so td.title (resolveDiscussionId st freshId td.url) td
      (merge_topic st td.title (resolveDiscussionId st freshId td.url) td.url) = .error msg := by
    rw [runIngestLoop, hbucket]
    simp only [foldIdxM, processComment, hnew, Bool.false_eq_true, if_false,
      extract_and_classify_arguments, herr, except_bind_err, except_bind_ok]
  rw [create_knowledge_graph]
  simp only [hloop, except_bind_err]

/-- Witness for C6's amended theorem. -/
theorem C6_witness :
    create_knowledge_graph (fun _ _ => .error "boom") (pureLLM (fun _ _ => "FOR"))
      (fun _ _ => "") true true "D" ⟨"T", "u", [⟨"c1", "B", "a", 1, []⟩], [], []⟩
      emptyGraph = .error "boom" :=
  C6_exception_aborts_ingest _ _ _ _ _ _ _ _ _ _ _ rfl (by decide) rfl

/-! ## Support lemmas: the grouping-response parser -/

theorem string_data_ne_nil (s : String) (h : s ≠ "") : s.data ≠ [] := by
  intro hd
  exact h (String.ext (by rw [hd]))

theorem header_line_strip (s : String) (hs : stripChars s.data = s.data) (hsne : s ≠ "") :
    stripChars ("Group: " ++ s).data = ("Group: " ++ s).data := by
  rw [String.data_append]
  have hG : ("Group: " : String).data = ['G', 'r', 'o', 'u', 'p', ':', ' '] := by decide
  rw [hG]
  apply stripChars_eq_self
  · simp only [List.cons_append]
    exact dropWhile_cons_neg _ _ _ (by decide)
  · obtain ⟨c, cs, hrev, hc⟩ := trimmed_rev_head s.data hs (string_data_ne_nil s hsne)
    rw [List.reverse_append, hrev]
    have hGr : (['G', 'r', 'o', 'u', 'p', ':', ' '] : List Char).reverse
        = [' ', ':', 'p', 'u', 'o', 'r', 'G'] := by decide
    rw [hGr]
    simp only [List.cons_append]
    exact dropWhile_cons_neg _ _ _ hc

theorem isPrefixOf_append_self (p q : List Char) : p.isPrefixOf (p ++ q) = true := by
  rw [List.isPrefixOf_iff_prefix]
  exact List.prefix_append p q

theorem header_line_startsWith (s : String) (hs : stripChars s.data = s.data) (hsne : s ≠ "") :
    pyStartsWith (pyStrip ("Group: " ++ s)) "Group:" = true := by
  have hstrip : pyStrip ("Group: " ++ s) = "Group: " ++ s := by
    rw [pyStrip_eq_iff]
    exact header_line_strip s hs hsne
  rw [hstrip, pyStartsWith, String.data_append]
  have hG : ("Group: " : String).data = ("Group:" : String).data ++ [' '] := by decide
  rw [hG, List.append_assoc]
  exact isPrefixOf_append_self _ _

theorem header_line_replace (s : String) (hs : stripChars s.data = s.data)
    (hsg : pyContains s "Group:" = false) :
    pyStrip (pyReplace ("Group: " ++ s) "Group:" "") = s := by
  have hdata : ("Group: " ++ s).data = ("Group:" : String).data ++ (' ' :: s.data) := by
    rw [String.data_append]
    have hG : ("Group: " : String).data = ("Group:" : String).data ++ [' '] := by decide
    rw [hG, List.append_assoc]
    rfl
  have hnc : containsList ("Group:" : String).data (' ' :: s.data) = false := by
    rw [containsList]
    have h1 : ("Group:" : String).data.isPrefixOf (' ' :: s.data) = false := by
      have hG : ("Group:" : String).data = 'G' :: ['r', 'o', 'u', 'p', ':'] := by decide
      rw [hG, List.isPrefixOf]
      simp
    rw [h1, show containsList ("Group:" : String).data s.data = false from hsg]
    rfl
  rw [pyReplace, hdata]
  have hrepl : replaceChars ("Group:" : String).data [] (("Group:" : String).data ++ (' ' :: s.data))
      = ' ' :: s.data := by
    have : ("" : String).data = [] := rfl
    rw [this] at *
    exact replaceChars_strip_lead _ _ (by decide) hnc
  rw [show ("" : String).data = [] from rfl, hrepl, pyStrip]
  rw [show (String.mk (' ' :: s.data)).data = ' ' :: s.data from rfl]
  rw [stripChars_cons_ws _ _ (by decide), hs]

theorem parseStep_header (m : List (String × List String)) (cur : Option String) (s : String)
    (hs : pyStrip s = s) (hsne : s ≠ "") (hsg : pyContains s "Group:" = false) :
    parseStep (cur, m) ("Group: " ++ s) = (some s, amSet m s) := by
  have hs' : stripChars s.data = s.data := (pyStrip_eq_iff s).mp hs
  rw [parseStep, if_pos (header_line_startsWith s hs' hsne)]
  rw [header_line_replace s hs' hsg]

theorem bullet_line_strip (x : String) (hx : stripChars x.data = x.data) (hxne : x ≠ "") :
    stripChars ("- " ++ x).data = ("- " ++ x).data := by
  rw [String.data_append]
  have hD : ("- " : String).data = ['-', ' '] := by decide
  rw [hD]
  apply stripChars_eq_self
  · simp only [List.cons_append]
    exact dropWhile_cons_neg _ _ _ (by decide)
  · obtain ⟨c, cs, hrev, hc⟩ := trimmed_rev_head x.data hx (string_data_ne_nil x hxne)
    rw [List.reverse_append, hrev]
    have hDr : (['-', ' '] : List Char).reverse = [' ', '-'] := by decide
    rw [hDr]
    simp only [List.cons_append]
    exact dropWhile_cons_neg _ _ _ hc

theorem bullet_strip_cases (x : String) (hx : stripChars x.data = x.data) :
    (pyStrip ("- " ++ x)).data = if x = "" then ['-'] else '-' :: ' ' :: x.data := by
  by_cases hxe : x = ""
  · subst hxe
    rw [if_pos rfl]
    decide
  · rw [if_neg hxe, pyStrip]
    rw [show (String.mk (("- " ++ x).data)).data = ("- " ++ x).data from rfl]
    rw [bullet_line_strip x hx hxe, String.data_append]
    have hD : ("- " : String).data = ['-', ' '] := by decide
    rw [hD]
    rfl

theorem parseStep_bullet (m : List (String × List String)) (g : String) (hg : g ≠ "")
    (x : String) (hx : pyStrip x = x) :
    parseStep (some g, m) ("- " ++ x) = (some g, amApp m g x) := by
  have hx' : stripChars x.data = x.data := (pyStrip_eq_iff x).mp hx
  have hcases := bullet_strip_cases x hx'
  have hnothdr : pyStartsWith (pyStrip ("- " ++ x)) "Group:" = false := by
    rw [pyStartsWith, hcases]
    have hG : ("Group:" : String).data = 'G' :: ['r', 'o', 'u', 'p', ':'] := by decide
    by_cases hxe : x = ""
    · rw [if_pos hxe, hG, List.isPrefixOf]
      simp
    · rw [if_neg hxe, hG, List.isPrefixOf]
      simp
  have hdash : pyStartsWith (pyStrip ("- " ++ x)) "-" = true := by
    rw [pyStartsWith, hcases]
    have hd : ("-" : String).data = ['-'] := by decide
    by_cases hxe : x = ""
    · rw [if_pos hxe, hd, List.isPrefixOf]
      simp [List.isPrefixOf]
    · rw [if_neg hxe, hd, List.isPrefixOf]
      simp [List.isPrefixOf]
  have hmember : pyStrip (pyLStripDash (pyStrip ("- " ++ x))) = x := by
    by_cases hxe : x = ""
    · rw [pyLStripDash]
      rw [hcases, if_pos hxe]
      rw [hxe]
      decide
    · rw [pyLStripDash, hcases, if_neg hxe]
      have hdw : List.dropWhile (fun c => c == '-') ('-' :: ' ' :: x.data) = ' ' :: x.data := by
        rw [List.dropWhile_cons, if_pos (by decide), dropWhile_cons_neg _ _ _ (by decide)]
      rw [hdw, pyStrip]
      rw [show (String.mk (' ' :: x.data)).data = ' ' :: x.data from rfl]
      rw [stripChars_cons_ws _ _ (by decide), hx']
  have hgetd : ((some g).getD "" != "") = true := bne_iff_ne.mpr hg
  rw [parseStep, if_neg (by simp [hnothdr]), if_pos (by simp [hdash, hgetd, hg])]
  rw [hmember]
  rfl

theorem foldl_parseStep_bullets (g : String) (hg : g ≠ "") :
    ∀ (xs : List String) (m : List (String × List String)),
      (∀ x ∈ xs, pyStrip x = x) →
      List.foldl parseStep (some g, m) (xs.map (fun x => "- " ++ x))
        = (some g, xs.foldl (fun mm x => amApp mm g x) m)
  | [], m, _ => rfl
  | x :: xs, m, hxs => by
    simp only [List.map_cons, List.foldl_cons]
    rw [parseStep_bullet m g hg x (hxs x (by simp))]
    exact foldl_parseStep_bullets g hg xs _ (fun y hy => hxs y (by simp [hy]))

theorem foldl_amApp_single (g : String) :
    ∀ (xs : List String) (cur : List String),
      xs.foldl (fun mm x => amApp mm g x) [(g, cur)] = [(g, cur ++ xs)]
  | [], cur => by simp
  | x :: xs, cur => by
    simp only [List.foldl_cons]
    have h1 : amApp [(g, cur)] g x = [(g, cur ++ [x])] := by simp [amApp]
    rw [h1, foldl_amApp_single g xs (cur ++ [x]), List.append_assoc]
    rfl

theorem amSet_nil (s : String) : amSet [] s = [(s, [])] := by simp [amSet]

theorem amSet_single_self (s : String) (l : List String) : amSet [(s, l)] s = [(s, [])] := by
  simp [amSet]

theorem merge_group_hasGroupEdges (st : GraphState) (g : GroupNode) :
    (merge_group st g).hasGroupEdges = st.hasGroupEdges := by
  rw [merge_group]
  split <;> rfl

theorem mem_mergeHasGroupEdge_elim (σ : GraphState) (t su stc d : String) (e : HasGroupEdge)
    (h : e ∈ (mergeHasGroupEdge σ t su stc d).hasGroupEdges) :
    e ∈ σ.hasGroupEdges ∨ e = ⟨t, su, stc, d⟩ := by
  rw [mergeHasGroupEdge] at h
  by_cases h1 : (argEx σ t d && groupEx σ su stc d) = true
  · rw [if_pos h1] at h
    by_cases h2 : (⟨t, su, stc, d⟩ : HasGroupEdge) ∈ σ.hasGroupEdges
    · rw [if_pos h2] at h
      exact Or.inl h
    · rw [if_neg h2] at h
      simp only [List.mem_append, List.mem_singleton] at h
      rcases h with h | h
      · exact Or.inl h
      · exact Or.inr h
  · rw [if_neg h1] at h
    exact Or.inl h

theorem mem_mergeFold_elim (su stc d : String) :
    ∀ (ts : List String) (σ : GraphState) (e : HasGroupEdge),
      e ∈ (ts.foldl (fun s2 t => mergeHasGroupEdge s2 t su stc d) σ).hasGroupEdges →
      e ∈ σ.hasGroupEdges ∨ ∃ t ∈ ts, e = ⟨t, su, stc, d⟩
  | [], _, _, h => Or.inl h
  | t :: ts, σ, e, h => by
    simp only [List.foldl_cons] at h
    rcases mem_mergeFold_elim su stc d ts _ e h with h' | ⟨t', ht', he⟩
    · rcases mem_mergeHasGroupEdge_elim σ t su stc d e h' with h'' | he
      · exact Or.inl h''
      · exact Or.inr ⟨t, by simp, he⟩
    · exact Or.inr ⟨t', by simp [ht'], he⟩

/-- C10: when a grouping response contains two `Group:` header lines with
byte-identical summary text, the parser resets that summary's member
accumulator at the second header: the parsed map keeps only the members listed
under the last occurrence, the members under the earlier occurrence are
discarded, and consequently writing the parsed groups can only create
`HAS_GROUP` edges for members of the last occurrence. -/
theorem C10_duplicate_group_header (s : String) (xs ys : List String)
    (hs : pyStrip s = s) (hsne : s ≠ "") (hsg : pyContains s "Group:" = false)
    (hxs : ∀ x ∈ xs, pyStrip x = x) (hys : ∀ y ∈ ys, pyStrip y = y) :
    parseGroupLines ((("Group: " ++ s) :: xs.map (fun x => "- " ++ x))
        ++ (("Group: " ++ s) :: ys.map (fun y => "- " ++ y))) = [(s, ys)] ∧
    ∀ (d stance : String) (σ : GraphState) (e : HasGroupEdge),
      e ∈ (List.foldl (writeGroup d stance) σ
            (parseGroupLines ((("Group: " ++ s) :: xs.map (fun x => "- " ++ x))
              ++ (("Group: " ++ s) :: ys.map (fun y => "- " ++ y))))).hasGroupEdges →
      e ∈ σ.hasGroupEdges ∨ ∃ t ∈ ys, e = ⟨t, s, stance, d⟩ := by
  have h1 : List.foldl parseStep (none, []) (("Group: " ++ s) :: xs.map (fun x => "- " ++ x))
      = (some s, [(s, xs)]) := by
    rw [List.foldl_cons, parseStep_header [] none s hs hsne hsg, amSet_nil]
    rw [foldl_parseStep_bullets s hsne xs [(s, [])] hxs, foldl_amApp_single s xs []]
    rfl
  have h2 : List.foldl parseStep (some s, [(s, xs)])
        (("Group: " ++ s) :: ys.map (fun y => "- " ++ y))
      = (some s, [(s, ys)]) := by
    rw [List.foldl_cons, parseStep_header [(s, xs)] (some s) s hs hsne hsg, amSet_single_self]
    rw [foldl_parseStep_bullets s hsne ys [(s, [])] hys, foldl_amApp_single s ys []]
    rfl
  have hparse : parseGroupLines ((("Group: " ++ s) :: xs.map (fun x => "- " ++ x))
      ++ (("Group: " ++ s) :: ys.map (fun y => "- " ++ y))) = [(s, ys)] := by
    rw [parseGroupLines, List.foldl_append, h1, h2]
  refine ⟨hparse, ?_⟩
  intro d stance σ e he
  rw [hparse] at he
  simp only [List.foldl_cons, List.foldl_nil, writeGroup] at he
  rcases mem_mergeFold_elim s stance d ys _ e he with h' | h'
  · rw [merge_group_hasGroupEdges] at h'
    exact Or.inl h'
  · exact Or.inr h'

/-- Witness for C10 on a concrete duplicated-header response. -/
theorem C10_witness :
    parseGroupLines ((("Group: " ++ "G") :: ["A"].map (fun x => "- " ++ x))
        ++ (("Group: " ++ "G") :: ["B"].map (fun y => "- " ++ y))) = [("G", ["B"])] :=
  (C10_duplicate_group_header "G" ["A"] ["B"] (by decide) (by decide) (by decide)
    (by intro x hx; simp at hx; rw [hx]; decide)
    (by intro y hy; simp at hy; rw [hy]; decide)).1

/-! ## Support lemmas: state components of the grouping engine -/

theorem mergeHasGroupEdge_arguments (σ : GraphState) (t su stc dd : String) :
    (mergeHasGroupEdge σ t su stc dd).arguments = σ.arguments := by
  rw [mergeHasGroupEdge]
  split
  · split <;> rfl
  · rfl

theorem mergeHasGroupEdge_groups (σ : GraphState) (t su stc dd : String) :
    (mergeHasGroupEdge σ t su stc dd).groups = σ.groups := by
  rw [mergeHasGroupEdge]
  split
  · split <;> rfl
  · rfl

theorem merge_group_arguments (σ : GraphState) (g : GroupNode) :
    (merge_group σ g).arguments = σ.arguments := by
  rw [merge_group]
  split <;> rfl

theorem argEx_congr (σ σ' : GraphState) (h : σ'.arguments = σ.arguments) (t dd : String) :
    argEx σ' t dd = argEx σ t dd := by
  rw [argEx, argEx, h]

theorem groupEx_congr (σ σ' : GraphState) (h : σ'.groups = σ.groups) (su stc dd : String) :
    groupEx σ' su stc dd = groupEx σ su stc dd := by
  rw [groupEx, groupEx, h]

theorem groupEx_merge_group_self (σ : GraphState) (g : GroupNode) :
    groupEx (merge_group σ g) g.summary g.stance g.discussion_id = true := by
  rw [merge_group]
  by_cases h : groupEx σ g.summary g.stance g.discussion_id = true
  · rw [if_pos h]
    exact h
  · rw [if_neg h, groupEx]
    apply List.any_eq_true.mpr
    refine ⟨g, by simp, by simp⟩

theorem mem_merge_group_iff (σ : GraphState) (g g' : GroupNode) :
    g' ∈ (merge_group σ g).groups ↔ g' ∈ σ.groups ∨ g' = g := by
  rw [merge_group]
  by_cases h : groupEx σ g.summary g.stance g.discussion_id = true
  · rw [if_pos h]
    constructor
    · exact fun hx => Or.inl hx
    · rintro (hx | hx)
      · exact hx
      · obtain ⟨x, hxm, hxb⟩ := List.any_eq_true.mp h
        simp only [Bool.and_eq_true, beq_iff_eq] at hxb
        have hxg : x = g := by
          cases x
          cases g
          simp only at hxb
          simp [hxb.1.1, hxb.1.2, hxb.2]
        rw [hx, ← hxg]
        exact hxm
  · rw [if_neg h]
    simp

theorem mem_mergeHasGroupEdge_iff (σ : GraphState) (t su stc dd : String) (e : HasGroupEdge) :
    e ∈ (mergeHasGroupEdge σ t su stc dd).hasGroupEdges ↔
      e ∈ σ.hasGroupEdges ∨
        (e = ⟨t, su, stc, dd⟩ ∧ argEx σ t dd = true ∧ groupEx σ su stc dd = true) := by
  rw [mergeHasGroupEdge]
  by_cases h1 : (argEx σ t dd && groupEx σ su stc dd) = true
  · rw [if_pos h1]
    simp only [Bool.and_eq_true] at h1
    by_cases h2 : (⟨t, su, stc, dd⟩ : HasGroupEdge) ∈ σ.hasGroupEdges
    · rw [if_pos h2]
      constructor
      · exact fun hx => Or.inl hx
      · rintro (hx | hx)
        · exact hx
        · rw [hx.1]
          exact h2
    · rw [if_neg h2]
      simp only [List.mem_append, List.mem_singleton]
      constructor
      · rintro (hx | hx)
        · exact Or.inl hx
        · exact Or.inr ⟨hx, h1.1, h1.2⟩
      · rintro (hx | hx)
        · exact Or.inl hx
        · exact Or.inr hx.1
  · rw [if_neg h1]
    constructor
    · exact fun hx => Or.inl hx
    · rintro (hx | hx)
      · exact hx
      · exfalso
        exact h1 (by simp [hx.2.1, hx.2.2])

theorem mergeHasGroupEdge_nodup (σ : GraphState) (t su stc dd : String)
    (h : σ.hasGroupEdges.Nodup) : (mergeHasGroupEdge σ t su stc dd).hasGroupEdges.Nodup := by
  rw [mergeHasGroupEdge]
  split
  · split
    · exact h
    · rw [List.nodup_append]
      refine ⟨h, by simp, ?_⟩
      intro a ha hb
      simp only [List.mem_singleton] at hb
      rw [hb] at ha
      exact (by assumption : ¬_ ∈ σ.hasGroupEdges) ha
  · exact h

theorem mem_edgeFold_iff (su stc dd : String) :
    ∀ (ts : List String) (σ : GraphState) (e : HasGroupEdge),
      groupEx σ su stc dd = true →
      (e ∈ (ts.foldl (fun s2 t => mergeHasGroupEdge s2 t su stc dd) σ).hasGroupEdges ↔
        e ∈ σ.hasGroupEdges ∨ ∃ t ∈ ts, e = ⟨t, su, stc, dd⟩ ∧ argEx σ t dd = true)
  | [], σ, e, _ => by simp
  | t :: ts, σ, e, hgx => by
    simp only [List.foldl_cons]
    have hargs := mergeHasGroupEdge_arguments σ t su stc dd
    have hgroups := mergeHasGroupEdge_groups σ t su stc dd
    have hgx' : groupEx (mergeHasGroupEdge σ t su stc dd) su stc dd = true := by
      rw [groupEx_congr σ _ hgroups]
      exact hgx
    rw [mem_edgeFold_iff su stc dd ts _ e hgx']
    rw [mem_mergeHasGroupEdge_iff σ t su stc dd e]
    constructor
    · rintro ((hx | hx) | ⟨t', ht', he, hax⟩)
      · exact Or.inl hx
      · exact Or.inr ⟨t, by simp, hx.1, hx.2.1⟩
      · rw [argEx_congr σ _ hargs] at hax
        exact Or.inr ⟨t', by simp [ht'], he, hax⟩
    · rintro (hx | ⟨t', ht', he, hax⟩)
      · exact Or.inl (Or.inl hx)
      · simp only [List.mem_cons] at ht'
        rcases ht' with ht' | ht'
        · rw [ht'] at he hax
          exact Or.inl (Or.inr ⟨he, hax, hgx⟩)
        · exact Or.inr ⟨t', ht', he, by rw [argEx_congr σ _ hargs]; exact hax⟩

theorem edgeFold_nodup (su stc dd : String) :
    ∀ (ts : List String) (σ : GraphState), σ.hasGroupEdges.Nodup →
      (ts.foldl (fun s2 t => mergeHasGroupEdge s2 t su stc dd) σ).hasGroupEdges.Nodup
  | [], _, h => h
  | t :: ts, σ, h => by
    simp only [List.foldl_cons]
    exact edgeFold_nodup su stc dd ts _ (mergeHasGroupEdge_nodup σ t su stc dd h)

theorem edgeFold_arguments (su stc dd : String) :
    ∀ (ts : List String) (σ : GraphState),
      (ts.foldl (fun s2 t => mergeHasGroupEdge s2 t su stc dd) σ).arguments = σ.arguments
  | [], _ => rfl
  | t :: ts, σ => by
    simp only [List.foldl_cons]
    rw [edgeFold_arguments su stc dd ts _, mergeHasGroupEdge_arguments]

theorem edgeFold_groups (su stc dd : String) :
    ∀ (ts : List String) (σ : GraphState),
      (ts.foldl (fun s2 t => mergeHasGroupEdge s2 t su stc dd) σ).groups = σ.groups
  | [], _ => rfl
  | t :: ts, σ => by
    simp only [List.foldl_cons]
    rw [edgeFold_groups su stc dd ts _, mergeHasGroupEdge_groups]

theorem merge_group_groupKeys_nodup (σ : GraphState) (g : GroupNode)
    (h : (σ.groups.map groupKey).Nodup) : ((merge_group σ g).groups.map groupKey).Nodup := by
  rw [merge_group]
  by_cases hx : groupEx σ g.summary g.stance g.discussion_id = true
  · rw [if_pos hx]
    exact h
  · rw [if_neg hx]
    simp only [List.map_append, List.map_singleton]
    rw [List.nodup_append]
    refine ⟨h, by simp, ?_⟩
    intro k hk hk'
    simp only [List.mem_singleton] at hk'
    obtain ⟨x, hxm, hxk⟩ := List.mem_map.mp hk
    apply hx
    rw [groupEx]
    apply List.any_eq_true.mpr
    refine ⟨x, hxm, ?_⟩
    rw [hk'] at hxk
    have h1 : x.summary = g.summary := by
      have := congrArg Prod.fst hxk
      simpa [groupKey] using this
    have h2 : x.stance = g.stance := by
      have := congrArg (fun p => p.2.1) hxk
      simpa [groupKey] using this
    have h3 : x.discussion_id = g.discussion_id := by
      have := congrArg (fun p => p.2.2) hxk
      simpa [groupKey] using this
    simp [h1, h2, h3]

theorem writeGroup_arguments (dd stc : String) (σ : GraphState) (p : String × List String) :
    (writeGroup dd stc σ p).arguments = σ.arguments := by
  rw [writeGroup, edgeFold_arguments, merge_group_arguments]

theorem mem_writeGroup_edges_iff (dd stc : String) (σ : GraphState) (p : String × List String)
    (e : HasGroupEdge) :
    e ∈ (writeGroup dd stc σ p).hasGroupEdges ↔
      e ∈ σ.hasGroupEdges ∨ ∃ t ∈ p.2, e = ⟨t, p.1, stc, dd⟩ ∧ argEx σ t dd = true := by
  rw [writeGroup]
  have hgx : groupEx (merge_group σ ⟨p.1, stc, dd⟩) p.1 stc dd = true :=
    groupEx_merge_group_self σ ⟨p.1, stc, dd⟩
  rw [mem_edgeFold_iff p.1 stc dd p.2 _ e hgx, merge_group_hasGroupEdges]
  constructor
  · rintro (hx | ⟨t, ht, he, hax⟩)
    · exact Or.inl hx
    · rw [argEx_congr σ _ (merge_group_arguments σ _)] at hax
      exact Or.inr ⟨t, ht, he, hax⟩
  · rintro (hx | ⟨t, ht, he, hax⟩)
    · exact Or.inl hx
    · exact Or.inr ⟨t, ht, he, by rw [argEx_congr σ _ (merge_group_arguments σ _)]; exact hax⟩

theorem mem_writeGroup_groups_iff (dd stc : String) (σ : GraphState) (p : String × List String)
    (g : GroupNode) :
    g ∈ (writeGroup dd stc σ p).groups ↔ g ∈ σ.groups ∨ g = ⟨p.1, stc, dd⟩ := by
  rw [writeGroup, edgeFold_groups, mem_merge_group_iff]

theorem writeGroup_edges_nodup (dd stc : String) (σ : GraphState) (p : String × List String)
    (h : σ.hasGroupEdges.Nodup) : (writeGroup dd stc σ p).hasGroupEdges.Nodup := by
  rw [writeGroup]
  apply edgeFold_nodup
  rw [merge_group_hasGroupEdges]
  exact h

theorem writeGroup_groupKeys_nodup (dd stc : String) (σ : GraphState) (p : String × List String)
    (h : (σ.groups.map groupKey).Nodup) : ((writeGroup dd stc σ p).groups.map groupKey).Nodup := by
  rw [writeGroup, edgeFold_groups]
  exact merge_group_groupKeys_nodup σ _ h

theorem gmFold_arguments (dd stc : String) :
    ∀ (gm : List (String × List String)) (σ : GraphState),
      (gm.foldl (writeGroup dd stc) σ).arguments = σ.arguments
  | [], _ => rfl
  | p :: gm, σ => by
    simp only [List.foldl_cons]
    rw [gmFold_arguments dd stc gm _, writeGroup_arguments]

theorem mem_gmFold_edges_iff (dd stc : String) :
    ∀ (gm : List (String × List String)) (σ : GraphState) (e : HasGroupEdge),
      e ∈ (gm.foldl (writeGroup dd stc) σ).hasGroupEdges ↔
        e ∈ σ.hasGroupEdges ∨
          ∃ p ∈ gm, ∃ t ∈ p.2, e = ⟨t, p.1, stc, dd⟩ ∧ argEx σ t dd = true
  | [], σ, e => by simp
  | p :: gm, σ, e => by
    simp only [List.foldl_cons]
    rw [mem_gmFold_edges_iff dd stc gm _ e]
    rw [mem_writeGroup_edges_iff dd stc σ p e]
    have hargs := writeGroup_arguments dd stc σ p
    constructor
    · rintro ((hx | hx) | ⟨p', hp', t, ht, he, hax⟩)
      · exact Or.inl hx
      · exact Or.inr ⟨p, by simp, hx⟩
      · rw [argEx_congr σ _ hargs] at hax
        exact Or.inr ⟨p', by simp [hp'], t, ht, he, hax⟩
    · rintro (hx | ⟨p', hp', t, ht, he, hax⟩)
      · exact Or.inl (Or.inl hx)
      · simp only [List.mem_cons] at hp'
        rcases hp' with hp' | hp'
        · rw [hp'] at ht he
          exact Or.inl (Or.inr ⟨t, ht, he, hax⟩)
        · exact Or.inr ⟨p', hp', t, ht, he, by rw [argEx_congr σ _ hargs]; exact hax⟩

theorem mem_gmFold_groups_iff (dd stc : String) :
    ∀ (gm : List (String × List String)) (σ : GraphState) (g : GroupNode),
      g ∈ (gm.foldl (writeGroup dd stc) σ).groups ↔
        g ∈ σ.groups ∨ ∃ p ∈ gm, g = ⟨p.1, stc, dd⟩
  | [], σ, g => by simp
  | p :: gm, σ, g => by
    simp only [List.foldl_cons]
    rw [mem_gmFold_groups_iff dd stc gm _ g, mem_writeGroup_groups_iff dd stc σ p g]
    constructor
    · rintro ((hx | hx) | ⟨p', hp', hg⟩)
      · exact Or.inl hx
      · exact Or.inr ⟨p, by simp, hx⟩
      · exact Or.inr ⟨p', by simp [hp'], hg⟩
    · rintro (hx | ⟨p', hp', hg⟩)
      · exact Or.inl (Or.inl hx)
      · simp only [List.mem_cons] at hp'
        rcases hp' with hp' | hp'
        · rw [hp'] at hg
          exact Or.inl (Or.inr hg)
        · exact Or.inr ⟨p', hp', hg⟩

theorem gmFold_edges_nodup (dd stc : String) :
    ∀ (gm : List (String × List String)) (σ : GraphState), σ.hasGroupEdges.Nodup →
      (gm.foldl (writeGroup dd stc) σ).hasGroupEdges.Nodup
  | [], _, h => h
  | p :: gm, σ, h => by
    simp only [List.foldl_cons]
    exact gmFold_edges_nodup dd stc gm _ (writeGroup_edges_nodup dd stc σ p h)

theorem gmFold_groupKeys_nodup (dd stc : String) :
    ∀ (gm : List (String × List String)) (σ : GraphState), (σ.groups.map groupKey).Nodup →
      ((gm.foldl (writeGroup dd stc) σ).groups.map groupKey).Nodup
  | [], _, h => h
  | p :: gm, σ, h => by
    simp only [List.foldl_cons]
    exact gmFold_groupKeys_nodup dd stc gm _ (writeGroup_groupKeys_nodup dd stc σ p h)

theorem fetch_congr (st σ : GraphState) (h : σ.arguments = st.arguments) (s dd : String) :
    fetchStanceTexts σ s dd = fetchStanceTexts st s dd := by
  rw [fetchStanceTexts, fetchStanceTexts, h]

theorem pass_arguments (groupO : String → String → String) (dd : String) (σ : GraphState)
    (s : String) : (processStanceGroup groupO dd σ s).arguments = σ.arguments := by
  rw [processStanceGroup]
  split
  · rfl
  · exact gmFold_arguments dd s _ σ

theorem mem_pass_edges_iff (groupO : String → String → String) (dd : String)
    (st σ : GraphState) (hargs : σ.arguments = st.arguments) (s : String) (e : HasGroupEdge) :
    e ∈ (processStanceGroup groupO dd σ s).hasGroupEdges ↔
      e ∈ σ.hasGroupEdges ∨
        (fetchStanceTexts st s dd ≠ [] ∧
          ∃ p ∈ stanceParse groupO st s dd, ∃ t ∈ p.2,
            e = ⟨t, p.1, s, dd⟩ ∧ argEx st t dd = true) := by
  rw [processStanceGroup, fetch_congr st σ hargs]
  by_cases hemp : (fetchStanceTexts st s dd).isEmpty = true
  · rw [if_pos hemp]
    have : fetchStanceTexts st s dd = [] := List.isEmpty_iff.mp hemp
    simp [this]
  · rw [if_neg hemp]
    have hne : fetchStanceTexts st s dd ≠ [] := by
      intro hcontra
      exact hemp (by simp [hcontra])
    rw [mem_gmFold_edges_iff]
    constructor
    · rintro (hx | ⟨p, hp, t, ht, he, hax⟩)
      · exact Or.inl hx
      · rw [argEx_congr st σ hargs] at hax
        exact Or.inr ⟨hne, p, hp, t, ht, he, hax⟩
    · rintro (hx | ⟨-, p, hp, t, ht, he, hax⟩)
      · exact Or.inl hx
      · exact Or.inr ⟨p, hp, t, ht, he, by rw [argEx_congr st σ hargs]; exact hax⟩

theorem mem_pass_groups_iff (groupO : String → String → String) (dd : String)
    (st σ : GraphState) (hargs : σ.arguments = st.arguments) (s : String) (g : GroupNode) :
    g ∈ (processStanceGroup groupO dd σ s).groups ↔
      g ∈ σ.groups ∨
        (fetchStanceTexts st s dd ≠ [] ∧
          ∃ p ∈ stanceParse groupO st s dd, g = ⟨p.1, s, dd⟩) := by
  rw [processStanceGroup, fetch_congr st σ hargs]
  by_cases hemp : (fetchStanceTexts st s dd).isEmpty = true
  · rw [if_pos hemp]
    have : fetchStanceTexts st s dd = [] := List.isEmpty_iff.mp hemp
    simp [this]
  · rw [if_neg hemp]
    have hne : fetchStanceTexts st s dd ≠ [] := by
      intro hcontra
      exact hemp (by simp [hcontra])
    rw [mem_gmFold_groups_iff]
    constructor
    · rintro (hx | ⟨p, hp, hg⟩)
      · exact Or.inl hx
      · exact Or.inr ⟨hne, p, hp, hg⟩
    · rintro (hx | ⟨-, p, hp, hg⟩)
      · exact Or.inl hx
      · exact Or.inr ⟨p, hp, hg⟩

theorem pass_edges_nodup (groupO : String → String → String) (dd : String) (σ : GraphState)
    (s : String) (h : σ.hasGroupEdges.Nodup) :
    (processStanceGroup groupO dd σ s).hasGroupEdges.Nodup := by
  rw [processStanceGroup]
  split
  · exact h
  · exact gmFold_edges_nodup dd s _ σ h

theorem pass_groupKeys_nodup (groupO : String → String → String) (dd : String) (σ : GraphState)
    (s : String) (h : (σ.groups.map groupKey).Nodup) :
    ((processStanceGroup groupO dd σ s).groups.map groupKey).Nodup := by
  rw [processStanceGroup]
  split
  · exact h
  · exact gmFold_groupKeys_nodup dd s _ σ h

theorem passes_arguments (groupO : String → String → String) (dd : String) :
    ∀ (ss : List String) (σ : GraphState),
      (ss.foldl (processStanceGroup groupO dd) σ).arguments = σ.arguments
  | [], _ => rfl
  | s :: ss, σ => by
    simp only [List.foldl_cons]
    rw [passes_arguments groupO dd ss _, pass_arguments]

theorem mem_passes_edges_iff (groupO : String → String → String) (dd : String)
    (st : GraphState) :
    ∀ (ss : List String) (σ : GraphState), σ.arguments = st.arguments →
      ∀ e : HasGroupEdge,
        e ∈ (ss.foldl (processStanceGroup groupO dd) σ).hasGroupEdges ↔
          e ∈ σ.hasGroupEdges ∨
            ∃ s ∈ ss, fetchStanceTexts st s dd ≠ [] ∧
              ∃ p ∈ stanceParse groupO st s dd, ∃ t ∈ p.2,
                e = ⟨t, p.1, s, dd⟩ ∧ argEx st t dd = true
  | [], σ, _, e => by simp
  | s :: ss, σ, hargs, e => by
    simp only [List.foldl_cons]
    have hargs' : (processStanceGroup groupO dd σ s).arguments = st.arguments := by
      rw [pass_arguments, hargs]
    rw [mem_passes_edges_iff groupO dd st ss _ hargs' e]
    rw [mem_pass_edges_iff groupO dd st σ hargs s e]
    constructor
    · rintro ((hx | ⟨hne, p, hp, t, ht, he, hax⟩) | ⟨s', hs', rest⟩)
      · exact Or.inl hx
      · exact Or.inr ⟨s, by simp, hne, p, hp, t, ht, he, hax⟩
      · exact Or.inr ⟨s', by simp [hs'], rest⟩
    · rintro (hx | ⟨s', hs', rest⟩)
      · exact Or.inl (Or.inl hx)
      · simp only [List.mem_cons] at hs'
        rcases hs' with hs' | hs'
        · rw [hs'] at rest
          exact Or.inl (Or.inr rest)
        · exact Or.inr ⟨s', hs', rest⟩

theorem mem_passes_groups_iff (groupO : String → String → String) (dd : String)
    (st : GraphState) :
    ∀ (ss : List String) (σ : GraphState), σ.arguments = st.arguments →
      ∀ g : GroupNode,
        g ∈ (ss.foldl (processStanceGroup groupO dd) σ).groups ↔
          g ∈ σ.groups ∨
            ∃ s ∈ ss, fetchStanceTexts st s dd ≠ [] ∧
              ∃ p ∈ stanceParse groupO st s dd, g = ⟨p.1, s, dd⟩
  | [], σ, _, g => by simp
  | s :: ss, σ, hargs, g => by
    simp only [List.foldl_cons]
    have hargs' : (processStanceGroup groupO dd σ s).arguments = st.arguments := by
      rw [pass_arguments, hargs]
    rw [mem_passes_groups_iff groupO dd st ss _ hargs' g]
    rw [mem_pass_groups_iff groupO dd st σ hargs s g]
    constructor
    · rintro ((hx | ⟨hne, p, hp, hg⟩) | ⟨s', hs', rest⟩)
      · exact Or.inl hx
      · exact Or.inr ⟨s, by simp, hne, p, hp, hg⟩
      · exact Or.inr ⟨s', by simp [hs'], rest⟩
    · rintro (hx | ⟨s', hs', rest⟩)
      · exact Or.inl (Or.inl hx)
      · simp only [List.mem_cons] at hs'
        rcases hs' with hs' | hs'
        · rw [hs'] at rest
          exact Or.inl (Or.inr rest)
        · exact Or.inr ⟨s', hs', rest⟩

theorem passes_edges_nodup (groupO : String → String → String) (dd : String) :
    ∀ (ss : List String) (σ : GraphState), σ.hasGroupEdges.Nodup →
      (ss.foldl (processStanceGroup groupO dd) σ).hasGroupEdges.Nodup
  | [], _, h => h
  | s :: ss, σ, h => by
    simp only [List.foldl_cons]
    exact passes_edges_nodup groupO dd ss _ (pass_edges_nodup groupO dd σ s h)

theorem passes_groupKeys_nodup (groupO : String → String → String) (dd : String) :
    ∀ (ss : List String) (σ : GraphState), (σ.groups.map groupKey).Nodup →
      ((ss.foldl (processStanceGroup groupO dd) σ).groups.map groupKey).Nodup
  | [], _, h => h
  | s :: ss, σ, h => by
    simp only [List.foldl_cons]
    exact passes_groupKeys_nodup groupO dd ss _ (pass_groupKeys_nodup groupO dd σ s h)

theorem clear_groups_arguments (st : GraphState) (dd : String) :
    (clear_groups st dd).arguments = st.arguments := rfl

theorem mem_clear_edges_iff (st : GraphState) (dd : String) (e : HasGroupEdge) :
    e ∈ (clear_groups st dd).hasGroupEdges ↔
      e ∈ st.hasGroupEdges ∧ ¬(e.discussion_id = dd ∧ argEx st e.text e.discussion_id = true) := by
  rw [clear_groups]
  simp only [List.mem_filter]
  constructor
  · rintro ⟨h1, h2⟩
    refine ⟨h1, ?_⟩
    rintro ⟨hd, hax⟩
    rw [hd] at hax
    simp [hd, hax] at h2
  · rintro ⟨h1, h2⟩
    refine ⟨h1, ?_⟩
    simp only [Bool.not_eq_true']
    cases hdd : (e.discussion_id == dd) with
    | false => simp
    | true =>
      cases hax : argEx st e.text e.discussion_id with
      | false => simp
      | true => exact absurd ⟨beq_iff_eq.mp hdd, hax⟩ h2

theorem clear_edges_nodup (st : GraphState) (dd : String) (h : st.hasGroupEdges.Nodup) :
    (clear_groups st dd).hasGroupEdges.Nodup := by
  rw [clear_groups]
  exact h.filter _

theorem mem_clear_groups (st : GraphState) (dd : String) (g : GroupNode)
    (h : g ∈ (clear_groups st dd).groups) : g ∈ st.groups := by
  rw [clear_groups] at h
  exact (List.mem_filter.mp h).1

theorem clear_groupKeys_nodup (st : GraphState) (dd : String)
    (h : (st.groups.map groupKey).Nodup) : ((clear_groups st dd).groups.map groupKey).Nodup := by
  rw [clear_groups]
  exact (((List.filter_sublist _).map groupKey).nodup h)

theorem regroup_available (groupO : String → String → String) (dd : String) (st : GraphState) :
    group_arguments_by_stance groupO true true dd st
      = (["FOR", "AGAINST", "NEUTRAL"] : List String).foldl
          (processStanceGroup groupO dd) (clear_groups st dd) := by
  rw [group_arguments_by_stance]
  rfl

/-! ## Support lemmas: counting -/

theorem length_filter_split {α : Type} (p : α → Bool) :
    ∀ l : List α, (l.filter p).length + (l.filter (fun a => !(p a))).length = l.length
  | [] => rfl
  | a :: l => by
    have ih := length_filter_split p l
    cases hp : p a <;>
      simp only [List.filter_cons, hp, Bool.not_true, Bool.not_false, if_true, if_false,
        List.length_cons, Bool.false_eq_true, Bool.true_eq_false, ite_true, ite_false] <;>
      omega

theorem sum_len_filter_by_keys {α : Type} (key : α → String) :
    ∀ (ks : List String) (E : List α), ks.Nodup → (∀ e ∈ E, key e ∈ ks) →
      ((ks.map (fun k => (E.filter (fun e => key e == k)).length)).sum = E.length)
  | [], E, _, hcov => by
    have hE : E = [] := List.eq_nil_iff_forall_not_mem.mpr (fun e he => by
      have := hcov e he
      simp at this)
    simp [hE]
  | k :: ks, E, hnd, hcov => by
    have hndk : k ∉ ks := (List.nodup_cons.mp hnd).1
    have hnd' : ks.Nodup := (List.nodup_cons.mp hnd).2
    have hcov' : ∀ e ∈ E.filter (fun e => !(key e == k)), key e ∈ ks := by
      intro e he
      obtain ⟨heE, hek⟩ := List.mem_filter.mp he
      have hm := hcov e heE
      simp only [List.mem_cons] at hm
      rcases hm with h | h
      · exfalso
        simp [h] at hek
      · exact h
    have ih := sum_len_filter_by_keys key ks (E.filter (fun e => !(key e == k))) hnd' hcov'
    have hrw : ∀ k' ∈ ks,
        ((E.filter (fun e => !(key e == k))).filter (fun e => key e == k')).length
          = (E.filter (fun e => key e == k')).length := by
      intro k' hk'
      congr 1
      rw [List.filter_filter]
      apply List.filter_congr
      intro e _
      cases hkk : key e == k' with
      | false => simp
      | true =>
        have hke : key e = k' := beq_iff_eq.mp hkk
        have hne : (key e == k) = false := by
          cases hc : key e == k with
          | false => rfl
          | true =>
            exfalso
            have := beq_iff_eq.mp hc
            rw [← this, hke] at hndk
            exact hndk hk'
        simp [hne]
    have hmapeq : ks.map (fun k' => (E.filter (fun e => key e == k')).length)
        = ks.map (fun k' =>
            ((E.filter (fun e => !(key e == k))).filter (fun e => key e == k')).length) :=
      List.map_congr_left (fun k' hk' => (hrw k' hk').symm)
    simp only [List.map_cons, List.sum_cons, hmapeq, ih]
    have := length_filter_split (fun e => key e == k) E
    omega

theorem length_le_one_of_pairwise_eq {α : Type} (l : List α) (hnd : l.Nodup)
    (hall : ∀ x ∈ l, ∀ y ∈ l, x = y) : l.length ≤ 1 := by
  cases l with
  | nil => simp
  | cons a l' =>
    cases l' with
    | nil => simp
    | cons b l'' =>
      exfalso
      have hab : a = b := hall a (by simp) b (by simp)
      have : a ∉ b :: l'' := (List.nodup_cons.mp hnd).1
      apply this
      rw [hab]
      simp

theorem mem_flat_unique {β : Type} [DecidableEq β] :
    ∀ (L : List (String × List β)) (t : β), (L.map Prod.snd).flatten.Nodup →
      ∀ p₁ ∈ L, ∀ p₂ ∈ L, t ∈ p₁.2 → t ∈ p₂.2 → p₁ = p₂
  | [], _, _, _, h, _, _, _, _ => absurd h (by simp)
  | q :: L, t, hnd, p₁, hp₁, p₂, hp₂, ht₁, ht₂ => by
    simp only [List.map_cons, List.flatten_cons] at hnd
    rw [List.nodup_append] at hnd
    obtain ⟨hq, hL, hdisj⟩ := hnd
    have hinL : ∀ p ∈ L, t ∈ p.2 → t ∈ (L.map Prod.snd).flatten := by
      intro p hp htp
      exact List.mem_flatten.mpr ⟨p.2, List.mem_map.mpr ⟨p, hp, rfl⟩, htp⟩
    simp only [List.mem_cons] at hp₁ hp₂
    rcases hp₁ with hp₁ | hp₁ <;> rcases hp₂ with hp₂ | hp₂
    · rw [hp₁, hp₂]
    · exfalso
      rw [hp₁] at ht₁
      exact hdisj ht₁ (hinL p₂ hp₂ ht₂)
    · exfalso
      rw [hp₂] at ht₂
      exact hdisj ht₂ (hinL p₁ hp₁ ht₁)
    · exact mem_flat_unique L t hL p₁ hp₁ p₂ hp₂ ht₁ ht₂

/-! ## Support lemmas: fetched stance texts and argument keys -/

theorem mem_fetch_iff (st : GraphState) (s dd t : String) :
    t ∈ fetchStanceTexts st s dd ↔
      (∃ a ∈ st.arguments, a.text = t ∧ a.stance = s ∧ a.discussion_id = dd)
        ∧ pyStrip t ≠ "" := by
  rw [fetchStanceTexts]
  simp only [List.mem_filter, List.mem_map, bne_iff_ne]
  constructor
  · rintro ⟨⟨a, ⟨ha, hsd⟩, hat⟩, hblank⟩
    simp only [Bool.and_eq_true, beq_iff_eq] at hsd
    exact ⟨⟨a, ha, hat, hsd.1, hsd.2⟩, hblank⟩
  · rintro ⟨⟨a, ha, hat, has, had⟩, hblank⟩
    exact ⟨⟨a, ⟨ha, by simp [has, had]⟩, hat⟩, hblank⟩

theorem args_unique (st : GraphState) (hkeys : (st.arguments.map argKey).Nodup)
    (a b : ArgNode) (ha : a ∈ st.arguments) (hb : b ∈ st.arguments)
    (ht : a.text = b.text) (hd : a.discussion_id = b.discussion_id) : a = b :=
  List.inj_on_of_nodup_map hkeys ha hb (by rw [argKey, argKey, ht, hd])

theorem fetch_stance_of_mem (st : GraphState) (hkeys : (st.arguments.map argKey).Nodup)
    (s dd t : String) (ht : t ∈ fetchStanceTexts st s dd)
    (a : ArgNode) (ha : a ∈ st.arguments) (hat : a.text = t) (had : a.discussion_id = dd) :
    a.stance = s := by
  obtain ⟨⟨b, hb, hbt, hbs, hbd⟩, -⟩ := (mem_fetch_iff st s dd t).mp ht
  have : a = b := args_unique st hkeys a b ha hb (by rw [hat, hbt]) (by rw [had, hbd])
  rw [this, hbs]

theorem argEx_of_mem_fetch (st : GraphState) (s dd t : String)
    (ht : t ∈ fetchStanceTexts st s dd) : argEx st t dd = true := by
  obtain ⟨⟨a, ha, hat, -, had⟩, -⟩ := (mem_fetch_iff st s dd t).mp ht
  rw [argEx]
  apply List.any_eq_true.mpr
  exact ⟨a, ha, by simp [hat, had]⟩

theorem stanceArgs_map_text_nodup (st : GraphState) (hkeys : (st.arguments.map argKey).Nodup)
    (s dd : String) :
    ((st.arguments.filter (fun a => a.stance == s && a.discussion_id == dd)).map
      (fun a => a.text)).Nodup := by
  apply List.Nodup.map_on
  · intro x hx y hy hxy
    obtain ⟨hxm, hxp⟩ := List.mem_filter.mp hx
    obtain ⟨hym, hyp⟩ := List.mem_filter.mp hy
    simp only [Bool.and_eq_true, beq_iff_eq] at hxp hyp
    exact args_unique st hkeys x y hxm hym hxy (by rw [hxp.2, hyp.2])
  · exact ((List.filter_sublist _).map argKey).nodup hkeys |>.of_map

theorem fetch_eq_of_no_blank (st : GraphState) (s dd : String)
    (hblank : ∀ a ∈ st.arguments, a.discussion_id = dd → pyStrip a.text ≠ "") :
    fetchStanceTexts st s dd
      = (st.arguments.filter (fun a => a.stance == s && a.discussion_id == dd)).map
          (fun a => a.text) := by
  rw [fetchStanceTexts]
  apply List.filter_eq_self.mpr
  intro t htm
  obtain ⟨a, ham, hat⟩ := List.mem_map.mp htm
  obtain ⟨ha, hsd⟩ := List.mem_filter.mp ham
  simp only [Bool.and_eq_true, beq_iff_eq] at hsd
  rw [bne_iff_ne]
  rw [← hat]
  exact hblank a ha hsd.2

theorem fetch_nodup (st : GraphState) (hkeys : (st.arguments.map argKey).Nodup) (s dd : String) :
    (fetchStanceTexts st s dd).Nodup := by
  rw [fetchStanceTexts]
  exact (stanceArgs_map_text_nodup st hkeys s dd).filter _

theorem fetch_length (st : GraphState) (s dd : String)
    (hblank : ∀ a ∈ st.arguments, a.discussion_id = dd → pyStrip a.text ≠ "") :
    (fetchStanceTexts st s dd).length = stanceArgCount st s dd := by
  rw [fetch_eq_of_no_blank st s dd hblank, stanceArgCount, List.length_map]

theorem stanceArgCount_zero_of_fetch_nil (st : GraphState) (s dd : String)
    (hblank : ∀ a ∈ st.arguments, a.discussion_id = dd → pyStrip a.text ≠ "")
    (hnil : fetchStanceTexts st s dd = []) : stanceArgCount st s dd = 0 := by
  rw [← fetch_length st s dd hblank, hnil]
  rfl

/-! ## Support lemmas: the regrouped state -/

theorem regroup_final_edges_iff (groupO : String → String → String) (d : String)
    (st : GraphState)
    (hsrc : ∀ e ∈ st.hasGroupEdges, e.discussion_id = d → argEx st e.text d = true)
    (e : HasGroupEdge) :
    e ∈ (group_arguments_by_stance groupO true true d st).hasGroupEdges ↔
      (e ∈ st.hasGroupEdges ∧ e.discussion_id ≠ d) ∨
        ∃ s ∈ (["FOR", "AGAINST", "NEUTRAL"] : List String),
          fetchStanceTexts st s d ≠ [] ∧
            ∃ p ∈ stanceParse groupO st s d, ∃ t ∈ p.2,
              e = ⟨t, p.1, s, d⟩ ∧ argEx st t d = true := by
  rw [regroup_available]
  rw [mem_passes_edges_iff groupO d st _ (clear_groups st d) (clear_groups_arguments st d) e]
  rw [mem_clear_edges_iff st d e]
  constructor
  · rintro (⟨h1, h2⟩ | hr)
    · left
      refine ⟨h1, ?_⟩
      intro hd
      exact h2 ⟨hd, by rw [hd]; exact hsrc e h1 hd⟩
    · exact Or.inr hr
  · rintro (⟨h1, hne⟩ | hr)
    · exact Or.inl ⟨h1, fun hc => hne hc.1⟩
    · exact Or.inr hr

theorem regroup_final_groups_iff (groupO : String → String → String) (d : String)
    (st : GraphState) (g : GroupNode) :
    g ∈ (group_arguments_by_stance groupO true true d st).groups ↔
      g ∈ (clear_groups st d).groups ∨
        ∃ s ∈ (["FOR", "AGAINST", "NEUTRAL"] : List String),
          fetchStanceTexts st s d ≠ [] ∧
            ∃ p ∈ stanceParse groupO st s d, g = ⟨p.1, s, d⟩ := by
  rw [regroup_available]
  exact mem_passes_groups_iff groupO d st _ (clear_groups st d) (clear_groups_arguments st d) g

theorem regroup_edges_nodup (groupO : String → String → String) (d : String) (st : GraphState)
    (hednd : st.hasGroupEdges.Nodup) :
    (group_arguments_by_stance groupO true true d st).hasGroupEdges.Nodup := by
  rw [regroup_available]
  exact passes_edges_nodup groupO d _ _ (clear_edges_nodup st d hednd)

theorem regroup_groupKeys_nodup (groupO : String → String → String) (d : String)
    (st : GraphState) (hgkeys : (st.groups.map groupKey).Nodup) :
    ((group_arguments_by_stance groupO true true d st).groups.map groupKey).Nodup := by
  rw [regroup_available]
  exact passes_groupKeys_nodup groupO d _ _ (clear_groupKeys_nodup st d hgkeys)

/-! ## Claim theorems: C2 -/

/-- C2 counterexample, two failure modes.  First, with one FOR argument `A`
and a grouping response that lists `A` under two distinct `Group:` headers,
the regroup pass leaves the Argument with two outgoing `HAS_GROUP` edges, and
the sum of group member counts for the stance is 2 while only one Argument
carries that stance.  Second, even when the response perfectly partitions the
*fetched* texts, a blank-text Argument of the stance (which the extractor can
create from a marker-only response line) is counted for the stance but
filtered out of the regroup fetch, so the member-count sum (1) falls short of
the stance's Argument count (2). -/
theorem C2_counterexample :
    outDeg (group_arguments_by_stance
        (fun stance _ => if stance == "FOR" then "Group: G1\n- A\nGroup: G2\n- A" else "")
        true true "d" ⟨[], [], [], [⟨"A", "d", "FOR"⟩], [], [], [], [], []⟩) "A" "d" = 2 ∧
    ¬(outDeg (group_arguments_by_stance
        (fun stance _ => if stance == "FOR" then "Group: G1\n- A\nGroup: G2\n- A" else "")
        true true "d" ⟨[], [], [], [⟨"A", "d", "FOR"⟩], [], [], [], [], []⟩) "A" "d" ≤ 1) ∧
    sumMemberCounts (group_arguments_by_stance
        (fun stance _ => if stance == "FOR" then "Group: G1\n- A\nGroup: G2\n- A" else "")
        true true "d" ⟨[], [], [], [⟨"A", "d", "FOR"⟩], [], [], [], [], []⟩) "d" "FOR" = 2 ∧
    stanceArgCount ⟨[], [], [], [⟨"A", "d", "FOR"⟩], [], [], [], [], []⟩ "FOR" "d" = 1 ∧
    fetchStanceTexts ⟨[], [], [], [⟨"A", "d", "FOR"⟩, ⟨"", "d", "FOR"⟩], [], [], [], [], []⟩
      "FOR" "d" = ["A"] ∧
    sumMemberCounts (group_arguments_by_stance
        (fun stance _ => if stance == "FOR" then "Group: G\n- A" else "")
        true true "d" ⟨[], [], [], [⟨"A", "d", "FOR"⟩, ⟨"", "d", "FOR"⟩], [], [], [], [], []⟩)
      "d" "FOR" = 1 ∧
    stanceArgCount ⟨[], [], [], [⟨"A", "d", "FOR"⟩, ⟨"", "d", "FOR"⟩], [], [], [], [], []⟩
      "FOR" "d" = 2 := by
  refine ⟨by decide, by decide, by decide, by decide, by decide, by decide, by decide⟩

theorem regroup_edge_from_parse (groupO : String → String → String) (d : String)
    (st : GraphState)
    (hsrc : ∀ e ∈ st.hasGroupEdges, e.discussion_id = d → argEx st e.text d = true) :
    ∀ e ∈ (group_arguments_by_stance groupO true true d st).hasGroupEdges,
      e.discussion_id = d →
        ∃ s ∈ (["FOR", "AGAINST", "NEUTRAL"] : List String),
          fetchStanceTexts st s d ≠ [] ∧
            ∃ p ∈ stanceParse groupO st s d, ∃ t ∈ p.2, e = ⟨t, p.1, s, d⟩ := by
  intro e he hd
  rcases (regroup_final_edges_iff groupO d st hsrc e).mp he with ⟨-, hne⟩ | hr
  · exact absurd hd hne
  · obtain ⟨s, hs, hne, p, hp, t, ht, heq, -⟩ := hr
    exact ⟨s, hs, hne, p, hp, t, ht, heq⟩

theorem regroup_mem_stance_edges_iff (groupO : String → String → String) (d : String)
    (st : GraphState)
    (hsrc : ∀ e ∈ st.hasGroupEdges, e.discussion_id = d → argEx st e.text d = true)
    (s : String) (hs : s ∈ (["FOR", "AGAINST", "NEUTRAL"] : List String))
    (hne : fetchStanceTexts st s d ≠ [])
    (hsub1 : ∀ t ∈ ((stanceParse groupO st s d).map Prod.snd).flatten,
      t ∈ fetchStanceTexts st s d)
    (e : HasGroupEdge) :
    e ∈ (group_arguments_by_stance groupO true true d st).hasGroupEdges.filter
        (fun e => e.stance == s && e.discussion_id == d) ↔
      ∃ p ∈ stanceParse groupO st s d, ∃ t ∈ p.2, e = ⟨t, p.1, s, d⟩ := by
  constructor
  · intro he
    obtain ⟨hem, hep⟩ := List.mem_filter.mp he
    simp only [Bool.and_eq_true, beq_iff_eq] at hep
    obtain ⟨s', hs', hne', p, hp, t, ht, heq⟩ := regroup_edge_from_parse groupO d st hsrc
      e hem hep.2
    have hss : s' = s := by
      rw [heq] at hep
      exact hep.1.symm ▸ rfl
    rw [hss] at hp heq
    exact ⟨p, hp, t, ht, heq⟩
  · rintro ⟨p, hp, t, ht, heq⟩
    apply List.mem_filter.mpr
    constructor
    · apply (regroup_final_edges_iff groupO d st hsrc e).mpr
      right
      refine ⟨s, hs, hne, p, hp, t, ht, heq, ?_⟩
      apply argEx_of_mem_fetch st s d t
      apply hsub1
      exact List.mem_flatten.mpr ⟨p.2, List.mem_map.mpr ⟨p, hp, rfl⟩, ht⟩
    · rw [heq]
      simp

theorem regroup_stance_edge_count (groupO : String → String → String) (d : String)
    (st : GraphState)
    (hkeys : (st.arguments.map argKey).Nodup)
    (hednd : st.hasGroupEdges.Nodup)
    (hsrc : ∀ e ∈ st.hasGroupEdges, e.discussion_id = d → argEx st e.text d = true)
    (s : String) (hs : s ∈ (["FOR", "AGAINST", "NEUTRAL"] : List String))
    (hne : fetchStanceTexts st s d ≠ [])
    (hfnd : ((stanceParse groupO st s d).map Prod.snd).flatten.Nodup)
    (hsub1 : ∀ t ∈ ((stanceParse groupO st s d).map Prod.snd).flatten,
      t ∈ fetchStanceTexts st s d)
    (hsub2 : ∀ t ∈ fetchStanceTexts st s d,
      t ∈ ((stanceParse groupO st s d).map Prod.snd).flatten) :
    ((group_arguments_by_stance groupO true true d st).hasGroupEdges.filter
        (fun e => e.stance == s && e.discussion_id == d)).length
      = (fetchStanceTexts st s d).length := by
  have hiff := regroup_mem_stance_edges_iff groupO d st hsrc s hs hne hsub1
  have hndE : ((group_arguments_by_stance groupO true true d st).hasGroupEdges.filter
      (fun e => e.stance == s && e.discussion_id == d)).Nodup :=
    (regroup_edges_nodup groupO d st hednd).filter _
  have hinj : ∀ x ∈ (group_arguments_by_stance groupO true true d st).hasGroupEdges.filter
      (fun e => e.stance == s && e.discussion_id == d),
      ∀ y ∈ (group_arguments_by_stance groupO true true d st).hasGroupEdges.filter
        (fun e => e.stance == s && e.discussion_id == d),
      (fun e : HasGroupEdge => e.text) x = (fun e : HasGroupEdge => e.text) y → x = y := by
    intro x hx y hy hxy
    obtain ⟨p₁, hp₁, t₁, ht₁, heq₁⟩ := (hiff x).mp hx
    obtain ⟨p₂, hp₂, t₂, ht₂, heq₂⟩ := (hiff y).mp hy
    have ht12 : t₁ = t₂ := by
      rw [heq₁, heq₂] at hxy
      exact hxy
    rw [ht12] at ht₁
    have hpp : p₁ = p₂ := mem_flat_unique (stanceParse groupO st s d) t₂ hfnd
      p₁ hp₁ p₂ hp₂ ht₁ ht₂
    rw [heq₁, heq₂, ht12, hpp]
  have hmapnd : (((group_arguments_by_stance groupO true true d st).hasGroupEdges.filter
      (fun e => e.stance == s && e.discussion_id == d)).map (fun e => e.text)).Nodup :=
    List.Nodup.map_on hinj hndE
  have hmem : ∀ t, t ∈ ((group_arguments_by_stance groupO true true d st).hasGroupEdges.filter
      (fun e => e.stance == s && e.discussion_id == d)).map (fun e => e.text) ↔
      t ∈ fetchStanceTexts st s d := by
    intro t
    constructor
    · intro htm
      obtain ⟨e, he, hete⟩ := List.mem_map.mp htm
      obtain ⟨p, hp, t', ht', heq⟩ := (hiff e).mp he
      have : t = t' := by rw [← hete, heq]
      rw [this]
      apply hsub1
      exact List.mem_flatten.mpr ⟨p.2, List.mem_map.mpr ⟨p, hp, rfl⟩, ht'⟩
    · intro htf
      have hflat := hsub2 t htf
      obtain ⟨l, hl, htl⟩ := List.mem_flatten.mp hflat
      obtain ⟨p, hp, hpl⟩ := List.mem_map.mp hl
      apply List.mem_map.mpr
      refine ⟨⟨t, p.1, s, d⟩, ?_, rfl⟩
      apply (hiff ⟨t, p.1, s, d⟩).mpr
      exact ⟨p, hp, t, by rw [hpl]; exact htl, rfl⟩
  have hperm := (List.perm_ext_iff_of_nodup hmapnd (fetch_nodup st hkeys s d)).mpr hmem
  have := hperm.length_eq
  rwa [List.length_map] at this

set_option maxHeartbeats 2000000 in
theorem regroup_sum_eq_stance_edge_count (groupO : String → String → String) (d : String)
    (st : GraphState)
    (hgkeys : (st.groups.map groupKey).Nodup)
    (hsrc : ∀ e ∈ st.hasGroupEdges, e.discussion_id = d → argEx st e.text d = true)
    (s : String) (hs : s ∈ (["FOR", "AGAINST", "NEUTRAL"] : List String))
    (hne : fetchStanceTexts st s d ≠ []) :
    sumMemberCounts (group_arguments_by_stance groupO true true d st) d s
      = ((group_arguments_by_stance groupO true true d st).hasGroupEdges.filter
          (fun e => e.stance == s && e.discussion_id == d)).length := by
  have hgkF := regroup_groupKeys_nodup groupO d st hgkeys
  have hGnd : (group_arguments_by_stance groupO true true d st).groups.Nodup :=
    hgkF.of_map
  have hGSnd : ((group_arguments_by_stance groupO true true d st).groups.filter
      (fun g => g.discussion_id == d && g.stance == s)).Nodup := hGnd.filter _
  have hksinj : ∀ x ∈ (group_arguments_by_stance groupO true true d st).groups.filter
      (fun g => g.discussion_id == d && g.stance == s),
      ∀ y ∈ (group_arguments_by_stance groupO true true d st).groups.filter
        (fun g => g.discussion_id == d && g.stance == s),
      (fun g : GroupNode => g.summary) x = (fun g : GroupNode => g.summary) y → x = y := by
    intro x hx y hy hxy
    obtain ⟨hxm, hxp⟩ := List.mem_filter.mp hx
    obtain ⟨hym, hyp⟩ := List.mem_filter.mp hy
    simp only [Bool.and_eq_true, beq_iff_eq] at hxp hyp
    have hxy' : x.summary = y.summary := hxy
    apply List.inj_on_of_nodup_map hgkF hxm hym
    rw [groupKey, groupKey, hxy', hxp.1, hxp.2, hyp.1, hyp.2]
  have hksnd : (((group_arguments_by_stance groupO true true d st).groups.filter
      (fun g => g.discussion_id == d && g.stance == s)).map (fun g => g.summary)).Nodup :=
    List.Nodup.map_on hksinj hGSnd
  have hcov : ∀ e ∈ (group_arguments_by_stance groupO true true d st).hasGroupEdges.filter
      (fun e => e.stance == s && e.discussion_id == d),
      (fun e : HasGroupEdge => e.summary) e ∈
        ((group_arguments_by_stance groupO true true d st).groups.filter
          (fun g => g.discussion_id == d && g.stance == s)).map (fun g => g.summary) := by
    intro e he
    obtain ⟨hem, hep⟩ := List.mem_filter.mp he
    simp only [Bool.and_eq_true, beq_iff_eq] at hep
    obtain ⟨s', hs', hne', p, hp, t, ht, heq⟩ := regroup_edge_from_parse groupO d st hsrc
      e hem hep.2
    have hss : s' = s := by
      rw [heq] at hep
      exact hep.1.symm ▸ rfl
    rw [hss] at hp heq
    apply List.mem_map.mpr
    refine ⟨⟨p.1, s, d⟩, ?_, by rw [heq]⟩
    apply List.mem_filter.mpr
    constructor
    · apply (regroup_final_groups_iff groupO d st ⟨p.1, s, d⟩).mpr
      exact Or.inr ⟨s, hs, hne, p, hp, rfl⟩
    · simp
  have hgen := sum_len_filter_by_keys (fun e : HasGroupEdge => e.summary)
    (((group_arguments_by_stance groupO true true d st).groups.filter
      (fun g => g.discussion_id == d && g.stance == s)).map (fun g => g.summary))
    ((group_arguments_by_stance groupO true true d st).hasGroupEdges.filter
      (fun e => e.stance == s && e.discussion_id == d)) hksnd hcov
  rw [sumMemberCounts]
  rw [List.map_map] at hgen
  rw [← hgen]
  apply congrArg List.sum
  apply List.map_congr_left
  intro g hg
  obtain ⟨hgm, hgp⟩ := List.mem_filter.mp hg
  simp only [Bool.and_eq_true, beq_iff_eq] at hgp
  rw [groupInDeg]
  simp only [Function.comp]
  rw [List.filter_filter]
  congr 1
  apply List.filter_congr
  intro e _
  rw [hgp.1, hgp.2]
  cases hsu : e.summary == g.summary <;> cases hst : e.stance == s <;>
    cases hdd : e.discussion_id == d <;> simp [hsu, hst, hdd]

/-- C2 amended: consider an (available) run of `group_arguments_by_stance`
for a discussion, under the store's natural-key uniqueness invariants
(argument keys, group keys and the `HAS_GROUP` edge list duplicate-free, and
every prior `HAS_GROUP` edge of the discussion pointing at an existing
Argument).  Provided additionally that every Argument of the discussion has
non-blank stripped text and that each stance's parsed response partitions
that stance's fetched argument texts (each text listed exactly once, and
exactly the fetched texts listed), then: every Argument of the discussion has
at most one outgoing `HAS_GROUP` edge, the sum of group member counts over
each stance's `ArgumentGroup`s equals the number of Arguments with that
stance, and every `HAS_GROUP` edge of the discussion stems from the freshly
parsed grouping response (all prior-epoch edges are gone).  The code enforces
neither proviso: without the partition the exclusivity and the count fail,
and without the blank-text proviso the count falls short, because a blank
Argument is counted for its stance but filtered out of the grouping fetch
(see the counterexample for both). -/
theorem C2_regroup_exclusivity (groupO : String → String → String) (d : String)
    (st : GraphState)
    (hkeys : (st.arguments.map argKey).Nodup)
    (hgkeys : (st.groups.map groupKey).Nodup)
    (hednd : st.hasGroupEdges.Nodup)
    (hsrc : ∀ e ∈ st.hasGroupEdges, e.discussion_id = d → argEx st e.text d = true)
    (hblank : ∀ a ∈ st.arguments, a.discussion_id = d → pyStrip a.text ≠ "")
    (hpart : ∀ s ∈ (["FOR", "AGAINST", "NEUTRAL"] : List String),
      fetchStanceTexts st s d ≠ [] →
        ((stanceParse groupO st s d).map Prod.snd).flatten.Nodup ∧
        (∀ t ∈ ((stanceParse groupO st s d).map Prod.snd).flatten,
          t ∈ fetchStanceTexts st s d) ∧
        (∀ t ∈ fetchStanceTexts st s d,
          t ∈ ((stanceParse groupO st s d).map Prod.snd).flatten)) :
    (∀ a ∈ st.arguments, a.discussion_id = d →
      outDeg (group_arguments_by_stance groupO true true d st) a.text d ≤ 1) ∧
    (∀ s ∈ (["FOR", "AGAINST", "NEUTRAL"] : List String),
      sumMemberCounts (group_arguments_by_stance groupO true true d st) d s
        = stanceArgCount st s d) ∧
    (∀ e ∈ (group_arguments_by_stance groupO true true d st).hasGroupEdges,
      e.discussion_id = d →
        ∃ s ∈ (["FOR", "AGAINST", "NEUTRAL"] : List String),
          ∃ p ∈ stanceParse groupO st s d, e.stance = s ∧ e.summary = p.1 ∧ e.text ∈ p.2) := by
  refine ⟨?_, ?_, ?_⟩
  · intro a ha had
    rw [outDeg]
    apply length_le_one_of_pairwise_eq _ ((regroup_edges_nodup groupO d st hednd).filter _)
    intro x hx y hy
    obtain ⟨hxm, hxp⟩ := List.mem_filter.mp hx
    obtain ⟨hym, hyp⟩ := List.mem_filter.mp hy
    simp only [Bool.and_eq_true, beq_iff_eq] at hxp hyp
    obtain ⟨s₁, hs₁, hne₁, p₁, hp₁, t₁, ht₁, heq₁⟩ :=
      regroup_edge_from_parse groupO d st hsrc x hxm hxp.2
    obtain ⟨s₂, hs₂, hne₂, p₂, hp₂, t₂, ht₂, heq₂⟩ :=
      regroup_edge_from_parse groupO d st hsrc y hym hyp.2
    have hxt : x.text = t₁ := by rw [heq₁]
    have hyt : y.text = t₂ := by rw [heq₂]
    have ht₁a : t₁ = a.text := by rw [← hxt, hxp.1]
    have ht₂a : t₂ = a.text := by rw [← hyt, hyp.1]
    have hflat₁ : t₁ ∈ ((stanceParse groupO st s₁ d).map Prod.snd).flatten :=
      List.mem_flatten.mpr ⟨p₁.2, List.mem_map.mpr ⟨p₁, hp₁, rfl⟩, ht₁⟩
    have hfet₁ : t₁ ∈ fetchStanceTexts st s₁ d := (hpart s₁ hs₁ hne₁).2.1 t₁ hflat₁
    have hstance₁ : a.stance = s₁ :=
      fetch_stance_of_mem st hkeys s₁ d t₁ hfet₁ a ha ht₁a.symm had
    have hflat₂ : t₂ ∈ ((stanceParse groupO st s₂ d).map Prod.snd).flatten :=
      List.mem_flatten.mpr ⟨p₂.2, List.mem_map.mpr ⟨p₂, hp₂, rfl⟩, ht₂⟩
    have hfet₂ : t₂ ∈ fetchStanceTexts st s₂ d := (hpart s₂ hs₂ hne₂).2.1 t₂ hflat₂
    have hstance₂ : a.stance = s₂ :=
      fetch_stance_of_mem st hkeys s₂ d t₂ hfet₂ a ha ht₂a.symm had
    have hss : s₁ = s₂ := by rw [← hstance₁, ← hstance₂]
    rw [hss] at hp₁
    have hfnd₂ := (hpart s₂ hs₂ hne₂).1
    have ht₁' : a.text ∈ p₁.2 := ht₁a ▸ ht₁
    have ht₂' : a.text ∈ p₂.2 := ht₂a ▸ ht₂
    have hpp : p₁ = p₂ :=
      mem_flat_unique (stanceParse groupO st s₂ d) a.text hfnd₂ p₁ hp₁ p₂ hp₂ ht₁' ht₂'
    rw [heq₁, heq₂, ht₁a, ht₂a, hpp, hss]
  · intro s hs
    by_cases hfe : fetchStanceTexts st s d = []
    · rw [stanceArgCount_zero_of_fetch_nil st s d hblank hfe]
      rw [sumMemberCounts]
      apply List.sum_eq_zero
      intro n hn
      obtain ⟨g, hg, hgn⟩ := List.mem_map.mp hn
      obtain ⟨hgm, hgp⟩ := List.mem_filter.mp hg
      simp only [Bool.and_eq_true, beq_iff_eq] at hgp
      rw [← hgn, groupInDeg]
      have hnil : (group_arguments_by_stance groupO true true d st).hasGroupEdges.filter
          (fun e => e.summary == g.summary && e.stance == g.stance
            && e.discussion_id == g.discussion_id) = [] := by
        apply List.eq_nil_iff_forall_not_mem.mpr
        intro e hme
        obtain ⟨hem, hep⟩ := List.mem_filter.mp hme
        simp only [Bool.and_eq_true, beq_iff_eq] at hep
        have hed : e.discussion_id = d := by rw [hep.2, hgp.1]
        obtain ⟨s', hs', hne', p, hp, t, ht, heq⟩ :=
          regroup_edge_from_parse groupO d st hsrc e hem hed
        have hest : e.stance = s' := by rw [heq]
        have hs's : s' = s := by rw [← hest, hep.1.2, hgp.2]
        rw [hs's] at hne'
        exact hne' hfe
      rw [hnil]
      rfl
    · obtain ⟨hfnd, hsub1, hsub2⟩ := hpart s hs hfe
      rw [regroup_sum_eq_stance_edge_count groupO d st hgkeys hsrc s hs hfe]
      rw [regroup_stance_edge_count groupO d st hkeys hednd hsrc s hs hfe hfnd hsub1 hsub2]
      exact fetch_length st s d hblank
  · intro e he hd
    obtain ⟨s, hs, hne', p, hp, t, ht, heq⟩ :=
      regroup_edge_from_parse groupO d st hsrc e he hd
    refine ⟨s, hs, p, hp, ?_, ?_, ?_⟩
    · rw [heq]
    · rw [heq]
    · rw [heq]
      exact ht

/-- Witness for C2's amended theorem: two FOR arguments grouped into one
group. -/
theorem C2_witness :
    (∀ a ∈ ([⟨"A", "d", "FOR"⟩, ⟨"B", "d", "FOR"⟩] : List ArgNode), a.discussion_id = "d" →
      outDeg (group_arguments_by_stance
        (fun stance _ => if stance == "FOR" then "Group: G\n- A\n- B" else "")
        true true "d" ⟨[], [], [], [⟨"A", "d", "FOR"⟩, ⟨"B", "d", "FOR"⟩], [], [], [], [], []⟩)
        a.text "d" ≤ 1) ∧
    (∀ s ∈ (["FOR", "AGAINST", "NEUTRAL"] : List String),
      sumMemberCounts (group_arguments_by_stance
        (fun stance _ => if stance == "FOR" then "Group: G\n- A\n- B" else "")
        true true "d" ⟨[], [], [], [⟨"A", "d", "FOR"⟩, ⟨"B", "d", "FOR"⟩], [], [], [], [], []⟩)
        "d" s
        = stanceArgCount ⟨[], [], [], [⟨"A", "d", "FOR"⟩, ⟨"B", "d", "FOR"⟩], [], [], [], [], []⟩
            s "d") := by
  have h := C2_regroup_exclusivity
    (fun stance _ => if stance == "FOR" then "Group: G\n- A\n- B" else "") "d"
    ⟨[], [], [], [⟨"A", "d", "FOR"⟩, ⟨"B", "d", "FOR"⟩], [], [], [], [], []⟩
    (by decide) (by decide) (by decide) (by decide) (by decide)
    (by decide)
  exact ⟨h.1, h.2.1⟩

/-! ## Support lemmas: ingestion state components -/

theorem any_key_eq {α β : Type} (key : α → β) (p : β → Bool) :
    ∀ {l l' : List α}, l.map key = l'.map key →
      l.any (fun x => p (key x)) = l'.any (fun x => p (key x)) := by
  intro l
  induction l with
  | nil =>
    intro l' h
    cases l' with
    | nil => rfl
    | cons b bs => exact absurd h (by simp)
  | cons a as ih =>
    intro l' h
    cases l' with
    | nil => exact absurd h (by simp)
    | cons b bs =>
      simp only [List.map_cons, List.cons.injEq] at h
      simp only [List.any_cons, h.1, ih h.2]

theorem merge_comment_frame (st : GraphState) (c : CommentNode) :
    (merge_comment st c).topics = st.topics ∧ (merge_comment st c).replies = st.replies ∧
    (merge_comment st c).arguments = st.arguments ∧ (merge_comment st c).groups = st.groups ∧
    (merge_comment st c).stanceEdges = st.stanceEdges ∧
    (merge_comment st c).replyEdges = st.replyEdges ∧
    (merge_comment st c).extractedEdges = st.extractedEdges ∧
    (merge_comment st c).hasGroupEdges = st.hasGroupEdges := by
  rw [merge_comment]
  split <;> exact ⟨rfl, rfl, rfl, rfl, rfl, rfl, rfl, rfl⟩

theorem merge_reply_frame (st : GraphState) (r : ReplyNode) :
    (merge_reply st r).topics = st.topics ∧ (merge_reply st r).comments = st.comments ∧
    (merge_reply st r).arguments = st.arguments ∧ (merge_reply st r).groups = st.groups ∧
    (merge_reply st r).stanceEdges = st.stanceEdges ∧
    (merge_reply st r).replyEdges = st.replyEdges ∧
    (merge_reply st r).extractedEdges = st.extractedEdges ∧
    (merge_reply st r).hasGroupEdges = st.hasGroupEdges := by
  rw [merge_reply]
  split <;> exact ⟨rfl, rfl, rfl, rfl, rfl, rfl, rfl, rfl⟩

theorem merge_topic_frame (st : GraphState) (ti dd u : String) :
    (merge_topic st ti dd u).comments = st.comments ∧
    (merge_topic st ti dd u).replies = st.replies ∧
    (merge_topic st ti dd u).arguments = st.arguments ∧
    (merge_topic st ti dd u).groups = st.groups ∧
    (merge_topic st ti dd u).stanceEdges = st.stanceEdges ∧
    (merge_topic st ti dd u).replyEdges = st.replyEdges ∧
    (merge_topic st ti dd u).extractedEdges = st.extractedEdges ∧
    (merge_topic st ti dd u).hasGroupEdges = st.hasGroupEdges := by
  rw [merge_topic]
  split <;> exact ⟨rfl, rfl, rfl, rfl, rfl, rfl, rfl, rfl⟩

theorem merge_argument_frame (st : GraphState) (t s dd : String) :
    (merge_argument st t s dd).topics = st.topics ∧
    (merge_argument st t s dd).comments = st.comments ∧
    (merge_argument st t s dd).replies = st.replies ∧
    (merge_argument st t s dd).groups = st.groups ∧
    (merge_argument st t s dd).stanceEdges = st.stanceEdges ∧
    (merge_argument st t s dd).replyEdges = st.replyEdges ∧
    (merge_argument st t s dd).extractedEdges = st.extractedEdges ∧
    (merge_argument st t s dd).hasGroupEdges = st.hasGroupEdges := by
  rw [merge_argument]
  split <;> exact ⟨rfl, rfl, rfl, rfl, rfl, rfl, rfl, rfl⟩

theorem connect_comment_to_topic_frame (st : GraphState) (cid ti s dd : String) :
    (connect_comment_to_topic st cid ti s dd).topics = st.topics ∧
    (connect_comment_to_topic st cid ti s dd).comments = st.comments ∧
    (connect_comment_to_topic st cid ti s dd).replies = st.replies ∧
    (connect_comment_to_topic st cid ti s dd).arguments = st.arguments ∧
    (connect_comment_to_topic st cid ti s dd).groups = st.groups ∧
    (connect_comment_to_topic st cid ti s dd).replyEdges = st.replyEdges ∧
    (connect_comment_to_topic st cid ti s dd).extractedEdges = st.extractedEdges ∧
    (connect_comment_to_topic st cid ti s dd).hasGroupEdges = st.hasGroupEdges := by
  rw [connect_comment_to_topic]
  split
  · split <;> exact ⟨rfl, rfl, rfl, rfl, rfl, rfl, rfl, rfl⟩
  · exact ⟨rfl, rfl, rfl, rfl, rfl, rfl, rfl, rfl⟩

theorem connect_reply_to_comment_frame (st : GraphState) (rid cid dd : String) :
    (connect_reply_to_comment st rid cid dd).topics = st.topics ∧
    (connect_reply_to_comment st rid cid dd).comments = st.comments ∧
    (connect_reply_to_comment st rid cid dd).replies = st.replies ∧
    (connect_reply_to_comment st rid cid dd).arguments = st.arguments ∧
    (connect_reply_to_comment st rid cid dd).groups = st.groups ∧
    (connect_reply_to_comment st rid cid dd).stanceEdges = st.stanceEdges ∧
    (connect_reply_to_comment st rid cid dd).extractedEdges = st.extractedEdges ∧
    (connect_reply_to_comment st rid cid dd).hasGroupEdges = st.hasGroupEdges := by
  rw [connect_reply_to_comment]
  split
  · split <;> exact ⟨rfl, rfl, rfl, rfl, rfl, rfl, rfl, rfl⟩
  · exact ⟨rfl, rfl, rfl, rfl, rfl, rfl, rfl, rfl⟩

theorem connect_argument_to_comment_frame (st : GraphState) (t cid dd : String) :
    (connect_argument_to_comment st t cid dd).topics = st.topics ∧
    (connect_argument_to_comment st t cid dd).comments = st.comments ∧
    (connect_argument_to_comment st t cid dd).replies = st.replies ∧
    (connect_argument_to_comment st t cid dd).arguments = st.arguments ∧
    (connect_argument_to_comment st t cid dd).groups = st.groups ∧
    (connect_argument_to_comment st t cid dd).stanceEdges = st.stanceEdges ∧
    (connect_argument_to_comment st t cid dd).replyEdges = st.replyEdges ∧
    (connect_argument_to_comment st t cid dd).hasGroupEdges = st.hasGroupEdges := by
  rw [connect_argument_to_comment]
  split
  · split <;> exact ⟨rfl, rfl, rfl, rfl, rfl, rfl, rfl, rfl⟩
  · exact ⟨rfl, rfl, rfl, rfl, rfl, rfl, rfl, rfl⟩

theorem connect_argument_to_reply_frame (st : GraphState) (t rid dd : String) :
    (connect_argument_to_reply st t rid dd).topics = st.topics ∧
    (connect_argument_to_reply st t rid dd).comments = st.comments ∧
    (connect_argument_to_reply st t rid dd).replies = st.replies ∧
    (connect_argument_to_reply st t rid dd).arguments = st.arguments ∧
    (connect_argument_to_reply st t rid dd).groups = st.groups ∧
    (connect_argument_to_reply st t rid dd).stanceEdges = st.stanceEdges ∧
    (connect_argument_to_reply st t rid dd).replyEdges = st.replyEdges ∧
    (connect_argument_to_reply st t rid dd).hasGroupEdges = st.hasGroupEdges := by
  rw [connect_argument_to_reply]
  split
  · split <;> exact ⟨rfl, rfl, rfl, rfl, rfl, rfl, rfl, rfl⟩
  · exact ⟨rfl, rfl, rfl, rfl, rfl, rfl, rfl, rfl⟩

theorem check_comment_exists_congr (st st' : GraphState)
    (h : st'.comments.map commentKey = st.comments.map commentKey) (cid dd : String) :
    check_comment_exists st' cid dd = check_comment_exists st cid dd :=
  any_key_eq commentKey (fun k => k.1 == cid && k.2 == dd) h

theorem check_reply_exists_congr (st st' : GraphState)
    (h : st'.replies.map replyKey = st.replies.map replyKey) (rid dd : String) :
    check_reply_exists st' rid dd = check_reply_exists st rid dd :=
  any_key_eq replyKey (fun k => k.1 == rid && k.2 == dd) h

theorem merge_comment_keys_of_exists (st : GraphState) (c : CommentNode)
    (h : check_comment_exists st c.id c.discussion_id = true) :
    (merge_comment st c).comments.map commentKey = st.comments.map commentKey := by
  rw [check_comment_exists] at h
  rw [merge_comment, if_pos h]
  rw [List.map_map]
  apply List.map_congr_left
  intro x _
  by_cases hx : (x.id == c.id && x.discussion_id == c.discussion_id) = true
  · simp [Function.comp, hx, commentKey]
  · simp [Function.comp, hx]

theorem merge_reply_keys_of_exists (st : GraphState) (r : ReplyNode)
    (h : check_reply_exists st r.id r.discussion_id = true) :
    (merge_reply st r).replies.map replyKey = st.replies.map replyKey := by
  rw [check_reply_exists] at h
  rw [merge_reply, if_pos h]
  rw [List.map_map]
  apply List.map_congr_left
  intro x _
  by_cases hx : (x.id == r.id && x.discussion_id == r.discussion_id) = true
  · simp [Function.comp, hx, replyKey]
  · simp [Function.comp, hx]

theorem merge_comment_append_of_not_exists (st : GraphState) (c : CommentNode)
    (h : check_comment_exists st c.id c.discussion_id = false) :
    (merge_comment st c).comments = st.comments ++ [c] := by
  rw [merge_comment, if_neg]
  intro hc
  rw [show (st.comments.any fun x => x.id == c.id && x.discussion_id == c.discussion_id)
      = check_comment_exists st c.id c.discussion_id from rfl, h] at hc
  exact Bool.noConfusion hc

theorem merge_reply_append_of_not_exists (st : GraphState) (r : ReplyNode)
    (h : check_reply_exists st r.id r.discussion_id = false) :
    (merge_reply st r).replies = st.replies ++ [r] := by
  rw [merge_reply, if_neg]
  intro hc
  rw [show (st.replies.any fun x => x.id == r.id && x.discussion_id == r.discussion_id)
      = check_reply_exists st r.id r.discussion_id from rfl, h] at hc
  exact Bool.noConfusion hc

theorem check_merge_comment_self (st : GraphState) (c : CommentNode) :
    check_comment_exists (merge_comment st c) c.id c.discussion_id = true := by
  cases h : check_comment_exists st c.id c.discussion_id with
  | true =>
    rw [check_comment_exists_congr st _ (merge_comment_keys_of_exists st c h)]
    exact h
  | false =>
    rw [check_comment_exists, merge_comment_append_of_not_exists st c h, List.any_append]
    simp

theorem check_merge_reply_self (st : GraphState) (r : ReplyNode) :
    check_reply_exists (merge_reply st r) r.id r.discussion_id = true := by
  cases h : check_reply_exists st r.id r.discussion_id with
  | true =>
    rw [check_reply_exists_congr st _ (merge_reply_keys_of_exists st r h)]
    exact h
  | false =>
    rw [check_reply_exists, merge_reply_append_of_not_exists st r h, List.any_append]
    simp

theorem check_merge_comment_mono (st : GraphState) (c : CommentNode) (cid dd : String)
    (h : check_comment_exists st cid dd = true) :
    check_comment_exists (merge_comment st c) cid dd = true := by
  cases hx : check_comment_exists st c.id c.discussion_id with
  | true =>
    rw [check_comment_exists_congr st _ (merge_comment_keys_of_exists st c hx)]
    exact h
  | false =>
    rw [check_comment_exists, merge_comment_append_of_not_exists st c hx, List.any_append]
    rw [check_comment_exists] at h
    simp [h]

theorem check_merge_reply_mono (st : GraphState) (r : ReplyNode) (rid dd : String)
    (h : check_reply_exists st rid dd = true) :
    check_reply_exists (merge_reply st r) rid dd = true := by
  cases hx : check_reply_exists st r.id r.discussion_id with
  | true =>
    rw [check_reply_exists_congr st _ (merge_reply_keys_of_exists st r hx)]
    exact h
  | false =>
    rw [check_reply_exists, merge_reply_append_of_not_exists st r hx, List.any_append]
    rw [check_reply_exists] at h
    simp [h]

theorem find_merge_comment (c : CommentNode) :
    ∀ l : List CommentNode,
      l.any (fun x => x.id == c.id && x.discussion_id == c.discussion_id) = true →
      (l.map (fun x => if x.id == c.id && x.discussion_id == c.discussion_id then
          { x with body := c.body, author := c.author, score := c.score } else x)).find?
        (fun x => x.id == c.id && x.discussion_id == c.discussion_id)
        = some ⟨c.id, c.discussion_id, c.body, c.author, c.score⟩
  | [], h => by simp at h
  | y :: l, h => by
    by_cases hy : (y.id == c.id && y.discussion_id == c.discussion_id) = true
    · simp only [List.map_cons, if_pos hy]
      rw [List.find?_cons_of_pos _ (by exact hy)]
      have heq : y.id = c.id ∧ y.discussion_id = c.discussion_id := by
        simpa [Bool.and_eq_true, beq_iff_eq] using hy
      rw [heq.1, heq.2]
    · simp only [List.map_cons, if_neg hy]
      rw [List.find?_cons_of_neg _ (by exact hy)]
      apply find_merge_comment c l
      rw [List.any_cons] at h
      cases hyl : l.any (fun x => x.id == c.id && x.discussion_id == c.discussion_id) with
      | true => rfl
      | false =>
        exfalso
        rw [hyl] at h
        simp only [Bool.or_false] at h
        exact hy h

theorem getComment_merge_comment (st : GraphState) (c : CommentNode)
    (h : check_comment_exists st c.id c.discussion_id = true) :
    getComment (merge_comment st c) c.id c.discussion_id
      = some ⟨c.id, c.discussion_id, c.body, c.author, c.score⟩ := by
  rw [check_comment_exists] at h
  rw [getComment, merge_comment, if_pos h]
  exact find_merge_comment c st.comments h

theorem keyLe_refl (st : GraphState) : keyLe st st :=
  ⟨fun _ _ h => h, fun _ _ h => h⟩

theorem keyLe_trans {a b c : GraphState} (h1 : keyLe a b) (h2 : keyLe b c) : keyLe a c :=
  ⟨fun cid dd h => h2.1 cid dd (h1.1 cid dd h), fun rid dd h => h2.2 rid dd (h1.2 rid dd h)⟩

theorem keyLe_of_eq (st st' : GraphState) (hc : st'.comments = st.comments)
    (hr : st'.replies = st.replies) : keyLe st st' := by
  constructor
  · intro cid dd h
    rw [check_comment_exists_congr st st' (by rw [hc]) cid dd]
    exact h
  · intro rid dd h
    rw [check_reply_exists_congr st st' (by rw [hr]) rid dd]
    exact h

theorem keyLe_merge_comment (st : GraphState) (c : CommentNode) : keyLe st (merge_comment st c) :=
  ⟨fun cid dd h => check_merge_comment_mono st c cid dd h,
   fun rid dd h => by
    rw [check_reply_exists_congr st _ (by rw [(merge_comment_frame st c).2.1]) rid dd]
    exact h⟩

theorem keyLe_merge_reply (st : GraphState) (r : ReplyNode) : keyLe st (merge_reply st r) :=
  ⟨fun cid dd h => by
    rw [check_comment_exists_congr st _ (by rw [(merge_reply_frame st r).2.1]) cid dd]
    exact h,
   fun rid dd h => check_merge_reply_mono st r rid dd h⟩

theorem sameShape_refl (st : GraphState) : sameShape st st :=
  ⟨rfl, rfl, rfl, rfl, rfl, rfl, rfl, rfl, rfl⟩

theorem sameShape_trans {a b c : GraphState} (h1 : sameShape a b) (h2 : sameShape b c) :
    sameShape a c := by
  obtain ⟨t1, c1, r1, a1, g1, s1, p1, e1, h1'⟩ := h1
  obtain ⟨t2, c2, r2, a2, g2, s2, p2, e2, h2'⟩ := h2
  exact ⟨t2.trans t1, c2.trans c1, r2.trans r1, a2.trans a1, g2.trans g1, s2.trans s1,
    p2.trans p1, e2.trans e1, h2'.trans h1'⟩

theorem replyShape_refl (st : GraphState) : replyShape st st :=
  ⟨rfl, rfl, rfl, rfl, rfl, rfl, rfl, rfl, rfl⟩

theorem replyShape_trans {a b c : GraphState} (h1 : replyShape a b) (h2 : replyShape b c) :
    replyShape a c := by
  obtain ⟨t1, c1, r1, a1, g1, s1, p1, e1, h1'⟩ := h1
  obtain ⟨t2, c2, r2, a2, g2, s2, p2, e2, h2'⟩ := h2
  exact ⟨t2.trans t1, c2.trans c1, r2.trans r1, a2.trans a1, g2.trans g1, s2.trans s1,
    p2.trans p1, e2.trans e1, h2'.trans h1'⟩

theorem replyShape_sameShape {a b : GraphState} (h : replyShape a b) : sameShape a b :=
  ⟨h.1, by rw [h.2.1], h.2.2.1, h.2.2.2.1, h.2.2.2.2.1, h.2.2.2.2.2.1, h.2.2.2.2.2.2.1,
    h.2.2.2.2.2.2.2.1, h.2.2.2.2.2.2.2.2⟩

theorem sameShape_merge_comment (st : GraphState) (c : CommentNode)
    (h : check_comment_exists st c.id c.discussion_id = true) :
    sameShape st (merge_comment st c) := by
  have hf := merge_comment_frame st c
  exact ⟨hf.1, merge_comment_keys_of_exists st c h, by rw [hf.2.1], hf.2.2.1, hf.2.2.2.1,
    hf.2.2.2.2.1, hf.2.2.2.2.2.1, hf.2.2.2.2.2.2.1, hf.2.2.2.2.2.2.2⟩

theorem replyShape_merge_reply (st : GraphState) (r : ReplyNode)
    (h : check_reply_exists st r.id r.discussion_id = true) :
    replyShape st (merge_reply st r) := by
  have hf := merge_reply_frame st r
  exact ⟨hf.1, hf.2.1, merge_reply_keys_of_exists st r h, hf.2.2.1, hf.2.2.2.1,
    hf.2.2.2.2.1, hf.2.2.2.2.2.1, hf.2.2.2.2.2.2.1, hf.2.2.2.2.2.2.2⟩

theorem sameShape_check_comment (stRef st : GraphState) (h : sameShape stRef st)
    (cid dd : String) :
    check_comment_exists st cid dd = check_comment_exists stRef cid dd :=
  check_comment_exists_congr stRef st h.2.1 cid dd

theorem sameShape_check_reply (stRef st : GraphState) (h : sameShape stRef st)
    (rid dd : String) :
    check_reply_exists st rid dd = check_reply_exists stRef rid dd :=
  check_reply_exists_congr stRef st h.2.2.1 rid dd

theorem mergeHasGroupEdge_frame7 (σ : GraphState) (t su stc dd : String) :
    (mergeHasGroupEdge σ t su stc dd).topics = σ.topics ∧
    (mergeHasGroupEdge σ t su stc dd).comments = σ.comments ∧
    (mergeHasGroupEdge σ t su stc dd).replies = σ.replies ∧
    (mergeHasGroupEdge σ t su stc dd).arguments = σ.arguments ∧
    (mergeHasGroupEdge σ t su stc dd).stanceEdges = σ.stanceEdges ∧
    (mergeHasGroupEdge σ t su stc dd).replyEdges = σ.replyEdges ∧
    (mergeHasGroupEdge σ t su stc dd).extractedEdges = σ.extractedEdges := by
  rw [mergeHasGroupEdge]
  split
  · split <;> exact ⟨rfl, rfl, rfl, rfl, rfl, rfl, rfl⟩
  · exact ⟨rfl, rfl, rfl, rfl, rfl, rfl, rfl⟩

theorem merge_group_frame7 (σ : GraphState) (g : GroupNode) :
    (merge_group σ g).topics = σ.topics ∧
    (merge_group σ g).comments = σ.comments ∧
    (merge_group σ g).replies = σ.replies ∧
    (merge_group σ g).arguments = σ.arguments ∧
    (merge_group σ g).stanceEdges = σ.stanceEdges ∧
    (merge_group σ g).replyEdges = σ.replyEdges ∧
    (merge_group σ g).extractedEdges = σ.extractedEdges := by
  rw [merge_group]
  split <;> exact ⟨rfl, rfl, rfl, rfl, rfl, rfl, rfl⟩

theorem edgeFold_frame7 (su stc dd : String) :
    ∀ (ts : List String) (σ : GraphState),
      (ts.foldl (fun s2 t => mergeHasGroupEdge s2 t su stc dd) σ).topics = σ.topics ∧
      (ts.foldl (fun s2 t => mergeHasGroupEdge s2 t su stc dd) σ).comments = σ.comments ∧
      (ts.foldl (fun s2 t => mergeHasGroupEdge s2 t su stc dd) σ).replies = σ.replies ∧
      (ts.foldl (fun s2 t => mergeHasGroupEdge s2 t su stc dd) σ).arguments = σ.arguments ∧
      (ts.foldl (fun s2 t => mergeHasGroupEdge s2 t su stc dd) σ).stanceEdges = σ.stanceEdges ∧
      (ts.foldl (fun s2 t => mergeHasGroupEdge s2 t su stc dd) σ).replyEdges = σ.replyEdges ∧
      (ts.foldl (fun s2 t => mergeHasGroupEdge s2 t su stc dd) σ).extractedEdges
        = σ.extractedEdges
  | [], _ => ⟨rfl, rfl, rfl, rfl, rfl, rfl, rfl⟩
  | t :: ts, σ => by
    simp only [List.foldl_cons]
    have h1 := edgeFold_frame7 su stc dd ts (mergeHasGroupEdge σ t su stc dd)
    have h2 := mergeHasGroupEdge_frame7 σ t su stc dd
    exact ⟨h1.1.trans h2.1, h1.2.1.trans h2.2.1, h1.2.2.1.trans h2.2.2.1,
      h1.2.2.2.1.trans h2.2.2.2.1, h1.2.2.2.2.1.trans h2.2.2.2.2.1,
      h1.2.2.2.2.2.1.trans h2.2.2.2.2.2.1, h1.2.2.2.2.2.2.trans h2.2.2.2.2.2.2⟩

theorem writeGroup_frame7 (dd stc : String) (σ : GraphState) (p : String × List String) :
    (writeGroup dd stc σ p).topics = σ.topics ∧
    (writeGroup dd stc σ p).comments = σ.comments ∧
    (writeGroup dd stc σ p).replies = σ.replies ∧
    (writeGroup dd stc σ p).arguments = σ.arguments ∧
    (writeGroup dd stc σ p).stanceEdges = σ.stanceEdges ∧
    (writeGroup dd stc σ p).replyEdges = σ.replyEdges ∧
    (writeGroup dd stc σ p).extractedEdges = σ.extractedEdges := by
  rw [writeGroup]
  have h1 := edgeFold_frame7 p.1 stc dd p.2 (merge_group σ ⟨p.1, stc, dd⟩)
  have h2 := merge_group_frame7 σ ⟨p.1, stc, dd⟩
  exact ⟨h1.1.trans h2.1, h1.2.1.trans h2.2.1, h1.2.2.1.trans h2.2.2.1,
    h1.2.2.2.1.trans h2.2.2.2.1, h1.2.2.2.2.1.trans h2.2.2.2.2.1,
    h1.2.2.2.2.2.1.trans h2.2.2.2.2.2.1, h1.2.2.2.2.2.2.trans h2.2.2.2.2.2.2⟩

theorem gmFold_frame7 (dd stc : String) :
    ∀ (gm : List (String × List String)) (σ : GraphState),
      (gm.foldl (writeGroup dd stc) σ).topics = σ.topics ∧
      (gm.foldl (writeGroup dd stc) σ).comments = σ.comments ∧
      (gm.foldl (writeGroup dd stc) σ).replies = σ.replies ∧
      (gm.foldl (writeGroup dd stc) σ).arguments = σ.arguments ∧
      (gm.foldl (writeGroup dd stc) σ).stanceEdges = σ.stanceEdges ∧
      (gm.foldl (writeGroup dd stc) σ).replyEdges = σ.replyEdges ∧
      (gm.foldl (writeGroup dd stc) σ).extractedEdges = σ.extractedEdges
  | [], _ => ⟨rfl, rfl, rfl, rfl, rfl, rfl, rfl⟩
  | p :: gm, σ => by
    simp only [List.foldl_cons]
    have h1 := gmFold_frame7 dd stc gm (writeGroup dd stc σ p)
    have h2 := writeGroup_frame7 dd stc σ p
    exact ⟨h1.1.trans h2.1, h1.2.1.trans h2.2.1, h1.2.2.1.trans h2.2.2.1,
      h1.2.2.2.1.trans h2.2.2.2.1, h1.2.2.2.2.1.trans h2.2.2.2.2.1,
      h1.2.2.2.2.2.1.trans h2.2.2.2.2.2.1, h1.2.2.2.2.2.2.trans h2.2.2.2.2.2.2⟩

theorem pass_frame7 (groupO : String → String → String) (dd : String) (σ : GraphState)
    (s : String) :
    (processStanceGroup groupO dd σ s).topics = σ.topics ∧
    (processStanceGroup groupO dd σ s).comments = σ.comments ∧
    (processStanceGroup groupO dd σ s).replies = σ.replies ∧
    (processStanceGroup groupO dd σ s).arguments = σ.arguments ∧
    (processStanceGroup groupO dd σ s).stanceEdges = σ.stanceEdges ∧
    (processStanceGroup groupO dd σ s).replyEdges = σ.replyEdges ∧
    (processStanceGroup groupO dd σ s).extractedEdges = σ.extractedEdges := by
  rw [processStanceGroup]
  split
  · exact ⟨rfl, rfl, rfl, rfl, rfl, rfl, rfl⟩
  · exact gmFold_frame7 dd s _ σ

theorem passes_frame7 (groupO : String → String → String) (dd : String) :
    ∀ (ss : List String) (σ : GraphState),
      (ss.foldl (processStanceGroup groupO dd) σ).topics = σ.topics ∧
      (ss.foldl (processStanceGroup groupO dd) σ).comments = σ.comments ∧
      (ss.foldl (processStanceGroup groupO dd) σ).replies = σ.replies ∧
      (ss.foldl (processStanceGroup groupO dd) σ).arguments = σ.arguments ∧
      (ss.foldl (processStanceGroup groupO dd) σ).stanceEdges = σ.stanceEdges ∧
      (ss.foldl (processStanceGroup groupO dd) σ).replyEdges = σ.replyEdges ∧
      (ss.foldl (processStanceGroup groupO dd) σ).extractedEdges = σ.extractedEdges
  | [], _ => ⟨rfl, rfl, rfl, rfl, rfl, rfl, rfl⟩
  | s :: ss, σ => by
    simp only [List.foldl_cons]
    have h1 := passes_frame7 groupO dd ss (processStanceGroup groupO dd σ s)
    have h2 := pass_frame7 groupO dd σ s
    exact ⟨h1.1.trans h2.1, h1.2.1.trans h2.2.1, h1.2.2.1.trans h2.2.2.1,
      h1.2.2.2.1.trans h2.2.2.2.1, h1.2.2.2.2.1.trans h2.2.2.2.2.1,
      h1.2.2.2.2.2.1.trans h2.2.2.2.2.2.1, h1.2.2.2.2.2.2.trans h2.2.2.2.2.2.2⟩

theorem clear_frame7 (st : GraphState) (dd : String) :
    (clear_groups st dd).topics = st.topics ∧
    (clear_groups st dd).comments = st.comments ∧
    (clear_groups st dd).replies = st.replies ∧
    (clear_groups st dd).arguments = st.arguments ∧
    (clear_groups st dd).stanceEdges = st.stanceEdges ∧
    (clear_groups st dd).replyEdges = st.replyEdges ∧
    (clear_groups st dd).extractedEdges = st.extractedEdges :=
  ⟨rfl, rfl, rfl, rfl, rfl, rfl, rfl⟩

theorem regroup_frame7 (groupO : String → String → String) (chainOk driverOk : Bool)
    (dd : String) (st : GraphState) :
    (group_arguments_by_stance groupO chainOk driverOk dd st).topics = st.topics ∧
    (group_arguments_by_stance groupO chainOk driverOk dd st).comments = st.comments ∧
    (group_arguments_by_stance groupO chainOk driverOk dd st).replies = st.replies ∧
    (group_arguments_by_stance groupO chainOk driverOk dd st).arguments = st.arguments ∧
    (group_arguments_by_stance groupO chainOk driverOk dd st).stanceEdges = st.stanceEdges ∧
    (group_arguments_by_stance groupO chainOk driverOk dd st).replyEdges = st.replyEdges ∧
    (group_arguments_by_stance groupO chainOk driverOk dd st).extractedEdges
      = st.extractedEdges := by
  rw [group_arguments_by_stance]
  split
  · exact ⟨rfl, rfl, rfl, rfl, rfl, rfl, rfl⟩
  · have h1 := passes_frame7 groupO dd ["FOR", "AGAINST", "NEUTRAL"] (clear_groups st dd)
    have h2 := clear_frame7 st dd
    exact ⟨h1.1.trans h2.1, h1.2.1.trans h2.2.1, h1.2.2.1.trans h2.2.2.1,
      h1.2.2.2.1.trans h2.2.2.2.1, h1.2.2.2.2.1.trans h2.2.2.2.2.1,
      h1.2.2.2.2.2.1.trans h2.2.2.2.2.2.1, h1.2.2.2.2.2.2.trans h2.2.2.2.2.2.2⟩

theorem except_pure_bind {ε α β : Type} (a : α) (f : α → Except ε β) :
    ((pure a : Except ε α) >>= f) = f a := rfl

theorem addArgumentFromComment_frame (d cid : String) (st : GraphState) (p : String × String) :
    (addArgumentFromComment d cid st p).topics = st.topics ∧
    (addArgumentFromComment d cid st p).comments = st.comments ∧
    (addArgumentFromComment d cid st p).replies = st.replies ∧
    (addArgumentFromComment d cid st p).groups = st.groups ∧
    (addArgumentFromComment d cid st p).stanceEdges = st.stanceEdges ∧
    (addArgumentFromComment d cid st p).replyEdges = st.replyEdges ∧
    (addArgumentFromComment d cid st p).hasGroupEdges = st.hasGroupEdges := by
  obtain ⟨a1, a2, a3, _, a5, a6, a7, a8⟩ :=
    connect_argument_to_comment_frame (merge_argument st p.1 p.2 d) p.1 cid d
  obtain ⟨b1, b2, b3, b4, b5, b6, _, b8⟩ := merge_argument_frame st p.1 p.2 d
  exact ⟨a1.trans b1, a2.trans b2, a3.trans b3, a5.trans b4, a6.trans b5, a7.trans b6,
    a8.trans b8⟩

theorem addArgumentFromReply_frame (d rid : String) (st : GraphState) (p : String × String) :
    (addArgumentFromReply d rid st p).topics = st.topics ∧
    (addArgumentFromReply d rid st p).comments = st.comments ∧
    (addArgumentFromReply d rid st p).replies = st.replies ∧
    (addArgumentFromReply d rid st p).groups = st.groups ∧
    (addArgumentFromReply d rid st p).stanceEdges = st.stanceEdges ∧
    (addArgumentFromReply d rid st p).replyEdges = st.replyEdges ∧
    (addArgumentFromReply d rid st p).hasGroupEdges = st.hasGroupEdges := by
  obtain ⟨a1, a2, a3, _, a5, a6, a7, a8⟩ :=
    connect_argument_to_reply_frame (merge_argument st p.1 p.2 d) p.1 rid d
  obtain ⟨b1, b2, b3, b4, b5, b6, _, b8⟩ := merge_argument_frame st p.1 p.2 d
  exact ⟨a1.trans b1, a2.trans b2, a3.trans b3, a5.trans b4, a6.trans b5, a7.trans b6,
    a8.trans b8⟩

theorem argFoldComment_frame (d cid : String) :
    ∀ (args : List (String × String)) (st : GraphState),
      (args.foldl (addArgumentFromComment d cid) st).topics = st.topics ∧
      (args.foldl (addArgumentFromComment d cid) st).comments = st.comments ∧
      (args.foldl (addArgumentFromComment d cid) st).replies = st.replies ∧
      (args.foldl (addArgumentFromComment d cid) st).groups = st.groups ∧
      (args.foldl (addArgumentFromComment d cid) st).stanceEdges = st.stanceEdges ∧
      (args.foldl (addArgumentFromComment d cid) st).replyEdges = st.replyEdges ∧
      (args.foldl (addArgumentFromComment d cid) st).hasGroupEdges = st.hasGroupEdges
  | [], _ => ⟨rfl, rfl, rfl, rfl, rfl, rfl, rfl⟩
  | p :: args, st => by
    simp only [List.foldl_cons]
    obtain ⟨a1, a2, a3, a4, a5, a6, a7⟩ :=
      argFoldComment_frame d cid args (addArgumentFromComment d cid st p)
    obtain ⟨b1, b2, b3, b4, b5, b6, b7⟩ := addArgumentFromComment_frame d cid st p
    exact ⟨a1.trans b1, a2.trans b2, a3.trans b3, a4.trans b4, a5.trans b5, a6.trans b6,
      a7.trans b7⟩

theorem argFoldReply_frame (d rid : String) :
    ∀ (args : List (String × String)) (st : GraphState),
      (args.foldl (addArgumentFromReply d rid) st).topics = st.topics ∧
      (args.foldl (addArgumentFromReply d rid) st).comments = st.comments ∧
      (args.foldl (addArgumentFromReply d rid) st).replies = st.replies ∧
      (args.foldl (addArgumentFromReply d rid) st).groups = st.groups ∧
      (args.foldl (addArgumentFromReply d rid) st).stanceEdges = st.stanceEdges ∧
      (args.foldl (addArgumentFromReply d rid) st).replyEdges = st.replyEdges ∧
      (args.foldl (addArgumentFromReply d rid) st).hasGroupEdges = st.hasGroupEdges
  | [], _ => ⟨rfl, rfl, rfl, rfl, rfl, rfl, rfl⟩
  | p :: args, st => by
    simp only [List.foldl_cons]
    obtain ⟨a1, a2, a3, a4, a5, a6, a7⟩ :=
      argFoldReply_frame d rid args (addArgumentFromReply d rid st p)
    obtain ⟨b1, b2, b3, b4, b5, b6, b7⟩ := addArgumentFromReply_frame d rid st p
    exact ⟨a1.trans b1, a2.trans b2, a3.trans b3, a4.trans b4, a5.trans b5, a6.trans b6,
      a7.trans b7⟩

theorem foldIdxM_inv {α β : Type} (f : Nat → α → β → Except String β) (P : β → Prop)
    (hf : ∀ n a b b', P b → f n a b = .ok b' → P b') :
    ∀ (l : List α) (n : Nat) (b b' : β), P b → foldIdxM f n l b = .ok b' → P b'
  | [], n, b, b', hb, h => by
    simp only [foldIdxM, Except.ok.injEq] at h
    exact h ▸ hb
  | a :: l, n, b, b', hb, h => by
    simp only [foldIdxM] at h
    cases hstep : f n a b with
    | error e => rw [hstep, except_bind_err] at h; exact absurd h (by simp)
    | ok mid =>
      rw [hstep, except_bind_ok] at h
      exact foldIdxM_inv f P hf l (n + 1) mid b' (hf n a b mid hb hstep) h

theorem topics_merge_topic (st : GraphState) (ti d u : String) :
    (merge_topic st ti d u).topics
      = if st.topics.any (fun t => t.url == u) then
          st.topics.map (fun t =>
            if t.url == u then { t with title := ti, discussion_id := d } else t)
        else st.topics ++ [⟨u, ti, d⟩] := by
  rw [merge_topic]
  by_cases h : st.topics.any (fun t => t.url == u) = true
  · rw [if_pos h, if_pos h]
  · rw [if_neg h, if_neg h]

theorem merge_topic_settles (st : GraphState) (ti d u : String) :
    (merge_topic st ti d u).topics.any (fun t => t.url == u) = true ∧
    ∀ t ∈ (merge_topic st ti d u).topics, t.url = u → t.title = ti ∧ t.discussion_id = d := by
  rw [topics_merge_topic]
  by_cases h : st.topics.any (fun t => t.url == u) = true
  · rw [if_pos h]
    constructor
    · rw [List.any_map]
      rw [List.any_eq_true] at h ⊢
      obtain ⟨t, ht, htu⟩ := h
      refine ⟨t, ht, ?_⟩
      simp only [Function.comp_apply]
      rw [if_pos htu]
      exact htu
    · intro t htmem htu
      rw [List.mem_map] at htmem
      obtain ⟨x, _, hxt⟩ := htmem
      by_cases hxu : (x.url == u) = true
      · rw [if_pos hxu] at hxt
        rw [← hxt]
        exact ⟨rfl, rfl⟩
      · rw [if_neg hxu] at hxt
        subst hxt
        exact absurd (by simp [htu]) hxu
  · rw [if_neg h]
    constructor
    · rw [List.any_append]
      simp
    · intro t htmem htu
      rw [List.mem_append] at htmem
      cases htmem with
      | inl hmem =>
        exact absurd (List.any_eq_true.mpr ⟨t, hmem, by simp [htu]⟩) h
      | inr hmem =>
        simp only [List.mem_singleton] at hmem
        subst hmem
        exact ⟨rfl, rfl⟩

theorem find_set_discussion (u d : String) :
    ∀ l : List TopicNode, l.any (fun t => t.url == u) = true →
      (∀ t ∈ l, t.url = u → t.discussion_id = d) →
      (l.find? (fun t => t.url == u)).map (fun t => t.discussion_id) = some d
  | [], h, _ => by simp at h
  | t :: l, h, hset => by
    by_cases ht : (t.url == u) = true
    · rw [List.find?_cons_of_pos _ (by exact ht)]
      show some t.discussion_id = some d
      rw [hset t (List.mem_cons_self t l) (by simpa using ht)]
    · rw [List.find?_cons_of_neg _ (by exact ht)]
      apply find_set_discussion u d l
      · rw [List.any_cons] at h
        cases hl : l.any (fun t => t.url == u) with
        | true => rfl
        | false =>
          rw [hl] at h
          simp only [Bool.or_false] at h
          exact absurd h ht
      · exact fun x hx hxu => hset x (List.mem_cons_of_mem t hx) hxu

theorem check_existing_of_settled (st : GraphState) (u d : String)
    (hany : st.topics.any (fun t => t.url == u) = true)
    (hset : ∀ t ∈ st.topics, t.url = u → t.discussion_id = d) :
    check_existing_discussion_by_url st u = some d := by
  rw [check_existing_discussion_by_url]
  exact find_set_discussion u d st.topics hany hset

theorem resolve_of_settled (st : GraphState) (fresh u d : String) (hd : d ≠ "")
    (hex : check_existing_discussion_by_url st u = some d) :
    resolveDiscussionId st fresh u = d := by
  rw [resolveDiscussionId, hex]
  show (if (d != "") = true then d else fresh) = d
  rw [if_pos (bne_iff_ne.mpr hd)]

theorem merge_topic_idem (st : GraphState) (ti d u : String)
    (hany : st.topics.any (fun t => t.url == u) = true)
    (hset : ∀ t ∈ st.topics, t.url = u → t.title = ti ∧ t.discussion_id = d) :
    merge_topic st ti d u = st := by
  rw [merge_topic, if_pos hany]
  have hmap : st.topics.map (fun t =>
      if t.url == u then { t with title := ti, discussion_id := d } else t) = st.topics := by
    have hid : ∀ t ∈ st.topics,
        (if t.url == u then { t with title := ti, discussion_id := d } else t) = t := by
      intro t ht
      by_cases htu : (t.url == u) = true
      · rw [if_pos htu]
        obtain ⟨h1, h2⟩ := hset t ht (by simpa using htu)
        cases t with
        | mk url title did =>
          simp only at h1 h2
          rw [h1, h2]
      · rw [if_neg htu]
    rw [List.map_congr_left hid]
    simp
  rw [hmap]

theorem processReply_exists_eq (eo so : LLM) (topic d cid : String) (j : Nat) (r : RawReply)
    (st : GraphState) (cnt : Counts)
    (h : check_reply_exists st (replyIdOf cid j r.id) d = true) :
    processReply eo so topic d cid j r (st, cnt)
      = .ok (merge_reply st ⟨replyIdOf cid j r.id, d, cid, r.body, r.author, r.score⟩, cnt) := by
  simp only [processReply, h, eq_self_iff_true, if_true]

theorem processReply_post (eo so : LLM) (topic d cid : String) (j : Nat) (r : RawReply)
    (acc acc' : GraphState × Counts)
    (h : processReply eo so topic d cid j r acc = .ok acc') :
    keyLe acc.1 acc'.1 ∧ check_reply_exists acc'.1 (replyIdOf cid j r.id) d = true ∧
      acc'.1.topics = acc.1.topics := by
  simp only [processReply] at h
  cases hex : check_reply_exists acc.1 (replyIdOf cid j r.id) d with
  | true =>
    simp only [hex, eq_self_iff_true, if_true, Except.ok.injEq] at h
    subst h
    exact ⟨keyLe_merge_reply acc.1 _, check_merge_reply_self acc.1 _,
      (merge_reply_frame acc.1 _).1⟩
  | false =>
    simp only [hex, Bool.false_eq_true, if_false] at h
    cases hargs : extract_and_classify_arguments eo so r.body topic with
    | error e =>
      rw [hargs, except_bind_err] at h
      exact absurd h (by simp)
    | ok args =>
      rw [hargs, except_bind_ok] at h
      simp only [Except.ok.injEq] at h
      subst h
      refine ⟨?_, ?_, ?_⟩
      · refine keyLe_trans (keyLe_merge_reply acc.1 _) (keyLe_trans
          (keyLe_of_eq _ _ (connect_reply_to_comment_frame _ _ _ _).2.1
            (connect_reply_to_comment_frame _ _ _ _).2.2.1)
          (keyLe_of_eq _ _ (argFoldReply_frame _ _ args _).2.1
            (argFoldReply_frame _ _ args _).2.2.1))
      · rw [check_reply_exists_congr (merge_reply acc.1
            ⟨replyIdOf cid j r.id, d, cid, r.body, r.author, r.score⟩) _ (by
          rw [(argFoldReply_frame _ _ args _).2.2.1,
            (connect_reply_to_comment_frame _ _ _ _).2.2.1])]
        exact check_merge_reply_self acc.1 _
      · rw [(argFoldReply_frame _ _ args _).1, (connect_reply_to_comment_frame _ _ _ _).1,
          (merge_reply_frame acc.1 _).1]

theorem repliesPresent_mono (st st' : GraphState) (hk : keyLe st st') (d cid : String) :
    ∀ (rs : List RawReply) (j : Nat), repliesPresent st d cid j rs = true →
      repliesPresent st' d cid j rs = true
  | [], _, _ => rfl
  | r :: rs, j, h => by
    simp only [repliesPresent, Bool.and_eq_true] at h ⊢
    exact ⟨hk.2 _ _ h.1, repliesPresent_mono st st' hk d cid rs (j + 1) h.2⟩

theorem commentPresent_mono (st st' : GraphState) (hk : keyLe st st') (d stance : String)
    (i : Nat) (c : RawComment) (h : commentPresent st d stance i c = true) :
    commentPresent st' d stance i c = true := by
  simp only [commentPresent, Bool.and_eq_true] at h ⊢
  exact ⟨hk.1 _ _ h.1, repliesPresent_mono st st' hk d _ c.replies 0 h.2⟩

theorem commentsPresent_mono (st st' : GraphState) (hk : keyLe st st') (d stance : String) :
    ∀ (cs : List RawComment) (i : Nat), commentsPresent st d stance i cs = true →
      commentsPresent st' d stance i cs = true
  | [], _, _ => rfl
  | c :: cs, i, h => by
    simp only [commentsPresent, Bool.and_eq_true] at h ⊢
    exact ⟨commentPresent_mono st st' hk d stance i c h.1,
      commentsPresent_mono st st' hk d stance cs (i + 1) h.2⟩

theorem threadPresent_mono (st st' : GraphState) (hk : keyLe st st') (d : String)
    (td : ThreadData) (h : threadPresent st d td = true) : threadPresent st' d td = true := by
  simp only [threadPresent, Bool.and_eq_true] at h ⊢
  exact ⟨⟨commentsPresent_mono st st' hk d "FOR" td.commentsFor 0 h.1.1,
    commentsPresent_mono st st' hk d "AGAINST" td.commentsAgainst 0 h.1.2⟩,
    commentsPresent_mono st st' hk d "NEUTRAL" td.commentsNeutral 0 h.2⟩

theorem foldReplies_post (eo so : LLM) (topic d cid : String) :
    ∀ (rs : List RawReply) (j : Nat) (acc acc' : GraphState × Counts),
      foldIdxM (processReply eo so topic d cid) j rs acc = .ok acc' →
      keyLe acc.1 acc'.1 ∧ repliesPresent acc'.1 d cid j rs = true ∧
        acc'.1.topics = acc.1.topics
  | [], j, acc, acc', h => by
    simp only [foldIdxM, Except.ok.injEq] at h
    subst h
    exact ⟨keyLe_refl _, rfl, rfl⟩
  | r :: rs, j, acc, acc', h => by
    simp only [foldIdxM] at h
    cases hstep : processReply eo so topic d cid j r acc with
    | error e => rw [hstep, except_bind_err] at h; exact absurd h (by simp)
    | ok mid =>
      rw [hstep, except_bind_ok] at h
      obtain ⟨k1, p1, t1⟩ := processReply_post eo so topic d cid j r acc mid hstep
      obtain ⟨k2, p2, t2⟩ := foldReplies_post eo so topic d cid rs (j + 1) mid acc' h
      refine ⟨keyLe_trans k1 k2, ?_, t2.trans t1⟩
      simp only [repliesPresent, Bool.and_eq_true]
      exact ⟨k2.2 _ _ p1, p2⟩

theorem processComment_post (eo so : LLM) (topic d stance : String) (i : Nat) (c : RawComment)
    (acc acc' : GraphState × Counts)
    (h : processComment eo so topic d stance i c acc = .ok acc') :
    keyLe acc.1 acc'.1 ∧ commentPresent acc'.1 d stance i c = true ∧
      acc'.1.topics = acc.1.topics := by
  simp only [processComment] at h
  cases hex : check_comment_exists acc.1 (commentIdOf stance i c.id) d with
  | true =>
    simp only [hex, eq_self_iff_true, if_true, except_pure_bind] at h
    obtain ⟨k2, p2, t2⟩ := foldReplies_post eo so topic d _ c.replies 0 _ acc' h
    refine ⟨keyLe_trans (keyLe_merge_comment acc.1 _) k2, ?_,
      t2.trans (merge_comment_frame acc.1 _).1⟩
    simp only [commentPresent, Bool.and_eq_true]
    exact ⟨k2.1 _ _ (check_merge_comment_self acc.1 _), p2⟩
  | false =>
    simp only [hex, Bool.false_eq_true, if_false] at h
    cases hargs : extract_and_classify_arguments eo so c.body topic with
    | error e =>
      rw [hargs] at h
      simp only [except_bind_err] at h
      exact absurd h (by simp)
    | ok args =>
      rw [hargs] at h
      simp only [except_bind_ok, except_pure_bind] at h
      obtain ⟨k2, p2, t2⟩ := foldReplies_post eo so topic d _ c.replies 0 _ acc' h
      have hcomm : (args.foldl (addArgumentFromComment d (commentIdOf stance i c.id))
            (connect_comment_to_topic (merge_comment acc.1
              ⟨commentIdOf stance i c.id, d, c.body, c.author, c.score⟩)
              (commentIdOf stance i c.id) topic stance d)).comments
          = (merge_comment acc.1
              ⟨commentIdOf stance i c.id, d, c.body, c.author, c.score⟩).comments := by
        rw [(argFoldComment_frame _ _ args _).2.1, (connect_comment_to_topic_frame _ _ _ _ _).2.1]
      have hrepl : (args.foldl (addArgumentFromComment d (commentIdOf stance i c.id))
            (connect_comment_to_topic (merge_comment acc.1
              ⟨commentIdOf stance i c.id, d, c.body, c.author, c.score⟩)
              (commentIdOf stance i c.id) topic stance d)).replies
          = (merge_comment acc.1
              ⟨commentIdOf stance i c.id, d, c.body, c.author, c.score⟩).replies := by
        rw [(argFoldComment_frame _ _ args _).2.2.1,
          (connect_comment_to_topic_frame _ _ _ _ _).2.2.1]
      refine ⟨?_, ?_, ?_⟩
      · exact keyLe_trans (keyLe_merge_comment acc.1 _)
          (keyLe_trans (keyLe_of_eq _ _ hcomm hrepl) k2)
      · simp only [commentPresent, Bool.and_eq_true]
        refine ⟨k2.1 _ _ ?_, p2⟩
        rw [check_comment_exists_congr (merge_comment acc.1
            ⟨commentIdOf stance i c.id, d, c.body, c.author, c.score⟩) _ (by rw [hcomm])]
        exact check_merge_comment_self acc.1 _
      · rw [t2, (argFoldComment_frame _ _ args _).1, (connect_comment_to_topic_frame _ _ _ _ _).1,
          (merge_comment_frame acc.1 _).1]

theorem foldComments_post (eo so : LLM) (topic d stance : String) :
    ∀ (cs : List RawComment) (i : Nat) (acc acc' : GraphState × Counts),
      foldIdxM (processComment eo so topic d stance) i cs acc = .ok acc' →
      keyLe acc.1 acc'.1 ∧ commentsPresent acc'.1 d stance i cs = true ∧
        acc'.1.topics = acc.1.topics
  | [], i, acc, acc', h => by
    simp only [foldIdxM, Except.ok.injEq] at h
    subst h
    exact ⟨keyLe_refl _, rfl, rfl⟩
  | c :: cs, i, acc, acc', h => by
    simp only [foldIdxM] at h
    cases hstep : processComment eo so topic d stance i c acc with
    | error e => rw [hstep, except_bind_err] at h; exact absurd h (by simp)
    | ok mid =>
      rw [hstep, except_bind_ok] at h
      obtain ⟨k1, p1, t1⟩ := processComment_post eo so topic d stance i c acc mid hstep
      obtain ⟨k2, p2, t2⟩ := foldComments_post eo so topic d stance cs (i + 1) mid acc' h
      refine ⟨keyLe_trans k1 k2, ?_, t2.trans t1⟩
      simp only [commentsPresent, Bool.and_eq_true]
      exact ⟨commentPresent_mono mid.1 acc'.1 k2 d stance i c p1, p2⟩

theorem runIngestLoop_post (eo so : LLM) (topic d : String) (td : ThreadData)
    (st stI : GraphState) (cnt : Counts)
    (h : runIngestLoop eo so topic d td st = .ok (stI, cnt)) :
    keyLe st stI ∧ threadPresent stI d td = true ∧ stI.topics = st.topics := by
  simp only [runIngestLoop] at h
  cases h1 : foldIdxM (processComment eo so topic d "FOR") 0 td.commentsFor
      (st, (⟨0, 0, 0, false⟩ : Counts)) with
  | error e => rw [h1, except_bind_err] at h; exact absurd h (by simp)
  | ok a1 =>
    rw [h1, except_bind_ok] at h
    cases h2 : foldIdxM (processComment eo so topic d "AGAINST") 0 td.commentsAgainst a1 with
    | error e => rw [h2, except_bind_err] at h; exact absurd h (by simp)
    | ok a2 =>
      rw [h2, except_bind_ok] at h
      obtain ⟨k1, p1, t1⟩ := foldComments_post eo so topic d "FOR" td.commentsFor 0 _ a1 h1
      obtain ⟨k2, p2, t2⟩ :=
        foldComments_post eo so topic d "AGAINST" td.commentsAgainst 0 a1 a2 h2
      obtain ⟨k3, p3, t3⟩ :=
        foldComments_post eo so topic d "NEUTRAL" td.commentsNeutral 0 a2 (stI, cnt) h
      refine ⟨keyLe_trans k1 (keyLe_trans k2 k3), ?_, (t3.trans t2).trans t1⟩
      simp only [threadPresent, Bool.and_eq_true]
      exact ⟨⟨commentsPresent_mono _ _ (keyLe_trans k2 k3) _ _ td.commentsFor 0 p1,
        commentsPresent_mono _ _ k3 _ _ td.commentsAgainst 0 p2⟩, p3⟩

theorem counts_step_reply (eo so : LLM) (topic d cid : String) (j : Nat) (r : RawReply)
    (acc acc' : GraphState × Counts)
    (h : processReply eo so topic d cid j r acc = .ok acc')
    (hI : acc.2.newContent = decide (0 < acc.2.comments + acc.2.replies)) :
    acc'.2.newContent = decide (0 < acc'.2.comments + acc'.2.replies) := by
  simp only [processReply] at h
  cases hex : check_reply_exists acc.1 (replyIdOf cid j r.id) d with
  | true =>
    simp only [hex, eq_self_iff_true, if_true, Except.ok.injEq] at h
    subst h
    exact hI
  | false =>
    simp only [hex, Bool.false_eq_true, if_false] at h
    cases hargs : extract_and_classify_arguments eo so r.body topic with
    | error e => rw [hargs, except_bind_err] at h; exact absurd h (by simp)
    | ok args =>
      rw [hargs, except_bind_ok] at h
      simp only [Except.ok.injEq] at h
      subst h
      show true = decide (0 < acc.2.comments + (acc.2.replies + 1))
      exact (decide_eq_true (by omega)).symm

theorem counts_step_comment (eo so : LLM) (topic d stance : String) (i : Nat) (c : RawComment)
    (acc acc' : GraphState × Counts)
    (h : processComment eo so topic d stance i c acc = .ok acc')
    (hI : acc.2.newContent = decide (0 < acc.2.comments + acc.2.replies)) :
    acc'.2.newContent = decide (0 < acc'.2.comments + acc'.2.replies) := by
  simp only [processComment] at h
  cases hex : check_comment_exists acc.1 (commentIdOf stance i c.id) d with
  | true =>
    simp only [hex, eq_self_iff_true, if_true, except_pure_bind] at h
    exact foldIdxM_inv _
      (fun b => b.2.newContent = decide (0 < b.2.comments + b.2.replies))
      (fun n a b b' hb hs => counts_step_reply eo so topic d _ n a b b' hs hb)
      c.replies 0 _ acc' hI h
  | false =>
    simp only [hex, Bool.false_eq_true, if_false] at h
    cases hargs : extract_and_classify_arguments eo so c.body topic with
    | error e =>
      rw [hargs] at h
      simp only [except_bind_err] at h
      exact absurd h (by simp)
    | ok args =>
      rw [hargs] at h
      simp only [except_bind_ok, except_pure_bind] at h
      refine foldIdxM_inv _
        (fun b => b.2.newContent = decide (0 < b.2.comments + b.2.replies))
        (fun n a b b' hb hs => counts_step_reply eo so topic d _ n a b b' hs hb)
        c.replies 0 _ acc' ?_ h
      show true = decide (0 < acc.2.comments + 1 + acc.2.replies)
      exact (decide_eq_true (by omega)).symm

theorem runIngestLoop_counts (eo so : LLM) (topic d : String) (td : ThreadData)
    (st stI : GraphState) (cnt : Counts)
    (h : runIngestLoop eo so topic d td st = .ok (stI, cnt)) :
    cnt.newContent = decide (0 < cnt.comments + cnt.replies) := by
  simp only [runIngestLoop] at h
  cases h1 : foldIdxM (processComment eo so topic d "FOR") 0 td.commentsFor
      (st, (⟨0, 0, 0, false⟩ : Counts)) with
  | error e => rw [h1, except_bind_err] at h; exact absurd h (by simp)
  | ok a1 =>
    rw [h1, except_bind_ok] at h
    cases h2 : foldIdxM (processComment eo so topic d "AGAINST") 0 td.commentsAgainst a1 with
    | error e => rw [h2, except_bind_err] at h; exact absurd h (by simp)
    | ok a2 =>
      rw [h2, except_bind_ok] at h
      have hc1 := foldIdxM_inv _
        (fun b => b.2.newContent = decide (0 < b.2.comments + b.2.replies))
        (fun n a b b' hb hs => counts_step_comment eo so topic d "FOR" n a b b' hs hb)
        td.commentsFor 0 _ a1 rfl h1
      have hc2 := foldIdxM_inv _
        (fun b => b.2.newContent = decide (0 < b.2.comments + b.2.replies))
        (fun n a b b' hb hs => counts_step_comment eo so topic d "AGAINST" n a b b' hs hb)
        td.commentsAgainst 0 a1 a2 hc1 h2
      exact foldIdxM_inv _
        (fun b => b.2.newContent = decide (0 < b.2.comments + b.2.replies))
        (fun n a b b' hb hs => counts_step_comment eo so topic d "NEUTRAL" n a b b' hs hb)
        td.commentsNeutral 0 a2 (stI, cnt) hc2 h

theorem repliesPresent_congr (st0 st : GraphState)
    (hr : st.replies.map replyKey = st0.replies.map replyKey) (d cid : String) :
    ∀ (rs : List RawReply) (j : Nat),
      repliesPresent st d cid j rs = repliesPresent st0 d cid j rs
  | [], _ => rfl
  | r :: rs, j => by
    simp only [repliesPresent]
    rw [check_reply_exists_congr st0 st hr,
      repliesPresent_congr st0 st hr d cid rs (j + 1)]

theorem foldReplies_exists_eq (eo so : LLM) (topic d cid : String) :
    ∀ (rs : List RawReply) (j : Nat) (st0 st : GraphState) (cnt : Counts),
      st.replies.map replyKey = st0.replies.map replyKey →
      repliesPresent st0 d cid j rs = true →
      foldIdxM (processReply eo so topic d cid) j rs (st, cnt)
        = .ok (remergeReplies d cid j rs st, cnt)
  | [], j, st0, st, cnt, _, _ => by simp only [foldIdxM, remergeReplies]
  | r :: rs, j, st0, st, cnt, hkeys, hpres => by
    simp only [repliesPresent, Bool.and_eq_true] at hpres
    have hchk : check_reply_exists st (replyIdOf cid j r.id) d = true := by
      rw [check_reply_exists_congr st0 st hkeys]
      exact hpres.1
    have hstep := processReply_exists_eq eo so topic d cid j r st cnt hchk
    simp only [foldIdxM, hstep, except_bind_ok]
    have hkeys' : (merge_reply st
          ⟨replyIdOf cid j r.id, d, cid, r.body, r.author, r.score⟩).replies.map replyKey
        = st0.replies.map replyKey :=
      (merge_reply_keys_of_exists st _ hchk).trans hkeys
    rw [foldReplies_exists_eq eo so topic d cid rs (j + 1) st0 _ cnt hkeys' hpres.2]
    simp only [remergeReplies]

theorem processComment_exists_eq (eo so : LLM) (topic d stance : String) (i : Nat)
    (c : RawComment) (st : GraphState) (cnt : Counts)
    (hc : check_comment_exists st (commentIdOf stance i c.id) d = true)
    (hr : repliesPresent st d (commentIdOf stance i c.id) 0 c.replies = true) :
    processComment eo so topic d stance i c (st, cnt)
      = .ok (remergeComment d stance i c st, cnt) := by
  simp only [processComment, hc, eq_self_iff_true, if_true, except_pure_bind]
  have hkeys : (merge_comment st
        ⟨commentIdOf stance i c.id, d, c.body, c.author, c.score⟩).replies.map replyKey
      = st.replies.map replyKey := by
    rw [(merge_comment_frame st _).2.1]
  rw [foldReplies_exists_eq eo so topic d _ c.replies 0 st _ cnt hkeys hr]
  simp only [remergeComment]

theorem remergeReplies_sameShape (d cid : String) :
    ∀ (rs : List RawReply) (j : Nat) (st0 st : GraphState), sameShape st0 st →
      repliesPresent st0 d cid j rs = true →
      sameShape st0 (remergeReplies d cid j rs st)
  | [], _, _, _, hs, _ => hs
  | r :: rs, j, st0, st, hs, hp => by
    simp only [repliesPresent, Bool.and_eq_true] at hp
    have hchk : check_reply_exists st (replyIdOf cid j r.id) d = true := by
      rw [sameShape_check_reply st0 st hs]
      exact hp.1
    have hs' : sameShape st0 (merge_reply st
        ⟨replyIdOf cid j r.id, d, cid, r.body, r.author, r.score⟩) :=
      sameShape_trans hs (replyShape_sameShape (replyShape_merge_reply st _ hchk))
    simp only [remergeReplies]
    exact remergeReplies_sameShape d cid rs (j + 1) st0 _ hs' hp.2

theorem remergeComment_sameShape (d stance : String) (i : Nat) (c : RawComment)
    (st : GraphState)
    (hc : check_comment_exists st (commentIdOf stance i c.id) d = true)
    (hr : repliesPresent st d (commentIdOf stance i c.id) 0 c.replies = true) :
    sameShape st (remergeComment d stance i c st) := by
  rw [remergeComment]
  exact remergeReplies_sameShape d _ c.replies 0 st _
    (sameShape_merge_comment st _ hc) hr

theorem foldComments_reingest (eo so : LLM) (topic d stance : String) :
    ∀ (cs : List RawComment) (i : Nat) (st0 st : GraphState) (cnt : Counts),
      sameShape st0 st →
      commentsPresent st0 d stance i cs = true →
      ∃ st2, foldIdxM (processComment eo so topic d stance) i cs (st, cnt) = .ok (st2, cnt) ∧
        sameShape st0 st2
  | [], i, st0, st, cnt, hs, _ => ⟨st, by simp only [foldIdxM], hs⟩
  | c :: cs, i, st0, st, cnt, hs, hp => by
    simp only [commentsPresent, commentPresent, Bool.and_eq_true] at hp
    have hc : check_comment_exists st (commentIdOf stance i c.id) d = true := by
      rw [sameShape_check_comment st0 st hs]
      exact hp.1.1
    have hrp : repliesPresent st d (commentIdOf stance i c.id) 0 c.replies = true := by
      rw [repliesPresent_congr st0 st hs.2.2.1 d _ c.replies 0]
      exact hp.1.2
    have hstep := processComment_exists_eq eo so topic d stance i c st cnt hc hrp
    have hs2 : sameShape st0 (remergeComment d stance i c st) :=
      sameShape_trans hs (remergeComment_sameShape d stance i c st hc hrp)
    obtain ⟨st2, hfold, hshape⟩ :=
      foldComments_reingest eo so topic d stance cs (i + 1) st0 _ cnt hs2 hp.2
    refine ⟨st2, ?_, hshape⟩
    simp only [foldIdxM, hstep, except_bind_ok]
    exact hfold

theorem runIngestLoop_reingest (eo so : LLM) (topic d : String) (td : ThreadData)
    (st : GraphState) (h : threadPresent st d td = true) :
    ∃ st2, runIngestLoop eo so topic d td st = .ok (st2, ⟨0, 0, 0, false⟩) ∧
      sameShape st st2 := by
  simp only [threadPresent, Bool.and_eq_true] at h
  obtain ⟨s1, h1, hs1⟩ := foldComments_reingest eo so topic d "FOR" td.commentsFor 0 st st
    ⟨0, 0, 0, false⟩ (sameShape_refl st) h.1.1
  obtain ⟨s2, h2, hs2⟩ := foldComments_reingest eo so topic d "AGAINST" td.commentsAgainst 0
    st s1 ⟨0, 0, 0, false⟩ hs1 h.1.2
  obtain ⟨s3, h3, hs3⟩ := foldComments_reingest eo so topic d "NEUTRAL" td.commentsNeutral 0
    st s2 ⟨0, 0, 0, false⟩ hs2 h.2
  refine ⟨s3, ?_, hs3⟩
  simp only [runIngestLoop, h1, except_bind_ok, h2, h3]

/-- C9: when a comment and all of its replies already exist for their
`(id, discussion_id)` keys, re-processing that comment in the ingestion loop
only re-merges the existing Comment and Reply nodes (upserting their mutable
body/author/score fields): the result is independent of the extraction and
stance oracles (no re-extraction, no re-classification), the counters are
returned unchanged, and the graph keeps the same topics, arguments, groups,
stance edges, reply edges, extracted edges and `HAS_GROUP` edges, and the
same comment/reply key sequences (in particular no new stance edge for the
unit and no new node). -/
theorem C9_reingest_existing_upserts_only (eo so : LLM) (topic d stance : String)
    (i : Nat) (c : RawComment) (st : GraphState) (cnt : Counts)
    (hc : check_comment_exists st (commentIdOf stance i c.id) d = true)
    (hr : repliesPresent st d (commentIdOf stance i c.id) 0 c.replies = true) :
    processComment eo so topic d stance i c (st, cnt)
      = .ok (remergeComment d stance i c st, cnt) ∧
    sameShape st (remergeComment d stance i c st) :=
  ⟨processComment_exists_eq eo so topic d stance i c st cnt hc hr,
    remergeComment_sameShape d stance i c st hc hr⟩

/-- Witness for C9: a graph already holding comment `c1` of discussion `D`
with its reply `reply_r1`, re-processed with edited body/author/score. -/
theorem C9_witness :
    check_comment_exists (⟨[⟨"u", "T", "D"⟩], [⟨"c1", "D", "b", "a", 1⟩],
        [⟨"reply_r1", "D", "c1", "rb", "ra", 2⟩], [], [], [⟨"c1", "T", "SUPPORTS", "D"⟩],
        [⟨"reply_r1", "c1", "D"⟩], [], []⟩ : GraphState) (commentIdOf "FOR" 0 "c1") "D"
      = true ∧
    repliesPresent (⟨[⟨"u", "T", "D"⟩], [⟨"c1", "D", "b", "a", 1⟩],
        [⟨"reply_r1", "D", "c1", "rb", "ra", 2⟩], [], [], [⟨"c1", "T", "SUPPORTS", "D"⟩],
        [⟨"reply_r1", "c1", "D"⟩], [], []⟩ : GraphState) "D" (commentIdOf "FOR" 0 "c1") 0
        [⟨"r1", "rb2", "ra2", 7⟩] = true ∧
    (processComment (pureLLM fun _ _ => "X") (pureLLM fun _ _ => "Y") "T" "D" "FOR" 0
        ⟨"c1", "b2", "a2", 5, [⟨"r1", "rb2", "ra2", 7⟩]⟩
        (⟨[⟨"u", "T", "D"⟩], [⟨"c1", "D", "b", "a", 1⟩],
          [⟨"reply_r1", "D", "c1", "rb", "ra", 2⟩], [], [], [⟨"c1", "T", "SUPPORTS", "D"⟩],
          [⟨"reply_r1", "c1", "D"⟩], [], []⟩, ⟨3, 4, 5, true⟩)
      = .ok (remergeComment "D" "FOR" 0 ⟨"c1", "b2", "a2", 5, [⟨"r1", "rb2", "ra2", 7⟩]⟩
          ⟨[⟨"u", "T", "D"⟩], [⟨"c1", "D", "b", "a", 1⟩],
            [⟨"reply_r1", "D", "c1", "rb", "ra", 2⟩], [], [], [⟨"c1", "T", "SUPPORTS", "D"⟩],
            [⟨"reply_r1", "c1", "D"⟩], [], []⟩, ⟨3, 4, 5, true⟩) ∧
      sameShape (⟨[⟨"u", "T", "D"⟩], [⟨"c1", "D", "b", "a", 1⟩],
          [⟨"reply_r1", "D", "c1", "rb", "ra", 2⟩], [], [], [⟨"c1", "T", "SUPPORTS", "D"⟩],
          [⟨"reply_r1", "c1", "D"⟩], [], []⟩ : GraphState)
        (remergeComment "D" "FOR" 0 ⟨"c1", "b2", "a2", 5, [⟨"r1", "rb2", "ra2", 7⟩]⟩
          ⟨[⟨"u", "T", "D"⟩], [⟨"c1", "D", "b", "a", 1⟩],
            [⟨"reply_r1", "D", "c1", "rb", "ra", 2⟩], [], [], [⟨"c1", "T", "SUPPORTS", "D"⟩],
            [⟨"reply_r1", "c1", "D"⟩], [], []⟩)) :=
  ⟨by decide, by decide,
    C9_reingest_existing_upserts_only (pureLLM fun _ _ => "X") (pureLLM fun _ _ => "Y")
      "T" "D" "FOR" 0 ⟨"c1", "b2", "a2", 5, [⟨"r1", "rb2", "ra2", 7⟩]⟩
      ⟨[⟨"u", "T", "D"⟩], [⟨"c1", "D", "b", "a", 1⟩],
        [⟨"reply_r1", "D", "c1", "rb", "ra", 2⟩], [], [], [⟨"c1", "T", "SUPPORTS", "D"⟩],
        [⟨"reply_r1", "c1", "D"⟩], [], []⟩ ⟨3, 4, 5, true⟩ (by decide) (by decide)⟩

/-- C4: the argument grouping engine is invoked at the end of
`create_knowledge_graph` exactly when the ingestion added at least one new
comment or reply: the returned `new_content_added` flag equals
`comments + replies > 0` of the created counts, and the final graph is the
regrouped ingestion state precisely when that flag is set, the un-regrouped
ingestion state otherwise (so re-ingesting an identical thread, which creates
zero new units, skips regrouping). -/
theorem C4_regroup_iff_new_content (eo so : LLM) (groupO : String → String → String)
    (chainOk driverOk : Bool) (freshId : String) (td : ThreadData) (st stf : GraphState)
    (res : KGResult)
    (h : create_knowledge_graph eo so groupO chainOk driverOk freshId td st = .ok (stf, res)) :
    res.new_content_added = decide (0 < res.commentsCreated + res.repliesCreated) ∧
    ∃ stI cnt,
      runIngestLoop eo so td.title res.discussion_id td
          (merge_topic st td.title res.discussion_id td.url) = .ok (stI, cnt) ∧
      cnt.newContent = res.new_content_added ∧
      stf = if res.new_content_added then
          group_arguments_by_stance groupO chainOk driverOk res.discussion_id stI
        else stI := by
  simp only [create_knowledge_graph] at h
  cases hrun : runIngestLoop eo so td.title (resolveDiscussionId st freshId td.url) td
      (merge_topic st td.title (resolveDiscussionId st freshId td.url) td.url) with
  | error e => rw [hrun, except_bind_err] at h; exact absurd h (by simp)
  | ok p =>
    obtain ⟨stI, cnt⟩ := p
    rw [hrun, except_bind_ok] at h
    simp only [Except.ok.injEq, Prod.mk.injEq] at h
    obtain ⟨hstf, hres⟩ := h
    subst hres
    refine ⟨runIngestLoop_counts eo so td.title _ td _ stI cnt hrun, stI, cnt, hrun, rfl,
      hstf.symm⟩

/-- Witness for C4 at an empty thread: no new unit is created, the flag is
false and the final state is the un-regrouped ingestion state. -/
theorem C4_witness :
    create_knowledge_graph (pureLLM fun _ _ => "") (pureLLM fun _ _ => "") (fun _ _ => "")
        true true "D" ⟨"T", "u", [], [], []⟩ emptyGraph
      = .ok (⟨[⟨"u", "T", "D"⟩], [], [], [], [], [], [], [], []⟩,
          ⟨"success", "D", 1, 0, 0, 0, false⟩) ∧
    ((⟨"success", "D", 1, 0, 0, 0, false⟩ : KGResult).new_content_added
        = decide (0 < (⟨"success", "D", 1, 0, 0, 0, false⟩ : KGResult).commentsCreated
            + (⟨"success", "D", 1, 0, 0, 0, false⟩ : KGResult).repliesCreated) ∧
      ∃ stI cnt,
        runIngestLoop (pureLLM fun _ _ => "") (pureLLM fun _ _ => "")
            (⟨"T", "u", [], [], []⟩ : ThreadData).title
            (⟨"success", "D", 1, 0, 0, 0, false⟩ : KGResult).discussion_id
            ⟨"T", "u", [], [], []⟩
            (merge_topic emptyGraph (⟨"T", "u", [], [], []⟩ : ThreadData).title
              (⟨"success", "D", 1, 0, 0, 0, false⟩ : KGResult).discussion_id
              (⟨"T", "u", [], [], []⟩ : ThreadData).url) = .ok (stI, cnt) ∧
        cnt.newContent = (⟨"success", "D", 1, 0, 0, 0, false⟩ : KGResult).new_content_added ∧
        (⟨[⟨"u", "T", "D"⟩], [], [], [], [], [], [], [], []⟩ : GraphState)
          = if (⟨"success", "D", 1, 0, 0, 0, false⟩ : KGResult).new_content_added then
              group_arguments_by_stance (fun _ _ => "") true true
                (⟨"success", "D", 1, 0, 0, 0, false⟩ : KGResult).discussion_id stI
            else stI) :=
  ⟨by decide,
    C4_regroup_iff_new_content (pureLLM fun _ _ => "") (pureLLM fun _ _ => "")
      (fun _ _ => "") true true "D" ⟨"T", "u", [], [], []⟩ emptyGraph
      ⟨[⟨"u", "T", "D"⟩], [], [], [], [], [], [], [], []⟩
      ⟨"success", "D", 1, 0, 0, 0, false⟩ (by decide)⟩

/-- C1: re-ingesting the identical thread tree is idempotent.  If a first run
of `create_knowledge_graph` succeeds (with a non-empty resolved discussion
id, as `str(uuid.uuid4())` always is), then a second run on the same input
succeeds with `new_content_added = false` and zero created comments, replies
and arguments, and the second final graph has the same topics, arguments,
groups and all edge lists, and the same Comment/Reply key sequences as the
first: no duplicate Comment, Reply or Argument node is created. -/
theorem C1_reingest_idempotent (eo so : LLM) (groupO : String → String → String)
    (chainOk driverOk : Bool) (fresh1 fresh2 : String) (td : ThreadData)
    (st0 st1 : GraphState) (res1 : KGResult)
    (hfresh : resolveDiscussionId st0 fresh1 td.url ≠ "")
    (h1 : create_knowledge_graph eo so groupO chainOk driverOk fresh1 td st0
      = .ok (st1, res1)) :
    ∃ st2 res2,
      create_knowledge_graph eo so groupO chainOk driverOk fresh2 td st1 = .ok (st2, res2) ∧
      res2.new_content_added = false ∧ res2.commentsCreated = 0 ∧
      res2.repliesCreated = 0 ∧ res2.argumentsCreated = 0 ∧
      sameShape st1 st2 := by
  simp only [create_knowledge_graph] at h1
  cases hrun : runIngestLoop eo so td.title (resolveDiscussionId st0 fresh1 td.url) td
      (merge_topic st0 td.title (resolveDiscussionId st0 fresh1 td.url) td.url) with
  | error e => rw [hrun, except_bind_err] at h1; exact absurd h1 (by simp)
  | ok p =>
    obtain ⟨stI, cnt1⟩ := p
    rw [hrun, except_bind_ok] at h1
    simp only [Except.ok.injEq, Prod.mk.injEq] at h1
    obtain ⟨hst1, -⟩ := h1
    obtain ⟨hkey, hpres, htop⟩ := runIngestLoop_post eo so td.title _ td _ stI cnt1 hrun
    obtain ⟨hany, hset⟩ :=
      merge_topic_settles st0 td.title (resolveDiscussionId st0 fresh1 td.url) td.url
    have hframe : st1.comments = stI.comments ∧ st1.replies = stI.replies ∧
        st1.topics = stI.topics := by
      rw [← hst1]
      by_cases hn : cnt1.newContent = true
      · rw [if_pos hn]
        obtain ⟨t7, c7, r7, _, _, _, _⟩ := regroup_frame7 groupO chainOk driverOk _ stI
        exact ⟨c7, r7, t7⟩
      · rw [if_neg hn]
        exact ⟨rfl, rfl, rfl⟩
    have hkey1 : keyLe stI st1 := keyLe_of_eq stI st1 hframe.1 hframe.2.1
    have hpres1 : threadPresent st1 (resolveDiscussionId st0 fresh1 td.url) td = true :=
      threadPresent_mono _ _ hkey1 _ td hpres
    have htop1 : st1.topics
        = (merge_topic st0 td.title (resolveDiscussionId st0 fresh1 td.url) td.url).topics :=
      hframe.2.2.trans htop
    have hany1 : st1.topics.any (fun t => t.url == td.url) = true := by
      rw [htop1]; exact hany
    have hset1 : ∀ t ∈ st1.topics, t.url = td.url →
        t.title = td.title ∧ t.discussion_id = resolveDiscussionId st0 fresh1 td.url := by
      rw [htop1]; exact hset
    have hd2 : resolveDiscussionId st1 fresh2 td.url
        = resolveDiscussionId st0 fresh1 td.url :=
      resolve_of_settled st1 fresh2 td.url _ hfresh
        (check_existing_of_settled st1 td.url _ hany1 (fun t ht htu => (hset1 t ht htu).2))
    have hmt2 : merge_topic st1 td.title (resolveDiscussionId st0 fresh1 td.url) td.url
        = st1 :=
      merge_topic_idem st1 td.title _ td.url hany1 hset1
    obtain ⟨st2, hrun2, hshape2⟩ := runIngestLoop_reingest eo so td.title
      (resolveDiscussionId st0 fresh1 td.url) td st1 hpres1
    refine ⟨st2, ⟨"success", resolveDiscussionId st0 fresh1 td.url, 1, 0, 0, 0, false⟩,
      ?_, rfl, rfl, rfl, rfl, hshape2⟩
    simp only [create_knowledge_graph, hd2, hmt2, hrun2, except_bind_ok,
      Bool.false_eq_true, if_false]

/-- Witness for C1: a thread with one comment carrying one reply, ingested
into the empty graph and then re-ingested. -/
theorem C1_witness :
    resolveDiscussionId emptyGraph "D" "u" ≠ "" ∧
    create_knowledge_graph (pureLLM fun _ _ => "No clear arguments found")
        (pureLLM fun _ _ => "FOR") (fun _ _ => "") false false "D"
        ⟨"T", "u", [⟨"c1", "hello", "a", 1, [⟨"r1", "hi", "b", 2⟩]⟩], [], []⟩ emptyGraph
      = .ok (⟨[⟨"u", "T", "D"⟩], [⟨"c1", "D", "hello", "a", 1⟩],
          [⟨"reply_r1", "D", "c1", "hi", "b", 2⟩], [], [],
          [⟨"c1", "T", "SUPPORTS", "D"⟩], [⟨"reply_r1", "c1", "D"⟩], [], []⟩,
          ⟨"success", "D", 1, 1, 1, 0, true⟩) ∧
    ∃ st2 res2,
      create_knowledge_graph (pureLLM fun _ _ => "No clear arguments found")
          (pureLLM fun _ _ => "FOR") (fun _ _ => "") false false "E"
          ⟨"T", "u", [⟨"c1", "hello", "a", 1, [⟨"r1", "hi", "b", 2⟩]⟩], [], []⟩
          ⟨[⟨"u", "T", "D"⟩], [⟨"c1", "D", "hello", "a", 1⟩],
            [⟨"reply_r1", "D", "c1", "hi", "b", 2⟩], [], [],
            [⟨"c1", "T", "SUPPORTS", "D"⟩], [⟨"reply_r1", "c1", "D"⟩], [], []⟩
        = .ok (st2, res2) ∧
      res2.new_content_added = false ∧ res2.commentsCreated = 0 ∧
      res2.repliesCreated = 0 ∧ res2.argumentsCreated = 0 ∧
      sameShape (⟨[⟨"u", "T", "D"⟩], [⟨"c1", "D", "hello", "a", 1⟩],
          [⟨"reply_r1", "D", "c1", "hi", "b", 2⟩], [], [],
          [⟨"c1", "T", "SUPPORTS", "D"⟩], [⟨"reply_r1", "c1", "D"⟩], [], []⟩ : GraphState)
        st2 :=
  ⟨by decide, by decide,
    C1_reingest_idempotent (pureLLM fun _ _ => "No clear arguments found")
      (pureLLM fun _ _ => "FOR") (fun _ _ => "") false false "D" "E"
      ⟨"T", "u", [⟨"c1", "hello", "a", 1, [⟨"r1", "hi", "b", 2⟩]⟩], [], []⟩ emptyGraph
      ⟨[⟨"u", "T", "D"⟩], [⟨"c1", "D", "hello", "a", 1⟩],
        [⟨"reply_r1", "D", "c1", "hi", "b", 2⟩], [], [],
        [⟨"c1", "T", "SUPPORTS", "D"⟩], [⟨"reply_r1", "c1", "D"⟩], [], []⟩
      ⟨"success", "D", 1, 1, 1, 0, true⟩ (by decide) (by decide)⟩

end KG
